import Mathlib

set_option autoImplicit false

/-!
# The named GPU-IPC handle table of `p2p/allocator.cc`

A shallow embedding of the shared-memory name table (`reg_ipc_with_name`,
`dereg_ipc_with_name`, `get_ipc_by_name_once`, `check_ipc_by_name_once`) and of the
segment lifecycle underneath it (`shm_open_or_attach`, `shm_detach_with_name`,
`check_and_get_g_ipc_shm_ptr`), executed by one thread of one process.

* bytes (`char`) are natural numbers, a `std::string` is the list of its bytes;
* `uint64_t`/`size_t`/`uintptr_t` values are natural numbers, reduced `% 2 ^ 64`
  where the code can wrap;
* the shared-memory objects of the OS, the name space that binds names to them, the
  mappings of the process and the process-wide cached pointer form the `World`;
* a result `none` of an operation is a dead process: `GPU_RT_CHECK` aborted, or the
  code dereferenced an address that is not mapped.
-/

namespace Allocator

/-! ## Constants -/

/-- `#define SHM_ITEM_NAME_MAX_LEN 64` -/
abbrev SHM_ITEM_NAME_MAX_LEN : Nat := 64

/-- `#define SHM_ITEM_COUNT 1024` -/
abbrev SHM_ITEM_COUNT : Nat := 1024

/-- `#define IPC_SHM_PATH "p2p_ipc"`, as bytes. -/
def IPC_SHM_PATH : List Nat := [112, 50, 112, 95, 105, 112, 99]

/-- `#define kIpcAlignment (1ul << 20)` -/
def kIpcAlignment : Nat := 1 <<< 20

/-- Number of values of a `uint64_t`. -/
def UINT64_RANGE : Nat := 2 ^ 64

/-! ## Data model -/

/-- Modelled from the spec: the driver handle type `gpuIpcMemHandle_t` of
`util/gpu_rt.h` ("opaque driver handle bytes"), represented by the number its bytes
encode; the zero-initialised handle is `0`. -/
abbrev gpuIpcMemHandle_t := Nat

/-- `struct IPCMemHandle` -/
structure IPCMemHandle where
  handle : gpuIpcMemHandle_t
  offset : Nat
  size : Nat
deriving DecidableEq, Repr

/-- `IPCMemHandle null_handle{}` -/
def null_handle : IPCMemHandle := ⟨0, 0, 0⟩

/-- `struct IPCEntry`: `used` is `0` (empty), `2` (reserved) or `1` (occupied). -/
structure IPCEntry where
  used : Int
  name : List Nat
  handle : IPCMemHandle
deriving DecidableEq, Repr

/-- `struct ShmHeader` -/
structure ShmHeader where
  refcount : Nat
  itemcount : Nat
deriving DecidableEq, Repr

/-- The contents of one shared-memory object: the header followed by the table of
`SHM_ITEM_COUNT` entries (`shm_get_shm_header`, `shm_get_table`). -/
structure Segment where
  header : ShmHeader
  table : Fin SHM_ITEM_COUNT → IPCEntry

/-- An entry of zero bytes. -/
def zeroEntry : IPCEntry := ⟨0, List.replicate SHM_ITEM_NAME_MAX_LEN 0, null_handle⟩

/-- A region of zero bytes (`memset(addr, 0, total_size)`). -/
def zeroSegment : Segment := ⟨⟨0, 0⟩, fun _ => zeroEntry⟩

/-- The state the code runs in.
* `objs o` is the content of shared-memory object `o`; objects `< nobjs` have been created;
* `named n` is the object bound to the name `n` in the OS name space;
* `maps a` is the object mapped at address `a` in this process;
* `g_ipc_shm_ptr_` is the cached pointer, `0` for `nullptr`. -/
structure World where
  objs : Nat → Segment
  nobjs : Nat
  named : List Nat → Option Nat
  maps : Nat → Option Nat
  g_ipc_shm_ptr_ : Nat

/-- What the OS answers to the fallible calls of one `shm_open_or_attach`. -/
structure OsOutcome where
  /-- the exclusive `shm_open` fails with an `errno` other than `EEXIST` -/
  create_denied : Bool
  ftruncate_ok : Bool
  /-- the non-exclusive `shm_open` of an existing object succeeds -/
  open_ok : Bool
  mmap_ok : Bool
  /-- the address `mmap` would choose -/
  mmap_addr : Nat

/-! ## libc -/

/-- `std::string::c_str()`: the bytes followed by the terminating NUL. -/
def c_str (s : List Nat) : List Nat := s ++ [0]

/-- `strncmp(s1, s2, n)`; a byte past the end of a list reads as NUL. -/
def strncmp : List Nat → List Nat → Nat → Int
  | _, _, 0 => 0
  | s1, s2, n + 1 =>
    let c1 := s1.headD 0
    let c2 := s2.headD 0
    if c1 ≠ c2 then (c1 : Int) - (c2 : Int)
    else if c1 = 0 then 0
    else strncmp s1.tail s2.tail n

/-- `strncpy(dst, src, n)`: copies up to the NUL of `src`, pads with NUL up to `n` bytes. -/
def strncpy (dst src : List Nat) : Nat → List Nat
  | 0 => dst
  | n + 1 =>
    let c := src.headD 0
    c :: strncpy dst.tail (if c = 0 then [] else src.tail) n

/-- `memset(dst, c, n)` -/
def memset (dst : List Nat) (c n : Nat) : List Nat := List.replicate n c ++ dst.drop n

/-- `fetch_add(1)` on a `uint64_t`: the stored value. -/
def fetch_add_1 (v : Nat) : Nat := (v + 1) % UINT64_RANGE

/-- `fetch_sub(1)` on a `uint64_t`: the stored value, `v - 1` modulo `2 ^ 64`. -/
def fetch_sub_1 (v : Nat) : Nat := ((UINT64_RANGE - 1) + v) % UINT64_RANGE

/-! ## Access to mapped memory -/

/-- Replace the content of object `o`. -/
def World.store (w : World) (o : Nat) (s : Segment) : World :=
  { w with objs := Function.update w.objs o s }

/-- `shm_unlink(n)` -/
def World.shm_unlink (w : World) (n : List Nat) : World :=
  { w with named := Function.update w.named n none }

/-- `munmap(a, _)` -/
def World.munmap (w : World) (a : Nat) : World :=
  { w with maps := Function.update w.maps a none }

/-- `mmap(nullptr, _, PROT_READ | PROT_WRITE, MAP_SHARED, fd, 0)` of object `o`: the new
address and the world, or `none` for `MAP_FAILED`. -/
def World.mmap (w : World) (os : OsOutcome) (o : Nat) : Option (Nat × World) :=
  if os.mmap_ok = true ∧ os.mmap_addr ≠ 0 ∧ w.maps os.mmap_addr = none then
    some (os.mmap_addr, { w with maps := Function.update w.maps os.mmap_addr (some o) })
  else none

/-- Store to `refcount` of a segment. -/
def Segment.setRefcount (s : Segment) (v : Nat) : Segment :=
  { s with header := { s.header with refcount := v } }

/-- Store to `itemcount` of a segment. -/
def Segment.setItemcount (s : Segment) (v : Nat) : Segment :=
  { s with header := { s.header with itemcount := v } }

/-- Store to one entry of the table. -/
def Segment.setEntry (s : Segment) (idx : Fin SHM_ITEM_COUNT) (e : IPCEntry) : Segment :=
  { s with table := Function.update s.table idx e }

/-! ## Segment lifecycle -/

/-- `shm_open_or_attach(shm_file_name, data_size)`: the returned address (`0` for
`nullptr`) and the world afterwards. The byte size of the region is not part of the
state: every object holds one header and one table. -/
def shm_open_or_attach (os : OsOutcome) (shm_file_name : List Nat) (w : World) : Nat × World :=
  let shm_name := (47 :: shm_file_name).take 255
  -- fd = shm_open(shm_name, O_CREAT | O_EXCL | O_RDWR, 0666)
  let fd : Option (Nat × Bool) × World :=
    if os.create_denied = true then (none, w)
    else match w.named shm_name with
      | none =>
        -- a new object is bound to the name
        let o := w.nobjs
        let w1 : World := { w with nobjs := o + 1,
                                   named := Function.update w.named shm_name (some o) }
        -- ftruncate extends it with zero bytes
        if os.ftruncate_ok = true then (some (o, true), w1.store o zeroSegment)
        else (none, w1.shm_unlink shm_name)
      | some o =>
        -- errno == EEXIST: fd = shm_open(shm_name, O_RDWR, 0666)
        if os.open_ok = true then (some (o, false), w) else (none, w)
  match fd with
  | (none, w1) => (0, w1)
  | (some (o, created), w1) =>
    match w1.mmap os o with
    | none => (0, if created = true then w1.shm_unlink shm_name else w1)
    | some (addr, w2) =>
      let w3 := if created = true then w2.store o zeroSegment else w2
      let w4 := if created = true then
          w3.store o (((w3.objs o).setRefcount 0).setItemcount 0) else w3
      (addr, w4.store o ((w4.objs o).setRefcount (fetch_add_1 (w4.objs o).header.refcount)))

/-- `shm_detach_with_name(shm_ptr, data_size, shm_file_name)` -/
def shm_detach_with_name (shm_ptr : Nat) (shm_file_name : List Nat) (w : World) :
    Option (Bool × World) :=
  if shm_ptr = 0 then some (false, w)
  else
    match w.maps shm_ptr with
    | none => none
    | some o =>
      let old_count := (w.objs o).header.refcount
      let w1 := w.store o ((w.objs o).setRefcount (fetch_sub_1 old_count))
      -- g_ipc_shm_ptr_.compare_exchange_strong(expected = shm_ptr, nullptr)
      let w2 : World :=
        if w1.g_ipc_shm_ptr_ = shm_ptr then { w1 with g_ipc_shm_ptr_ := 0 } else w1
      let w3 := w2.munmap shm_ptr
      let w4 := if old_count = 1 then w3.shm_unlink ((47 :: shm_file_name).take 255) else w3
      some (true, w4)

/-- `check_and_get_g_ipc_shm_ptr()` -/
def check_and_get_g_ipc_shm_ptr (os : OsOutcome) (w : World) : Nat × World :=
  let cur := w.g_ipc_shm_ptr_
  if cur = 0 then
    let r := shm_open_or_attach os IPC_SHM_PATH w
    let addr := r.1
    let w1 := r.2
    if addr = 0 then (0, w1)
    else
      -- g_ipc_shm_ptr_.compare_exchange_strong(expected = nullptr, addr)
      if w1.g_ipc_shm_ptr_ = 0 then (addr, { w1 with g_ipc_shm_ptr_ := addr })
      else
        let expected := w1.g_ipc_shm_ptr_
        (expected, if expected ≠ addr then w1.munmap addr else w1)
  else (cur, w)

/-! ## The name table -/

/-- The slot probed in iteration `i`: `idx = (h + i) % SHM_ITEM_COUNT`. -/
def slot (h i : Nat) : Fin SHM_ITEM_COUNT :=
  ⟨(h + i) % SHM_ITEM_COUNT, Nat.mod_lt _ (by decide)⟩

/-- The test of the probe loops of the lookups and of deregistration:
`table[idx].used.load() == 1 && strncmp(table[idx].name, name.c_str(), SHM_ITEM_NAME_MAX_LEN) == 0`. -/
def entryMatches (name : List Nat) (e : IPCEntry) : Bool :=
  decide (e.used = 1) && decide (strncmp e.name (c_str name) SHM_ITEM_NAME_MAX_LEN = 0)

/-- The loop `for (size_t i = 0; i < SHM_ITEM_COUNT; ++i)` of `reg_ipc_with_name`, with
`n` iterations left, the next one being iteration `i`: the value returned and the
segment afterwards. -/
def reg_loop (name : List Nat) (handle : IPCMemHandle) (h : Nat) :
    Nat → Nat → Segment → Bool × Segment
  | 0, _, seg => (false, seg)
  | n + 1, i, seg =>
    let idx := slot h i
    let used_val := (seg.table idx).used
    -- case 1: already in table with same key -> overwrite
    if used_val = 1 ∧
        strncmp (seg.table idx).name (c_str name) SHM_ITEM_NAME_MAX_LEN = 0 then
      let seg1 := seg.setEntry idx { seg.table idx with handle := handle }
      (true, seg1.setItemcount (fetch_add_1 seg1.header.itemcount))
    -- case 2: empty slot -> insert new (compare_exchange_strong(expected = 0, 2))
    else if (seg.table idx).used = 0 then
      let seg1 := seg.setEntry idx { seg.table idx with used := 2 }
      let seg2 := seg1.setEntry idx
        { seg1.table idx with name := memset (seg1.table idx).name 0 SHM_ITEM_NAME_MAX_LEN }
      let seg3 := seg2.setEntry idx
        { seg2.table idx with
          name := strncpy (seg2.table idx).name (c_str name) (SHM_ITEM_NAME_MAX_LEN - 1) }
      let seg4 := seg3.setEntry idx { seg3.table idx with handle := handle }
      let seg5 := seg4.setEntry idx { seg4.table idx with used := 1 }
      (true, seg5.setItemcount (fetch_add_1 seg5.header.itemcount))
    else reg_loop name handle h n (i + 1) seg

/-- The probe loop shared, statement for statement, by `dereg_ipc_with_name`,
`get_ipc_by_name_once`, `get_ipc_by_name_blocking` and `check_ipc_by_name_once`, with
`n` iterations left, the next one being iteration `i`: the index at which the `if`
fires, `none` when the loop runs to its end. -/
def find_loop (name : List Nat) (h : Nat) (table : Fin SHM_ITEM_COUNT → IPCEntry) :
    Nat → Nat → Option (Fin SHM_ITEM_COUNT)
  | 0, _ => none
  | n + 1, i =>
    let idx := slot h i
    if (table idx).used = 1 ∧
        strncmp (table idx).name (c_str name) SHM_ITEM_NAME_MAX_LEN = 0 then some idx
    else find_loop name h table n (i + 1)

/-- The first slot in probe order, among iterations `i, ..., i + n - 1`, at which `p`
holds: the shape common to the loops above. -/
def probe (p : Fin SHM_ITEM_COUNT → Bool) (h : Nat) : Nat → Nat → Option (Fin SHM_ITEM_COUNT)
  | 0, _ => none
  | n + 1, i => if p (slot h i) = true then some (slot h i) else probe p h n (i + 1)

/-- The name buffer after `memset` and `strncpy` of case 2 of `reg_ipc_with_name`. -/
def storedName (old name : List Nat) : List Nat :=
  strncpy (memset old 0 SHM_ITEM_NAME_MAX_LEN) (c_str name) (SHM_ITEM_NAME_MAX_LEN - 1)

/-- The segment after `reg_ipc_with_name` has written slot `idx`: case 1 when the entry
matches, case 2 otherwise. -/
def regWrite (name : List Nat) (handle : IPCMemHandle) (seg : Segment)
    (idx : Fin SHM_ITEM_COUNT) : Segment :=
  let e := seg.table idx
  let e1 : IPCEntry :=
    if entryMatches name e = true then { e with handle := handle }
    else { used := 1, name := storedName e.name name, handle := handle }
  (seg.setEntry idx e1).setItemcount (fetch_add_1 seg.header.itemcount)

/-- The test under which an iteration of the loop of `reg_ipc_with_name` returns. -/
def regHit (name : List Nat) (e : IPCEntry) : Bool :=
  entryMatches name e || decide (e.used = 0)

section Operations

variable (hash : List Nat → Nat) (gpuIpcGetMemHandle : Nat → Option gpuIpcMemHandle_t)

/-- `reg_ipc_with_name(ptr, size, name)`. `hash` is `std::hash<std::string>`,
`gpuIpcGetMemHandle a` is the handle the GPU runtime returns for the address `a`, `none`
when the call fails and `GPU_RT_CHECK` ends the process. -/
def reg_ipc_with_name (os : OsOutcome) (ptr size : Nat) (name : List Nat) (w : World) :
    Option (Bool × World) :=
  let r := check_and_get_g_ipc_shm_ptr os w
  let cur := r.1
  let w1 := r.2
  if cur = 0 then some (false, w1)
  else
    let ptr_val := ptr
    -- ptr_val & ~(kIpcAlignment - 1)
    let ptr_aligned := ptr_val &&& ((UINT64_RANGE - 1) ^^^ (kIpcAlignment - 1))
    let offset := ptr_val - ptr_aligned
    match gpuIpcGetMemHandle ptr_aligned with
    | none => none
    | some gh =>
      let handle : IPCMemHandle := { handle := gh, offset := offset, size := size }
      match w1.maps cur with
      | none => none
      | some o =>
        let h := hash name % SHM_ITEM_COUNT
        let res := reg_loop name handle h SHM_ITEM_COUNT 0 (w1.objs o)
        some (res.1, w1.store o res.2)

/-- `dereg_ipc_with_name(name)` -/
def dereg_ipc_with_name (os : OsOutcome) (name : List Nat) (w : World) :
    Option (Bool × World) :=
  let r := check_and_get_g_ipc_shm_ptr os w
  let cur := r.1
  let w1 := r.2
  if cur = 0 then some (false, w1)
  else
    match w1.maps cur with
    | none => none
    | some o =>
      let h := hash name % SHM_ITEM_COUNT
      match find_loop name h (w1.objs o).table SHM_ITEM_COUNT 0 with
      | some idx =>
        -- mark empty
        let w2 := w1.store o ((w1.objs o).setEntry idx { (w1.objs o).table idx with used := 0 })
        let old_id := (w2.objs o).header.itemcount
        let w3 := w2.store o ((w2.objs o).setItemcount (fetch_sub_1 old_id))
        if old_id = 1 then
          (shm_detach_with_name cur IPC_SHM_PATH w3).map (fun d => (true, d.2))
        else some (true, w3)
      | none =>
        let old_id := (w1.objs o).header.itemcount
        let w3 := w1.store o ((w1.objs o).setItemcount (fetch_sub_1 old_id))
        if old_id = 1 then
          (shm_detach_with_name cur IPC_SHM_PATH w3).map (fun d => (false, d.2))
        else some (false, w3)

/-- `get_ipc_by_name_once(name)` -/
def get_ipc_by_name_once (os : OsOutcome) (name : List Nat) (w : World) :
    Option (IPCMemHandle × World) :=
  let r := check_and_get_g_ipc_shm_ptr os w
  let cur := r.1
  let w1 := r.2
  if cur = 0 then some (null_handle, w1)
  else
    match w1.maps cur with
    | none => none
    | some o =>
      let h := hash name % SHM_ITEM_COUNT
      match find_loop name h (w1.objs o).table SHM_ITEM_COUNT 0 with
      | some idx => some (((w1.objs o).table idx).handle, w1)
      | none => some (null_handle, w1)

/-- `check_ipc_by_name_once(name)`: 1 g_ipc error, 2 success, 3 not found. -/
def check_ipc_by_name_once (os : OsOutcome) (name : List Nat) (w : World) :
    Option (Int × World) :=
  let r := check_and_get_g_ipc_shm_ptr os w
  let cur := r.1
  let w1 := r.2
  if cur = 0 then some (1, w1)
  else
    match w1.maps cur with
    | none => none
    | some o =>
      let h := hash name % SHM_ITEM_COUNT
      match find_loop name h (w1.objs o).table SHM_ITEM_COUNT 0 with
      | some _ => some (2, w1)
      | none => some (3, w1)

end Operations

/-- The segment after `dereg_ipc_with_name` whose probe ended with `found`: the slot
found is marked empty, `itemcount` is decremented in both cases. -/
def deregWrite (seg : Segment) (found : Option (Fin SHM_ITEM_COUNT)) : Segment :=
  let seg1 := match found with
    | some idx => seg.setEntry idx { seg.table idx with used := 0 }
    | none => seg
  seg1.setItemcount (fetch_sub_1 seg.header.itemcount)

/-- The number of Occupied slots of a table. -/
def occupiedCount (table : Fin SHM_ITEM_COUNT → IPCEntry) : Nat :=
  (List.finRange SHM_ITEM_COUNT).countP (fun j => decide ((table j).used = 1))

/-- The name under which the OS knows the segment: `"/" + IPC_SHM_PATH`. -/
def ipcShmName : List Nat := (47 :: IPC_SHM_PATH).take 255

/-- One call of the registration interface. -/
inductive Call where
  | reg (os : OsOutcome) (ptr size : Nat) (name : List Nat)
  | dereg (os : OsOutcome) (name : List Nat)

/-- One call, run in a state. -/
def Call.step (hash : List Nat → Nat) (gpuIpcGetMemHandle : Nat → Option gpuIpcMemHandle_t) :
    Call → World → Option (Bool × World)
  | .reg os ptr size name, w => reg_ipc_with_name hash gpuIpcGetMemHandle os ptr size name w
  | .dereg os name, w => dereg_ipc_with_name hash os name w

/-- A sequence of calls, run in order: the values returned and the final state. -/
def run (hash : List Nat → Nat) (gpuIpcGetMemHandle : Nat → Option gpuIpcMemHandle_t) :
    List Call → World → Option (List Bool × World)
  | [], w => some ([], w)
  | c :: cs, w =>
    match c.step hash gpuIpcGetMemHandle w with
    | none => none
    | some (b, w1) =>
      match run hash gpuIpcGetMemHandle cs w1 with
      | none => none
      | some (bs, w2) => some (b :: bs, w2)

/-! ## The blocking lookup, two callers attaching, two threads -/

/-- How a call of `get_ipc_by_name_blocking` stands after a bounded number of passes of
its `while (true)` loop. -/
inductive Blocking where
  /-- the call has returned this handle -/
  | returned (handle : IPCMemHandle) (w : World)
  /-- the call has read an address that is not mapped -/
  | crashed
  /-- the call is still in the loop -/
  | polling (w : World)

/-- The loop `while (true)` of `get_ipc_by_name_blocking`, cut after `n` passes, the
next one being pass `i`. `sleep i w` is the state in which the thread wakes up from the
`sleep_for` that ends pass `i`, after whatever the other processes did meanwhile. -/
def blocking_loop (hash : List Nat → Nat) (sleep : Nat → World → World) (name : List Nat)
    (cur : Nat) : Nat → Nat → World → Blocking
  | 0, _, w => .polling w
  | n + 1, i, w =>
    match w.maps cur with
    | none => .crashed
    | some o =>
      let h := hash name % SHM_ITEM_COUNT
      match find_loop name h (w.objs o).table SHM_ITEM_COUNT 0 with
      | some idx => .returned ((w.objs o).table idx).handle w
      | none => blocking_loop hash sleep name cur n (i + 1) (sleep i w)

/-- `get_ipc_by_name_blocking(name)`, observed for `passes` passes of its loop. -/
def get_ipc_by_name_blocking (hash : List Nat → Nat) (sleep : Nat → World → World)
    (os : OsOutcome) (name : List Nat) (w : World) (passes : Nat) : Blocking :=
  let r := check_and_get_g_ipc_shm_ptr os w
  let cur := r.1
  if cur = 0 then .returned null_handle r.2
  else blocking_loop hash sleep name cur passes 0 r.2

/-- The state in which the blocking lookup starts its pass `i`, when no pass before it
returned: `w` after the sleeps of the passes `0, ..., i - 1`. -/
def wake (sleep : Nat → World → World) : Nat → World → World
  | 0, w => w
  | i + 1, w => sleep i (wake sleep i w)

/-- Where a caller stands inside `shm_open_or_attach`, between two of its steps on the
shared object. -/
inductive SoaThread where
  /-- before the first `shm_open` -/
  | start
  /-- holding a descriptor of object `o`, with the flag `created` of the source -/
  | opened (o : Nat) (created : Bool)
  /-- after `mmap` returned the address `addr` -/
  | mapped (addr o : Nat) (created : Bool)
  /-- after `memset(addr, 0, total_size)`, on the creating path -/
  | zeroed (addr o : Nat)
  /-- after `refcount.store(0)` and `itemcount.store(0)`, on the creating path -/
  | stored (addr o : Nat)
  /-- returned `ret` -/
  | done (ret : Nat)
deriving DecidableEq, Repr

/-- One step of a caller inside `shm_open_or_attach(shm_file_name, _)`, in the order of
the source: the `shm_open` calls with `ftruncate`; `mmap`; then on the creating path
`memset`, the two `store(0)` and `refcount.fetch_add(1)`, and on the attaching path
`refcount.fetch_add(1)` alone. Other callers may run between two steps. -/
def soa_step (os : OsOutcome) (shm_file_name : List Nat) : SoaThread → World → SoaThread × World
  | .start, w =>
    let shm_name := (47 :: shm_file_name).take 255
    -- fd = shm_open(shm_name, O_CREAT | O_EXCL | O_RDWR, 0666)
    if os.create_denied = true then (.done 0, w)
    else match w.named shm_name with
      | none =>
        let o := w.nobjs
        let w1 : World := { w with nobjs := o + 1,
                                   named := Function.update w.named shm_name (some o) }
        if os.ftruncate_ok = true then (.opened o true, w1.store o zeroSegment)
        else (.done 0, w1.shm_unlink shm_name)
      | some o =>
        -- errno == EEXIST: fd = shm_open(shm_name, O_RDWR, 0666)
        if os.open_ok = true then (.opened o false, w) else (.done 0, w)
  | .opened o created, w =>
    match w.mmap os o with
    | none =>
      (.done 0, if created = true then w.shm_unlink ((47 :: shm_file_name).take 255) else w)
    | some (addr, w2) => (.mapped addr o created, w2)
  | .mapped addr o created, w =>
    if created = true then (.zeroed addr o, w.store o zeroSegment)
    else (.done addr,
      w.store o ((w.objs o).setRefcount (fetch_add_1 (w.objs o).header.refcount)))
  | .zeroed addr o, w =>
    (.stored addr o, w.store o (((w.objs o).setRefcount 0).setItemcount 0))
  | .stored addr o, w =>
    (.done addr, w.store o ((w.objs o).setRefcount (fetch_add_1 (w.objs o).header.refcount)))
  | .done ret, w => (.done ret, w)

/-- Two callers inside `shm_open_or_attach(shm_file_name, _)`, run under a schedule:
`false` lets the first caller take its next step, `true` the second. -/
def soa_run (os1 os2 : OsOutcome) (shm_file_name : List Nat) :
    List Bool → SoaThread × SoaThread × World → SoaThread × SoaThread × World
  | [], s => s
  | false :: sched, (t1, t2, w) =>
    let r := soa_step os1 shm_file_name t1 w
    soa_run os1 os2 shm_file_name sched (r.1, t2, r.2)
  | true :: sched, (t1, t2, w) =>
    let r := soa_step os2 shm_file_name t2 w
    soa_run os1 os2 shm_file_name sched (t1, r.1, r.2)

/-- Where a thread stands inside `check_and_get_g_ipc_shm_ptr`, between two of its
atomic steps. -/
inductive CagThread where
  /-- before `g_ipc_shm_ptr_.load` -/
  | start
  /-- after the load, holding the value read -/
  | loaded (cur : Nat)
  /-- after `shm_open_or_attach` returned the non-null `addr` -/
  | attached (addr : Nat)
  /-- returned `ret` -/
  | done (ret : Nat)
deriving DecidableEq, Repr

/-- One atomic step of a thread inside `check_and_get_g_ipc_shm_ptr`: the load, the
attach, or the `compare_exchange_strong` together with the `munmap` of the loser. -/
def cag_step (os : OsOutcome) : CagThread → World → CagThread × World
  | .start, w => (.loaded w.g_ipc_shm_ptr_, w)
  | .loaded cur, w =>
    if cur = 0 then
      let r := shm_open_or_attach os IPC_SHM_PATH w
      if r.1 = 0 then (.done 0, r.2) else (.attached r.1, r.2)
    else (.done cur, w)
  | .attached addr, w =>
    if w.g_ipc_shm_ptr_ = 0 then (.done addr, { w with g_ipc_shm_ptr_ := addr })
    else
      let expected := w.g_ipc_shm_ptr_
      (.done expected, if expected ≠ addr then w.munmap addr else w)
  | .done ret, w => (.done ret, w)

/-- Two threads of one process inside `check_and_get_g_ipc_shm_ptr`, run under a
schedule: `false` lets the first thread take its next step, `true` the second. -/
def cag_run (os1 os2 : OsOutcome) : List Bool → CagThread × CagThread × World →
    CagThread × CagThread × World
  | [], s => s
  | false :: sched, (t1, t2, w) =>
    let r := cag_step os1 t1 w
    cag_run os1 os2 sched (r.1, t2, r.2)
  | true :: sched, (t1, t2, w) =>
    let r := cag_step os2 t2 w
    cag_run os1 os2 sched (t1, r.1, r.2)

/-- An OS that lets every call succeed and maps at address 8192. -/
def osOk2 : OsOutcome :=
  { create_denied := false, ftruncate_ok := true, open_ok := true, mmap_ok := true,
    mmap_addr := 8192 }

/-- The schedule in which both threads load the null cache before either installs. -/
def raceSchedule : List Bool := [false, true, false, true, false, true]

/-- The schedule in which the second caller attaches while the first, which created the
object, stands between its `mmap` and its `memset`. -/
def overlapSchedule : List Bool := [false, false, true, true, true, false, false, false]

/-- The schedule in which the first caller returns before the second starts. -/
def inTurnSchedule : List Bool := [false, false, false, false, false, true, true, true]

/-! ## Concrete inputs -/

/-- A state in which nothing exists yet: no object, no mapping, a null cached pointer. -/
def emptyWorld : World :=
  { objs := fun _ => zeroSegment, nobjs := 0, named := fun _ => none, maps := fun _ => none,
    g_ipc_shm_ptr_ := 0 }

/-- An OS that lets every call succeed and maps at address 4096. -/
def osOk : OsOutcome :=
  { create_denied := false, ftruncate_ok := true, open_ok := true, mmap_ok := true,
    mmap_addr := 4096 }

/-- An OS that refuses to create or open the object. -/
def osFail : OsOutcome :=
  { create_denied := true, ftruncate_ok := false, open_ok := false, mmap_ok := false,
    mmap_addr := 0 }

/-- A hash function that sends every key to slot 5. -/
def hashFive : List Nat → Nat := fun _ => 5

/-- A GPU runtime whose handle for the address `a` is `a + 7`. -/
def gpuOk : Nat → Option gpuIpcMemHandle_t := fun a => some (a + 7)

/-- The state after `reg_ipc_with_name(3 * 2^20 + 5, 100, "a")` in `emptyWorld`. -/
def worldA : World :=
  ((reg_ipc_with_name hashFive gpuOk osOk (3 * 2 ^ 20 + 5) 100 [97] emptyWorld).getD
    (false, emptyWorld)).2

/-- The state after `reg_ipc_with_name(4 * 2^20 + 6, 200, "a")` in `worldA`. -/
def worldA2 : World :=
  ((reg_ipc_with_name hashFive gpuOk osFail (4 * 2 ^ 20 + 6) 200 [97] worldA).getD
    (false, emptyWorld)).2

/-- The handle `reg_ipc_with_name(ptr, size, _)` prepares when the GPU runtime is `gpuOk`. -/
def gpuOkHandle (ptr size : Nat) : IPCMemHandle :=
  { handle := (ptr &&& ((UINT64_RANGE - 1) ^^^ (kIpcAlignment - 1))) + 7,
    offset := ptr - (ptr &&& ((UINT64_RANGE - 1) ^^^ (kIpcAlignment - 1))),
    size := size }

/-- The calls that leave one key in two slots: register `a`, register `b`, deregister `a`,
register `b` again. -/
def dupCalls (a b : List Nat) : List Call :=
  [.reg osOk (3 * 2 ^ 20 + 5) 100 a, .reg osOk (4 * 2 ^ 20 + 6) 200 b, .dereg osOk a,
   .reg osOk (5 * 2 ^ 20 + 7) 300 b]

/-- A family of 1025 different two-byte keys without NUL byte. -/
def sampleKey (i : Nat) : List Nat := [i / 255 + 1, i % 255 + 1]

/-- The call `reg_ipc_with_name(ptr, size, name)` for the arguments `(os, ptr, size, name)`. -/
def Call.ofReg (c : OsOutcome × Nat × Nat × List Nat) : Call :=
  .reg c.1 c.2.1 c.2.2.1 c.2.2.2

/-- The slots of a table that are not Empty. -/
def nonEmptySlots (table : Fin SHM_ITEM_COUNT → IPCEntry) : Finset (Fin SHM_ITEM_COUNT) :=
  Finset.univ.filter (fun j => (table j).used ≠ 0)

/-- The shape of a segment into which the keys `ks` have been registered and nothing
else: every slot is Empty or Occupied with the stored name of one of the keys, and as
many slots are taken as there are keys. -/
def FilledWith (seg : Segment) (ks : List (List Nat)) : Prop :=
  (∀ j, (seg.table j).used = 0 ∨
    ((seg.table j).used = 1 ∧ ∃ k ∈ ks, ∃ old, (seg.table j).name = storedName old k)) ∧
  (nonEmptySlots seg.table).card = ks.length

/-- Registrations of the given keys, with pointer `3 * 2^20 + 5` and size 100. -/
def regCalls (keys : List (List Nat)) : List Call :=
  keys.map (fun k => Call.reg osOk (3 * 2 ^ 20 + 5) 100 k)

/-- 1025 different keys: 64 bytes `a`, 1023 two-byte keys, and last the 63 bytes `a` the
first key is cut to. -/
def truncMergeKeys : List (List Nat) :=
  List.replicate 64 97 :: ((List.range 1023).map (fun i => sampleKey i) ++ [List.replicate 63 97])

/-- 1025 different keys: 1024 two-byte keys, and last the first of them followed by a NUL
byte and one more byte. -/
def nulMergeKeys : List (List Nat) :=
  sampleKey 0 :: ((List.range 1023).map (fun i => sampleKey (i + 1)) ++ [sampleKey 0 ++ [0, 1]])

/-- Arguments of 1025 registrations of different two-byte keys. -/
def sampleArgs : List (OsOutcome × Nat × Nat × List Nat) :=
  (List.range (SHM_ITEM_COUNT + 1)).map (fun i => (osOk, 3 * 2 ^ 20 + 5, 100, sampleKey i))

/-- The call `dereg_ipc_with_name(name)` for the arguments `(os, name)`. -/
def Call.ofDereg (c : OsOutcome × List Nat) : Call :=
  .dereg c.1 c.2

/-- The process holds the only reference to the object `o`: `o` is bound to the name of
the segment, mapped at the cached pointer, its `refcount` is 1 and its `itemcount` is `n`. -/
def SoleOwner (w : World) (o n : Nat) : Prop :=
  w.g_ipc_shm_ptr_ ≠ 0 ∧ w.maps w.g_ipc_shm_ptr_ = some o ∧ w.named ipcShmName = some o ∧
  (w.objs o).header.refcount = 1 ∧ (w.objs o).header.itemcount = n

/-- A state whose segment is attached at address 4096 with every slot Reserved. -/
def fullWorld : World :=
  { objs := fun _ => { header := { refcount := 1, itemcount := 0 },
                       table := fun _ => { zeroEntry with used := 2 } },
    nobjs := 1, named := fun _ => some 0, maps := fun a => if a = 4096 then some 0 else none,
    g_ipc_shm_ptr_ := 4096 }

/-- The state after the attach of `check_and_get_g_ipc_shm_ptr` in `emptyWorld`. -/
def attachedWorld : World := (check_and_get_g_ipc_shm_ptr osOk emptyWorld).2

/-! ## The probe loops -/

theorem probe_eq_none {p : Fin SHM_ITEM_COUNT → Bool} {h : Nat} :
    ∀ (n i : Nat), probe p h n i = none ↔ ∀ k, k < n → p (slot h (i + k)) = false
  | 0, i => by simp [probe]
  | n + 1, i => by
    rw [probe]
    by_cases hp : p (slot h i) = true
    · rw [if_pos hp]
      constructor
      · intro hc; cases hc
      · intro hall
        have := hall 0 (Nat.succ_pos n)
        simp [hp] at this
    · rw [if_neg hp]
      rw [probe_eq_none n (i + 1)]
      constructor
      · intro hall k hk
        cases k with
        | zero => simpa using hp
        | succ k =>
          have := hall k (by omega)
          rwa [show i + 1 + k = i + (k + 1) by omega] at this
      · intro hall k hk
        have := hall (k + 1) (by omega)
        rwa [show i + (k + 1) = i + 1 + k by omega] at this

theorem probe_eq_some {p : Fin SHM_ITEM_COUNT → Bool} {h : Nat} {idx : Fin SHM_ITEM_COUNT} :
    ∀ (n i : Nat), probe p h n i = some idx ↔
      ∃ k, k < n ∧ slot h (i + k) = idx ∧ p idx = true ∧
        ∀ k2, k2 < k → p (slot h (i + k2)) = false
  | 0, i => by simp [probe]
  | n + 1, i => by
    rw [probe]
    by_cases hp : p (slot h i) = true
    · rw [if_pos hp]
      constructor
      · intro hc
        injection hc with hc
        exact ⟨0, Nat.succ_pos n, by simpa using hc, by rw [← hc]; exact hp,
          fun k2 hk2 => absurd hk2 (Nat.not_lt_zero _)⟩
      · rintro ⟨k, _, hk, _, hfirst⟩
        cases k with
        | zero => simpa using congrArg some hk
        | succ k =>
          have := hfirst 0 (Nat.succ_pos k)
          simp [hp] at this
    · rw [if_neg hp]
      rw [probe_eq_some n (i + 1)]
      constructor
      · rintro ⟨k, hk, hs, hpi, hfirst⟩
        refine ⟨k + 1, by omega, ?_, hpi, ?_⟩
        · rwa [show i + (k + 1) = i + 1 + k by omega]
        · intro k2 hk2
          cases k2 with
          | zero => simpa using hp
          | succ k2 =>
            have := hfirst k2 (by omega)
            rwa [show i + 1 + k2 = i + (k2 + 1) by omega] at this
      · rintro ⟨k, hk, hs, hpi, hfirst⟩
        cases k with
        | zero =>
          rw [Nat.add_zero] at hs
          rw [hs] at hp
          exact absurd hpi hp
        | succ k =>
          refine ⟨k, by omega, ?_, hpi, ?_⟩
          · rwa [show i + 1 + k = i + (k + 1) by omega]
          · intro k2 hk2
            have := hfirst (k2 + 1) (by omega)
            rwa [show i + (k2 + 1) = i + 1 + k2 by omega] at this

/-- Every slot is probed by one of the `SHM_ITEM_COUNT` iterations. -/
theorem slot_surj (h : Nat) (j : Fin SHM_ITEM_COUNT) :
    ∃ k, k < SHM_ITEM_COUNT ∧ slot h k = j := by
  refine ⟨(j.val + SHM_ITEM_COUNT - h % SHM_ITEM_COUNT) % SHM_ITEM_COUNT,
    Nat.mod_lt _ (by decide), ?_⟩
  apply Fin.ext
  have hj := j.isLt
  simp only [slot, SHM_ITEM_COUNT] at *
  omega

theorem probe_full_eq_none {p : Fin SHM_ITEM_COUNT → Bool} {h : Nat} :
    probe p h SHM_ITEM_COUNT 0 = none ↔ ∀ j, p j = false := by
  rw [probe_eq_none]
  constructor
  · intro hall j
    obtain ⟨k, hk, hs⟩ := slot_surj h j
    have := hall k hk
    rwa [Nat.zero_add, hs] at this
  · intro hall k _
    exact hall _

theorem probe_full_isSome {p : Fin SHM_ITEM_COUNT → Bool} {h : Nat}
    {j : Fin SHM_ITEM_COUNT} (hj : p j = true) :
    ∃ idx, probe p h SHM_ITEM_COUNT 0 = some idx := by
  cases hpr : probe p h SHM_ITEM_COUNT 0 with
  | none => rw [probe_full_eq_none] at hpr; rw [hpr j] at hj; cases hj
  | some idx => exact ⟨idx, rfl⟩

theorem probe_some_holds {p : Fin SHM_ITEM_COUNT → Bool} {h n i : Nat}
    {idx : Fin SHM_ITEM_COUNT} (hpr : probe p h n i = some idx) : p idx = true := by
  obtain ⟨_, _, _, hp, _⟩ := (probe_eq_some n i).1 hpr
  exact hp

theorem find_loop_eq_probe (name : List Nat) (h : Nat) (table : Fin SHM_ITEM_COUNT → IPCEntry) :
    ∀ (n i : Nat), find_loop name h table n i =
      probe (fun j => entryMatches name (table j)) h n i
  | 0, i => rfl
  | n + 1, i => by
    rw [find_loop, probe, find_loop_eq_probe name h table n (i + 1)]
    simp only [entryMatches, Bool.and_eq_true, decide_eq_true_eq]

theorem reg_loop_eq_probe (name : List Nat) (handle : IPCMemHandle) (h : Nat) (seg : Segment) :
    ∀ (n i : Nat), reg_loop name handle h n i seg =
      match probe (fun j => regHit name (seg.table j)) h n i with
      | none => (false, seg)
      | some idx => (true, regWrite name handle seg idx)
  | 0, i => rfl
  | n + 1, i => by
    rw [reg_loop, probe, reg_loop_eq_probe name handle h seg n (i + 1)]
    by_cases hm : (seg.table (slot h i)).used = 1 ∧
        strncmp (seg.table (slot h i)).name (c_str name) SHM_ITEM_NAME_MAX_LEN = 0
    · have hm2 : entryMatches name (seg.table (slot h i)) = true := by
        simpa [entryMatches] using hm
      simp [hm, hm2, regHit, regWrite, Segment.setEntry, Segment.setItemcount]
    · have hm2 : entryMatches name (seg.table (slot h i)) = false := by
        simpa [entryMatches] using hm
      by_cases he : (seg.table (slot h i)).used = 0
      · simp [hm, hm2, he, regHit, regWrite, Segment.setEntry, Segment.setItemcount,
          storedName]
      · simp [hm, hm2, he, regHit]

/-! ## Pointer alignment and the C string functions -/

theorem kIpcAlignment_eq : kIpcAlignment = 2 ^ 20 := by decide

/-- Clearing the low 20 bits of a 64-bit value rounds it down to a multiple of `2 ^ 20`. -/
theorem align_down (p : Nat) (hp : p < 2 ^ 64) :
    p &&& ((UINT64_RANGE - 1) ^^^ (kIpcAlignment - 1)) = p - p % 2 ^ 20 := by
  have h1 : p &&& ((UINT64_RANGE - 1) ^^^ (kIpcAlignment - 1)) = (p >>> 20) <<< 20 := by
    apply Nat.eq_of_testBit_eq
    intro i
    rw [kIpcAlignment_eq, UINT64_RANGE, Nat.testBit_and, Nat.testBit_xor,
      Nat.testBit_two_pow_sub_one, Nat.testBit_two_pow_sub_one, Nat.testBit_shiftLeft,
      Nat.testBit_shiftRight]
    by_cases h20 : i < 20
    · have : ¬ (i ≥ 20) := by omega
      have h64 : i < 64 := by omega
      simp [h20, this, h64]
    · by_cases h64 : i < 64
      · have : i ≥ 20 := by omega
        have e : 20 + (i - 20) = i := by omega
        simp [h20, this, h64, e]
      · have hlt : p < 2 ^ i :=
          Nat.lt_of_lt_of_le hp (Nat.pow_le_pow_right (by decide) (by omega))
        have e : 20 + (i - 20) = i := by omega
        simp [h20, h64, e, Nat.testBit_lt_two_pow hlt]
  rw [h1, Nat.shiftRight_eq_div_pow, Nat.shiftLeft_eq]
  have := Nat.div_add_mod p (2 ^ 20)
  omega

theorem strncmp_self (r1 r2 : List Nat) :
    ∀ (a : List Nat) (n : Nat), (∀ c ∈ a, c ≠ 0) →
      strncmp (a ++ 0 :: r1) (a ++ 0 :: r2) n = 0
  | _, 0, _ => by simp [strncmp]
  | [], n + 1, _ => by simp [strncmp]
  | x :: a, n + 1, hz => by
    have hx : x ≠ 0 := hz x (List.mem_cons_self _ _)
    have ih := strncmp_self r1 r2 a n (fun c hc => hz c (List.mem_cons_of_mem _ hc))
    simp [strncmp, hx, ih]

theorem strncmp_eq_zero (r1 r2 : List Nat) :
    ∀ (a b : List Nat) (n : Nat), (∀ c ∈ a, c ≠ 0) → (∀ c ∈ b, c ≠ 0) → a.length < n →
      strncmp (a ++ 0 :: r1) (b ++ 0 :: r2) n = 0 → a = b
  | _, _, 0, _, _, hn, _ => absurd hn (Nat.not_lt_zero _)
  | [], [], _ + 1, _, _, _, _ => rfl
  | [], y :: b, n + 1, _, hb, _, hs => by
    have hy : y ≠ 0 := hb y (List.mem_cons_self _ _)
    have hy2 : ¬ (0 = y) := fun h => hy h.symm
    simp [strncmp, hy2] at hs
    exact absurd hs hy
  | x :: a, [], n + 1, ha, _, _, hs => by
    have hx : x ≠ 0 := ha x (List.mem_cons_self _ _)
    simp [strncmp, hx] at hs
  | x :: a, y :: b, n + 1, ha, hb, hn, hs => by
    have hx : x ≠ 0 := ha x (List.mem_cons_self _ _)
    by_cases hxy : x = y
    · subst hxy
      simp [strncmp, hx] at hs
      have := strncmp_eq_zero r1 r2 a b n (fun c hc => ha c (List.mem_cons_of_mem _ hc))
        (fun c hc => hb c (List.mem_cons_of_mem _ hc)) (by simpa using hn) hs
      rw [this]
    · simp [strncmp, hxy] at hs
      omega

theorem strncpy_nil : ∀ (n : Nat) (dst : List Nat),
    strncpy dst [] n = List.replicate n 0 ++ dst.drop n
  | 0, dst => by simp [strncpy]
  | n + 1, dst => by
    simp [strncpy, strncpy_nil n, List.replicate_succ]

theorem strncpy_form (r : List Nat) : ∀ (n : Nat) (dst k : List Nat), (∀ c ∈ k, c ≠ 0) →
    strncpy dst (k ++ 0 :: r) n = k.take n ++ (List.replicate (n - k.length) 0 ++ dst.drop n)
  | 0, dst, k, _ => by simp [strncpy]
  | n + 1, dst, [], _ => by
    simp [strncpy, strncpy_nil n, List.replicate_succ]
  | n + 1, dst, x :: k, hz => by
    have hx : x ≠ 0 := hz x (List.mem_cons_self _ _)
    have ih := strncpy_form r n dst.tail k (fun c hc => hz c (List.mem_cons_of_mem _ hc))
    simp [strncpy, hx, ih]

theorem storedName_form (old k : List Nat) (hz : ∀ c ∈ k, c ≠ 0) :
    ∃ rest, storedName old k = k.take 63 ++ 0 :: rest := by
  have h := strncpy_form [] 63 (memset old 0 64) k hz
  have hd : (memset old 0 64).drop 63 = 0 :: old.drop 64 := by
    simp [memset, List.drop_append_eq_append_drop, List.replicate_succ]
  rw [hd] at h
  unfold storedName c_str
  rw [show k ++ [0] = k ++ 0 :: [] from rfl, show SHM_ITEM_NAME_MAX_LEN - 1 = 63 from rfl,
    show SHM_ITEM_NAME_MAX_LEN = 64 from rfl, h]
  cases 63 - k.length with
  | zero => exact ⟨_, rfl⟩
  | succ m => exact ⟨List.replicate m 0 ++ 0 :: old.drop 64, by simp [List.replicate_succ]⟩

/-! ## The segment cache -/

theorem World.mmap_cache {w w2 : World} {os : OsOutcome} {o addr : Nat}
    (h : w.mmap os o = some (addr, w2)) :
    w2.g_ipc_shm_ptr_ = w.g_ipc_shm_ptr_ ∧ addr ≠ 0 := by
  unfold World.mmap at h
  split at h
  · rename_i hc
    injection h with h
    injection h with h1 h2
    subst h2
    exact ⟨rfl, h1 ▸ hc.2.1⟩
  · cases h

theorem shm_open_or_attach_cache (os : OsOutcome) (n : List Nat) (w : World) :
    (shm_open_or_attach os n w).2.g_ipc_shm_ptr_ = w.g_ipc_shm_ptr_ := by
  unfold shm_open_or_attach
  dsimp only
  split
  · rename_i w1 hfd
    split at hfd
    · cases hfd; rfl
    · split at hfd
      · split at hfd
        · cases hfd
        · cases hfd; rfl
      · split at hfd
        · cases hfd
        · cases hfd; rfl
  · rename_i o created w1 hfd
    have hw1 : w1.g_ipc_shm_ptr_ = w.g_ipc_shm_ptr_ := by
      split at hfd
      · cases hfd
      · split at hfd
        · split at hfd
          · cases hfd; rfl
          · cases hfd
        · split at hfd
          · cases hfd; rfl
          · cases hfd
    split
    · dsimp only
      split
      · exact hw1
      · exact hw1
    · rename_i addr w2 hm
      have := (World.mmap_cache hm).1
      dsimp only
      split <;> simp [World.store, this, hw1]

theorem check_and_get_cached (os : OsOutcome) (w : World) (h : w.g_ipc_shm_ptr_ ≠ 0) :
    check_and_get_g_ipc_shm_ptr os w = (w.g_ipc_shm_ptr_, w) := by
  simp [check_and_get_g_ipc_shm_ptr, h]

theorem check_and_get_installs {os : OsOutcome} {w w1 : World} {cur : Nat}
    (h : check_and_get_g_ipc_shm_ptr os w = (cur, w1)) (hcur : cur ≠ 0) :
    w1.g_ipc_shm_ptr_ = cur := by
  unfold check_and_get_g_ipc_shm_ptr at h
  dsimp only at h
  by_cases hc : w.g_ipc_shm_ptr_ = 0
  · have hk := shm_open_or_attach_cache os IPC_SHM_PATH w
    rw [hc] at hk
    rw [if_pos hc] at h
    split at h
    · injection h with h1 h2; exact absurd h1.symm hcur
    · injection h with h1 h2
      rw [← h2, ← h1]
  · rw [if_neg hc] at h
    injection h with h1 h2
    rw [← h2, ← h1]

/-! ## What a registration writes -/

theorem regWrite_table_ne (name : List Nat) (handle : IPCMemHandle) (seg : Segment)
    {idx j : Fin SHM_ITEM_COUNT} (hne : j ≠ idx) :
    (regWrite name handle seg idx).table j = seg.table j := by
  simp [regWrite, Segment.setEntry, Segment.setItemcount, Function.update_noteq hne]

theorem regWrite_table_same (name : List Nat) (handle : IPCMemHandle) (seg : Segment)
    (idx : Fin SHM_ITEM_COUNT) :
    (regWrite name handle seg idx).table idx =
      if entryMatches name (seg.table idx) = true then { seg.table idx with handle := handle }
      else { used := 1, name := storedName (seg.table idx).name name, handle := handle } := by
  simp [regWrite, Segment.setEntry, Segment.setItemcount]

theorem regWrite_header (name : List Nat) (handle : IPCMemHandle) (seg : Segment)
    (idx : Fin SHM_ITEM_COUNT) :
    (regWrite name handle seg idx).header =
      { seg.header with itemcount := fetch_add_1 seg.header.itemcount } := by
  simp [regWrite, Segment.setEntry, Segment.setItemcount]

theorem regWrite_handle (name : List Nat) (handle : IPCMemHandle) (seg : Segment)
    (idx : Fin SHM_ITEM_COUNT) :
    ((regWrite name handle seg idx).table idx).handle = handle := by
  rw [regWrite_table_same]
  split <;> rfl

theorem regWrite_used (name : List Nat) (handle : IPCMemHandle) (seg : Segment)
    (idx : Fin SHM_ITEM_COUNT) :
    ((regWrite name handle seg idx).table idx).used = 1 := by
  rw [regWrite_table_same]
  split
  · rename_i hm
    simp only [entryMatches, Bool.and_eq_true, decide_eq_true_eq] at hm
    exact hm.1
  · rfl

/-- A key without NUL of at most 63 bytes matches the name stored for it. -/
theorem entryMatches_stored (old k : List Nat) (handle : IPCMemHandle)
    (hz : ∀ c ∈ k, c ≠ 0) (hlen : k.length ≤ 63) :
    entryMatches k { used := 1, name := storedName old k, handle := handle } = true := by
  obtain ⟨rest, hrest⟩ := storedName_form old k hz
  rw [List.take_of_length_le hlen] at hrest
  simp only [entryMatches, hrest, c_str, decide_True, Bool.true_and, decide_eq_true_eq]
  exact strncmp_self rest [] k _ hz

theorem regWrite_matches (k : List Nat) (handle : IPCMemHandle) (seg : Segment)
    (idx : Fin SHM_ITEM_COUNT) (hz : ∀ c ∈ k, c ≠ 0) (hlen : k.length ≤ 63) :
    entryMatches k ((regWrite k handle seg idx).table idx) = true := by
  rw [regWrite_table_same]
  split
  · rename_i hm
    simpa [entryMatches] using hm
  · exact entryMatches_stored _ k handle hz hlen

/-- After a registration has written slot `idx`, the lookup probe for the same key stops
at `idx`. -/
theorem probe_after_regWrite (k : List Nat) (handle : IPCMemHandle) (seg : Segment) (h : Nat)
    {idx : Fin SHM_ITEM_COUNT} (hz : ∀ c ∈ k, c ≠ 0) (hlen : k.length ≤ 63) {n i : Nat}
    (hp : probe (fun j => regHit k (seg.table j)) h n i = some idx) :
    probe (fun j => entryMatches k ((regWrite k handle seg idx).table j)) h n i = some idx := by
  obtain ⟨m, hm, hs, _, hfirst⟩ := (probe_eq_some n i).1 hp
  refine (probe_eq_some n i).2 ⟨m, hm, hs, regWrite_matches k handle seg idx hz hlen, ?_⟩
  intro k2 hk2
  have hno := hfirst k2 hk2
  have hne : slot h (i + k2) ≠ idx := by
    intro he
    have hhit := probe_some_holds hp
    rw [← he] at hhit
    simp only at hhit hno
    rw [hno] at hhit
    cases hhit
  simp only [regWrite_table_ne k handle seg hne]
  simp only [regHit, Bool.or_eq_false_iff] at hno
  exact hno.1

/-! ## The operations on an available segment -/

section OperationLemmas

variable (hash : List Nat → Nat) (gpuIpcGetMemHandle : Nat → Option gpuIpcMemHandle_t)

theorem reg_eq {os : OsOutcome} {w w1 : World} {cur o gh : Nat} (ptr size : Nat)
    (name : List Nat)
    (hca : check_and_get_g_ipc_shm_ptr os w = (cur, w1)) (hcur : cur ≠ 0)
    (hmap : w1.maps cur = some o)
    (hg : gpuIpcGetMemHandle (ptr &&& ((UINT64_RANGE - 1) ^^^ (kIpcAlignment - 1))) = some gh) :
    reg_ipc_with_name hash gpuIpcGetMemHandle os ptr size name w =
      match probe (fun j => regHit name ((w1.objs o).table j)) (hash name % SHM_ITEM_COUNT)
          SHM_ITEM_COUNT 0 with
      | none => some (false, w1)
      | some idx => some (true, w1.store o (regWrite name
          ⟨gh, ptr - (ptr &&& ((UINT64_RANGE - 1) ^^^ (kIpcAlignment - 1))), size⟩
          (w1.objs o) idx)) := by
  simp only [reg_ipc_with_name, hca, hcur, if_false, hg, hmap, reg_loop_eq_probe]
  split
  · simp [World.store]
  · rfl

theorem lookup_eq {os : OsOutcome} {w w1 : World} {cur o : Nat} (name : List Nat)
    (hca : check_and_get_g_ipc_shm_ptr os w = (cur, w1)) (hcur : cur ≠ 0)
    (hmap : w1.maps cur = some o) :
    get_ipc_by_name_once hash os name w =
      (match probe (fun j => entryMatches name ((w1.objs o).table j))
          (hash name % SHM_ITEM_COUNT) SHM_ITEM_COUNT 0 with
      | none => some (null_handle, w1)
      | some idx => some (((w1.objs o).table idx).handle, w1)) ∧
    check_ipc_by_name_once hash os name w =
      (match probe (fun j => entryMatches name ((w1.objs o).table j))
          (hash name % SHM_ITEM_COUNT) SHM_ITEM_COUNT 0 with
      | none => some (3, w1)
      | some _ => some (2, w1)) := by
  simp only [get_ipc_by_name_once, check_ipc_by_name_once, hca, hcur, if_false, hmap,
    find_loop_eq_probe]
  constructor <;> split <;> rename_i hp <;> rw [hp]

/-- What a call of `reg_ipc_with_name` that returned went through. -/
theorem reg_inv {os : OsOutcome} {w w2 : World} {ptr size : Nat} {name : List Nat} {b : Bool}
    (h : reg_ipc_with_name hash gpuIpcGetMemHandle os ptr size name w = some (b, w2)) :
    ((check_and_get_g_ipc_shm_ptr os w).1 = 0 ∧ b = false ∧
        w2 = (check_and_get_g_ipc_shm_ptr os w).2) ∨
    ∃ o gh, (check_and_get_g_ipc_shm_ptr os w).1 ≠ 0 ∧
      (check_and_get_g_ipc_shm_ptr os w).2.maps (check_and_get_g_ipc_shm_ptr os w).1 = some o ∧
      gpuIpcGetMemHandle (ptr &&& ((UINT64_RANGE - 1) ^^^ (kIpcAlignment - 1))) = some gh := by
  by_cases hcur : (check_and_get_g_ipc_shm_ptr os w).1 = 0
  · left
    simp only [reg_ipc_with_name, hcur, if_true] at h
    injection h with h
    injection h with h1 h2
    exact ⟨hcur, h1.symm, h2.symm⟩
  · right
    simp only [reg_ipc_with_name, hcur, if_false] at h
    cases hg : gpuIpcGetMemHandle (ptr &&& ((UINT64_RANGE - 1) ^^^ (kIpcAlignment - 1))) with
    | none => rw [hg] at h; cases h
    | some gh =>
      cases hm : (check_and_get_g_ipc_shm_ptr os w).2.maps (check_and_get_g_ipc_shm_ptr os w).1 with
      | none => rw [hg] at h; simp only [hm] at h; cases h
      | some o => exact ⟨o, gh, hcur, rfl, rfl⟩

end OperationLemmas

/-- A successful registration of a short key is found by the lookup that follows it. -/
theorem reg_then_get (hash : List Nat → Nat) (gpuIpcGetMemHandle : Nat → Option gpuIpcMemHandle_t)
    (os os2 : OsOutcome) (w w2 : World) (p S : Nat) (k : List Nat)
    (hp : p < 2 ^ 64) (hz : ∀ c ∈ k, c ≠ 0) (hlen : k.length ≤ 63)
    (hreg : reg_ipc_with_name hash gpuIpcGetMemHandle os p S k w = some (true, w2)) :
    ∃ gh, gpuIpcGetMemHandle (p - p % 2 ^ 20) = some gh ∧
      get_ipc_by_name_once hash os2 k w2 =
        some ({ handle := gh, offset := p % 2 ^ 20, size := S }, w2) := by
  rcases reg_inv hash gpuIpcGetMemHandle hreg with ⟨_, hb, _⟩ | ⟨o, gh, hcur, hmap, hg⟩
  · cases hb
  · have hca : check_and_get_g_ipc_shm_ptr os w =
        ((check_and_get_g_ipc_shm_ptr os w).1, (check_and_get_g_ipc_shm_ptr os w).2) := rfl
    generalize (check_and_get_g_ipc_shm_ptr os w).1 = cur at hca hcur hmap
    generalize (check_and_get_g_ipc_shm_ptr os w).2 = w1 at hca hmap
    rw [reg_eq hash gpuIpcGetMemHandle p S k hca hcur hmap hg] at hreg
    refine ⟨gh, by rw [← align_down p hp]; exact hg, ?_⟩
    cases hpr : probe (fun j => regHit k ((w1.objs o).table j)) (hash k % SHM_ITEM_COUNT)
        SHM_ITEM_COUNT 0 with
    | none => rw [hpr] at hreg; cases hreg
    | some idx =>
      rw [hpr] at hreg
      injection hreg with hreg
      injection hreg with _ hw2
      have hcache : w2.g_ipc_shm_ptr_ = cur := by
        rw [← hw2]; exact (check_and_get_installs hca hcur :)
      have hca2 : check_and_get_g_ipc_shm_ptr os2 w2 = (cur, w2) := by
        rw [check_and_get_cached os2 w2 (by rw [hcache]; exact hcur), hcache]
      have hmap2 : w2.maps cur = some o := by rw [← hw2]; exact hmap
      have hobj : w2.objs o = regWrite k
          ⟨gh, p - (p &&& ((UINT64_RANGE - 1) ^^^ (kIpcAlignment - 1))), S⟩ (w1.objs o) idx := by
        rw [← hw2]; simp [World.store]
      rw [(lookup_eq hash k hca2 hcur hmap2).1, hobj,
        probe_after_regWrite k _ (w1.objs o) _ hz hlen hpr]
      simp only [regWrite_handle, align_down p hp]
      have := Nat.mod_le p (2 ^ 20)
      rw [show p - (p - p % 2 ^ 20) = p % 2 ^ 20 by omega]

/-! ## Stability of the first hit, deregistration, detach -/

/-- The first hit of `p` stays the first hit of any `q` that holds there and holds
elsewhere only where `p` does. -/
theorem probe_first_stable {p q : Fin SHM_ITEM_COUNT → Bool} {h n i : Nat}
    {idx : Fin SHM_ITEM_COUNT} (hp : probe p h n i = some idx)
    (hq : ∀ j, j ≠ idx → q j = true → p j = true) (hidx : q idx = true) :
    probe q h n i = some idx := by
  obtain ⟨m, hm, hs, hpi, hfirst⟩ := (probe_eq_some n i).1 hp
  refine (probe_eq_some n i).2 ⟨m, hm, hs, hidx, ?_⟩
  intro k2 hk2
  have hno := hfirst k2 hk2
  have hne : slot h (i + k2) ≠ idx := by
    intro he; rw [he, hpi] at hno; cases hno
  cases hqv : q (slot h (i + k2)) with
  | false => rfl
  | true => rw [hq _ hne hqv] at hno; cases hno

theorem regHit_after_regWrite (k : List Nat) (handle : IPCMemHandle) (seg : Segment) (h : Nat)
    {idx : Fin SHM_ITEM_COUNT} (hz : ∀ c ∈ k, c ≠ 0) (hlen : k.length ≤ 63) {n i : Nat}
    (hp : probe (fun j => regHit k (seg.table j)) h n i = some idx) :
    probe (fun j => regHit k ((regWrite k handle seg idx).table j)) h n i = some idx := by
  refine probe_first_stable hp ?_ ?_
  · intro j hj hq
    simpa only [regWrite_table_ne k handle seg hj] using hq
  · simp only [regHit, regWrite_matches k handle seg idx hz hlen, Bool.true_or]

theorem reg_true_inv (hash : List Nat → Nat) (gpuIpcGetMemHandle : Nat → Option gpuIpcMemHandle_t)
    {os : OsOutcome} {w w2 : World} {ptr size : Nat} {name : List Nat}
    (h : reg_ipc_with_name hash gpuIpcGetMemHandle os ptr size name w = some (true, w2)) :
    ∃ cur w1 o gh idx, check_and_get_g_ipc_shm_ptr os w = (cur, w1) ∧ cur ≠ 0 ∧
      w1.maps cur = some o ∧
      gpuIpcGetMemHandle (ptr &&& ((UINT64_RANGE - 1) ^^^ (kIpcAlignment - 1))) = some gh ∧
      probe (fun j => regHit name ((w1.objs o).table j)) (hash name % SHM_ITEM_COUNT)
        SHM_ITEM_COUNT 0 = some idx ∧
      w2 = w1.store o (regWrite name
        ⟨gh, ptr - (ptr &&& ((UINT64_RANGE - 1) ^^^ (kIpcAlignment - 1))), size⟩
        (w1.objs o) idx) := by
  rcases reg_inv hash gpuIpcGetMemHandle h with ⟨_, hb, _⟩ | ⟨o, gh, hcur, hmap, hg⟩
  · cases hb
  · have hca : check_and_get_g_ipc_shm_ptr os w =
        ((check_and_get_g_ipc_shm_ptr os w).1, (check_and_get_g_ipc_shm_ptr os w).2) := rfl
    rw [reg_eq hash gpuIpcGetMemHandle ptr size name hca hcur hmap hg] at h
    cases hpr : probe (fun j => regHit name
        (((check_and_get_g_ipc_shm_ptr os w).2.objs o).table j)) (hash name % SHM_ITEM_COUNT)
        SHM_ITEM_COUNT 0 with
    | none => rw [hpr] at h; cases h
    | some idx =>
      rw [hpr] at h
      injection h with h
      injection h with _ hw2
      exact ⟨_, _, o, gh, idx, hca, hcur, hmap, hg, hpr, hw2.symm⟩

theorem shm_detach_eq {p o : Nat} (n : List Nat) {w : World} (hp : p ≠ 0)
    (hmap : w.maps p = some o) :
    shm_detach_with_name p n w = some (true,
      { objs := Function.update w.objs o
          ((w.objs o).setRefcount (fetch_sub_1 (w.objs o).header.refcount)),
        nobjs := w.nobjs,
        named := if (w.objs o).header.refcount = 1
          then Function.update w.named ((47 :: n).take 255) none else w.named,
        maps := Function.update w.maps p none,
        g_ipc_shm_ptr_ := if w.g_ipc_shm_ptr_ = p then 0 else w.g_ipc_shm_ptr_ }) := by
  simp only [shm_detach_with_name, hp, if_false, hmap, World.store, World.munmap,
    World.shm_unlink]
  by_cases hc : w.g_ipc_shm_ptr_ = p <;> by_cases hr : (w.objs o).header.refcount = 1 <;>
    simp [hc, hr]

theorem dereg_eq (hash : List Nat → Nat) {os : OsOutcome} {w w1 : World} {cur o : Nat}
    (name : List Nat)
    (hca : check_and_get_g_ipc_shm_ptr os w = (cur, w1)) (hcur : cur ≠ 0)
    (hmap : w1.maps cur = some o) :
    dereg_ipc_with_name hash os name w =
      (if (w1.objs o).header.itemcount = 1 then
        (shm_detach_with_name cur IPC_SHM_PATH
          (w1.store o (deregWrite (w1.objs o)
            (probe (fun j => entryMatches name ((w1.objs o).table j))
              (hash name % SHM_ITEM_COUNT) SHM_ITEM_COUNT 0)))).map
          (fun d => ((probe (fun j => entryMatches name ((w1.objs o).table j))
              (hash name % SHM_ITEM_COUNT) SHM_ITEM_COUNT 0).isSome, d.2))
      else some ((probe (fun j => entryMatches name ((w1.objs o).table j))
              (hash name % SHM_ITEM_COUNT) SHM_ITEM_COUNT 0).isSome,
          w1.store o (deregWrite (w1.objs o)
            (probe (fun j => entryMatches name ((w1.objs o).table j))
              (hash name % SHM_ITEM_COUNT) SHM_ITEM_COUNT 0)))) := by
  simp only [dereg_ipc_with_name, hca, hcur, if_false, hmap, find_loop_eq_probe]
  cases probe (fun j => entryMatches name ((w1.objs o).table j))
      (hash name % SHM_ITEM_COUNT) SHM_ITEM_COUNT 0 with
  | none =>
    simp [deregWrite, World.store, Segment.setItemcount]
  | some idx =>
    simp [deregWrite, World.store, Segment.setItemcount, Segment.setEntry]

theorem deregWrite_itemcount (seg : Segment) (f : Option (Fin SHM_ITEM_COUNT)) :
    (deregWrite seg f).header.itemcount = fetch_sub_1 seg.header.itemcount := by
  cases f <;> rfl

theorem deregWrite_refcount (seg : Segment) (f : Option (Fin SHM_ITEM_COUNT)) :
    (deregWrite seg f).header.refcount = seg.header.refcount := by
  cases f <;> rfl

theorem deregWrite_none_table (seg : Segment) : (deregWrite seg none).table = seg.table := rfl

theorem deregWrite_some_table (seg : Segment) (idx : Fin SHM_ITEM_COUNT) :
    (deregWrite seg (some idx)).table =
      Function.update seg.table idx { seg.table idx with used := 0 } := rfl

/-- Deregistration with the segment available always returns, and what it leaves in the
object that was mapped. -/
theorem dereg_spec (hash : List Nat → Nat) {os : OsOutcome} {w w1 : World} {cur o : Nat}
    (name : List Nat)
    (hca : check_and_get_g_ipc_shm_ptr os w = (cur, w1)) (hcur : cur ≠ 0)
    (hmap : w1.maps cur = some o) :
    ∃ w2, dereg_ipc_with_name hash os name w =
        some ((probe (fun j => entryMatches name ((w1.objs o).table j))
          (hash name % SHM_ITEM_COUNT) SHM_ITEM_COUNT 0).isSome, w2) ∧
      (w2.objs o).table = (deregWrite (w1.objs o)
        (probe (fun j => entryMatches name ((w1.objs o).table j))
          (hash name % SHM_ITEM_COUNT) SHM_ITEM_COUNT 0)).table ∧
      (w2.objs o).header.itemcount = fetch_sub_1 (w1.objs o).header.itemcount ∧
      ((w1.objs o).header.itemcount ≠ 1 → w2 = w1.store o (deregWrite (w1.objs o)
        (probe (fun j => entryMatches name ((w1.objs o).table j))
          (hash name % SHM_ITEM_COUNT) SHM_ITEM_COUNT 0))) ∧
      ((w1.objs o).header.itemcount = 1 →
        w2.g_ipc_shm_ptr_ = 0 ∧ w2.maps cur = none ∧
        (w2.objs o).header.refcount = fetch_sub_1 (w1.objs o).header.refcount ∧
        ((w1.objs o).header.refcount = 1 → w2.named ipcShmName = none) ∧
        ((w1.objs o).header.refcount ≠ 1 → w2.named = w1.named)) := by
  rw [dereg_eq hash name hca hcur hmap]
  have hcache := check_and_get_installs hca hcur
  by_cases hic : (w1.objs o).header.itemcount = 1
  · rw [if_pos hic, shm_detach_eq IPC_SHM_PATH hcur (by simpa [World.store] using hmap)]
    refine ⟨_, rfl, ?_, ?_, fun h => absurd hic h, fun _ => ⟨?_, ?_, ?_, ?_, ?_⟩⟩
    · simp [World.store, Segment.setRefcount]
    · simp [World.store, Segment.setRefcount, deregWrite_itemcount]
    · simp [World.store, hcache]
    · simp [World.store]
    · simp [World.store, Segment.setRefcount, deregWrite_refcount]
    · intro hr
      simp [World.store, deregWrite_refcount, hr, ipcShmName]
    · intro hr
      simp [World.store, deregWrite_refcount, hr]
  · rw [if_neg hic]
    refine ⟨_, rfl, ?_, ?_, fun _ => rfl, fun h => absurd h hic⟩
    · simp [World.store]
    · simp [World.store, deregWrite_itemcount]

theorem regHit_eq_false_iff (k : List Nat) (e : IPCEntry) :
    regHit k e = false ↔ e.used ≠ 0 ∧
      ¬ (e.used = 1 ∧ strncmp e.name (c_str k) SHM_ITEM_NAME_MAX_LEN = 0) := by
  simp only [regHit, entryMatches, Bool.or_eq_false_iff, Bool.and_eq_false_iff,
    decide_eq_false_iff_not, ne_eq, not_and]
  constructor
  · rintro ⟨h1, h2⟩
    exact ⟨h2, fun hu hs => by rcases h1 with h | h <;> contradiction⟩
  · rintro ⟨h1, h2⟩
    refine ⟨?_, h1⟩
    by_cases hu : e.used = 1
    · exact Or.inr (h2 hu)
    · exact Or.inl hu

theorem entryMatches_eq_false_iff (k : List Nat) (e : IPCEntry) :
    entryMatches k e = false ↔
      ¬ (e.used = 1 ∧ strncmp e.name (c_str k) SHM_ITEM_NAME_MAX_LEN = 0) := by
  rw [← Bool.not_eq_true]
  simp only [entryMatches, Bool.and_eq_true, decide_eq_true_eq]

theorem fetch_sub_1_int (v : Nat) : ((fetch_sub_1 v : Nat) : Int) = ((v : Int) - 1) % 2 ^ 64 := by
  simp only [fetch_sub_1, UINT64_RANGE]
  omega

/-- Registration with the segment available and the GPU call succeeding. -/
theorem reg_full_iff (hash : List Nat → Nat) (gpuIpcGetMemHandle : Nat → Option gpuIpcMemHandle_t)
    {os : OsOutcome} {w w1 : World} {cur o gh : Nat} (p S : Nat) (k : List Nat)
    (hca : check_and_get_g_ipc_shm_ptr os w = (cur, w1)) (hcur : cur ≠ 0)
    (hmap : w1.maps cur = some o)
    (hg : gpuIpcGetMemHandle (p &&& ((UINT64_RANGE - 1) ^^^ (kIpcAlignment - 1))) = some gh) :
    ∃ b w2, reg_ipc_with_name hash gpuIpcGetMemHandle os p S k w = some (b, w2) ∧
      (b = false ↔ (∀ j, ((w1.objs o).table j).used ≠ 0) ∧
        ∀ j, ¬ (((w1.objs o).table j).used = 1 ∧
          strncmp ((w1.objs o).table j).name (c_str k) SHM_ITEM_NAME_MAX_LEN = 0)) ∧
      (b = false → w2 = w1) := by
  rw [reg_eq hash gpuIpcGetMemHandle p S k hca hcur hmap hg]
  cases hpr : probe (fun j => regHit k ((w1.objs o).table j)) (hash k % SHM_ITEM_COUNT)
      SHM_ITEM_COUNT 0 with
  | none =>
    refine ⟨false, w1, rfl, ?_, fun _ => rfl⟩
    rw [probe_full_eq_none] at hpr
    simp only [true_iff]
    exact ⟨fun j => ((regHit_eq_false_iff k _).1 (hpr j)).1,
      fun j => ((regHit_eq_false_iff k _).1 (hpr j)).2⟩
  | some idx =>
    refine ⟨true, _, rfl, ?_, fun h => by cases h⟩
    have hhit := probe_some_holds hpr
    constructor
    · intro h; cases h
    · rintro ⟨h1, h2⟩
      have := (regHit_eq_false_iff k ((w1.objs o).table idx)).2 ⟨h1 idx, h2 idx⟩
      simp only at hhit
      rw [this] at hhit
      cases hhit

theorem dereg_not_found (hash : List Nat → Nat) {os : OsOutcome} {w w1 : World} {cur o : Nat}
    (k : List Nat)
    (hca : check_and_get_g_ipc_shm_ptr os w = (cur, w1)) (hcur : cur ≠ 0)
    (hmap : w1.maps cur = some o)
    (hno : ∀ j, ¬ (((w1.objs o).table j).used = 1 ∧
          strncmp ((w1.objs o).table j).name (c_str k) SHM_ITEM_NAME_MAX_LEN = 0)) :
    ∃ w2, dereg_ipc_with_name hash os k w = some (false, w2) ∧
      (∀ j, (w2.objs o).table j = (w1.objs o).table j) ∧
      ((w2.objs o).header.itemcount : Int) =
        (((w1.objs o).header.itemcount : Int) - 1) % 2 ^ 64 := by
  obtain ⟨w2, hd, htab, hic, _, _⟩ := dereg_spec hash k hca hcur hmap
  have hpr : probe (fun j => entryMatches k ((w1.objs o).table j))
      (hash k % SHM_ITEM_COUNT) SHM_ITEM_COUNT 0 = none :=
    probe_full_eq_none.2 (fun j => (entryMatches_eq_false_iff k _).2 (hno j))
  rw [hpr] at hd htab
  refine ⟨w2, hd, fun j => ?_, ?_⟩
  · rw [htab, deregWrite_none_table]
  · rw [hic, fetch_sub_1_int]

theorem counter_steps (hash : List Nat → Nat) (gpuIpcGetMemHandle : Nat → Option gpuIpcMemHandle_t)
    {os : OsOutcome} {w w1 : World} {cur o : Nat} (p S : Nat) (k : List Nat)
    (hca : check_and_get_g_ipc_shm_ptr os w = (cur, w1)) (hcur : cur ≠ 0)
    (hmap : w1.maps cur = some o) :
    (∀ w2, reg_ipc_with_name hash gpuIpcGetMemHandle os p S k w = some (true, w2) →
      (w2.objs o).header.itemcount = ((w1.objs o).header.itemcount + 1) % 2 ^ 64) ∧
    (∀ w2, reg_ipc_with_name hash gpuIpcGetMemHandle os p S k w = some (false, w2) →
      (w2.objs o).header.itemcount = (w1.objs o).header.itemcount) ∧
    (∃ b w2, dereg_ipc_with_name hash os k w = some (b, w2) ∧
      ((w2.objs o).header.itemcount : Int) =
        (((w1.objs o).header.itemcount : Int) - 1) % 2 ^ 64) := by
  refine ⟨fun w2 h => ?_, fun w2 h => ?_, ?_⟩
  · obtain ⟨cur2, w12, o2, gh, idx, hca2, _, hmap2, _, _, hw2⟩ :=
      reg_true_inv hash gpuIpcGetMemHandle h
    rw [hca] at hca2
    injection hca2 with e1 e2
    subst e1; subst e2
    rw [hmap] at hmap2
    injection hmap2 with e3
    subst e3
    rw [hw2]
    simp [World.store, regWrite_header, fetch_add_1, UINT64_RANGE]
  · rcases reg_inv hash gpuIpcGetMemHandle h with ⟨h0, _, _⟩ | ⟨o2, gh, _, _, hg⟩
    · rw [hca] at h0; exact absurd h0 hcur
    · obtain ⟨b, w3, hr, _, hsame⟩ :=
        reg_full_iff hash gpuIpcGetMemHandle p S k hca hcur hmap hg
      rw [h] at hr
      injection hr with hr
      injection hr with hb hw
      rw [hw, hsame hb.symm]
  · obtain ⟨w2, hd, _, hic, _, _⟩ := dereg_spec hash k hca hcur hmap
    exact ⟨_, w2, hd, by rw [hic, fetch_sub_1_int]⟩

/-! ## Registering the same key twice -/

theorem occupiedCount_congr {t1 t2 : Fin SHM_ITEM_COUNT → IPCEntry}
    (h : ∀ j, (t1 j).used = (t2 j).used) : occupiedCount t1 = occupiedCount t2 := by
  unfold occupiedCount
  have : (fun j => decide ((t1 j).used = 1)) = (fun j => decide ((t2 j).used = 1)) := by
    funext j; rw [h j]
  rw [this]

/-- Two successful registrations of one short key in a row: both write the same slot, the
second changes nothing but the handle there, and the lookup returns the second handle. -/
theorem reg_twice (hash : List Nat → Nat) (gpuIpcGetMemHandle : Nat → Option gpuIpcMemHandle_t)
    (os os2 os3 : OsOutcome) (w w2 w3 : World) (p1 S1 p2 S2 : Nat) (k : List Nat)
    (hp2 : p2 < 2 ^ 64) (hz : ∀ c ∈ k, c ≠ 0) (hlen : k.length ≤ 63)
    (h1 : reg_ipc_with_name hash gpuIpcGetMemHandle os p1 S1 k w = some (true, w2))
    (h2 : reg_ipc_with_name hash gpuIpcGetMemHandle os2 p2 S2 k w2 = some (true, w3)) :
    ∃ cur w1 o gh idx, check_and_get_g_ipc_shm_ptr os w = (cur, w1) ∧ cur ≠ 0 ∧
      w1.maps cur = some o ∧ w2.maps cur = some o ∧ w3.maps cur = some o ∧
      gpuIpcGetMemHandle (p2 - p2 % 2 ^ 20) = some gh ∧
      get_ipc_by_name_once hash os3 k w3 =
        some ({ handle := gh, offset := p2 % 2 ^ 20, size := S2 }, w3) ∧
      (∀ j, j ≠ idx → (w2.objs o).table j = (w1.objs o).table j) ∧
      (∀ j, j ≠ idx → (w3.objs o).table j = (w2.objs o).table j) ∧
      ((w3.objs o).table idx).handle = { handle := gh, offset := p2 % 2 ^ 20, size := S2 } ∧
      (∀ j, ((w3.objs o).table j).used = ((w2.objs o).table j).used ∧
        ((w3.objs o).table j).name = ((w2.objs o).table j).name) ∧
      occupiedCount (w3.objs o).table = occupiedCount (w2.objs o).table := by
  obtain ⟨cur, w1, o, gh1, idx, hca, hcur, hmap, _, hpr1, hw2⟩ :=
    reg_true_inv hash gpuIpcGetMemHandle h1
  have hcache : w2.g_ipc_shm_ptr_ = cur := by
    rw [hw2]; exact (check_and_get_installs hca hcur :)
  have hca2 : check_and_get_g_ipc_shm_ptr os2 w2 = (cur, w2) := by
    rw [check_and_get_cached os2 w2 (by rw [hcache]; exact hcur), hcache]
  have hmap2 : w2.maps cur = some o := by rw [hw2]; exact hmap
  have hobj2 : w2.objs o = regWrite k
      ⟨gh1, p1 - (p1 &&& ((UINT64_RANGE - 1) ^^^ (kIpcAlignment - 1))), S1⟩ (w1.objs o) idx := by
    rw [hw2]; simp [World.store]
  obtain ⟨cur3, w13, o3, gh, idx3, hca3, _, hmap3, hg, hpr3, hw3⟩ :=
    reg_true_inv hash gpuIpcGetMemHandle h2
  rw [hca2] at hca3
  injection hca3 with e1 e2
  subst e1; subst e2
  rw [hmap2] at hmap3
  injection hmap3 with e3
  subst e3
  have hpr2 := regHit_after_regWrite k
    ⟨gh1, p1 - (p1 &&& ((UINT64_RANGE - 1) ^^^ (kIpcAlignment - 1))), S1⟩ (w1.objs o)
    (hash k % SHM_ITEM_COUNT) hz hlen hpr1
  rw [← hobj2, hpr3] at hpr2
  injection hpr2 with e4
  subst e4
  have hmatch : entryMatches k ((w2.objs o).table idx3) = true := by
    rw [hobj2]; exact regWrite_matches k _ (w1.objs o) idx3 hz hlen
  have hobj3 : w3.objs o = regWrite k
      ⟨gh, p2 - (p2 &&& ((UINT64_RANGE - 1) ^^^ (kIpcAlignment - 1))), S2⟩ (w2.objs o) idx3 := by
    rw [hw3]; simp [World.store]
  have hoff : p2 - (p2 &&& ((UINT64_RANGE - 1) ^^^ (kIpcAlignment - 1))) = p2 % 2 ^ 20 := by
    rw [align_down p2 hp2]
    have := Nat.mod_le p2 (2 ^ 20)
    omega
  have hsame : ∀ j, ((w3.objs o).table j).used = ((w2.objs o).table j).used ∧
      ((w3.objs o).table j).name = ((w2.objs o).table j).name := by
    intro j
    by_cases hj : j = idx3
    · subst hj
      rw [hobj3, regWrite_table_same, if_pos hmatch]
      exact ⟨rfl, rfl⟩
    · rw [hobj3, regWrite_table_ne k _ _ hj]
      exact ⟨rfl, rfl⟩
  obtain ⟨gh2, hg2, hget⟩ :=
    reg_then_get hash gpuIpcGetMemHandle os2 os3 w2 w3 p2 S2 k hp2 hz hlen h2
  have hgh : gh2 = gh := by
    rw [← align_down p2 hp2, hg] at hg2
    injection hg2 with e
    exact e.symm
  subst hgh
  refine ⟨cur, w1, o, gh2, idx3, hca, hcur, hmap, hmap2, by rw [hw3]; exact hmap2, hg2, hget,
    ?_, ?_, ?_, hsame, occupiedCount_congr (fun j => (hsame j).1)⟩
  · intro j hj
    rw [hobj2, regWrite_table_ne k _ _ hj]
  · intro j hj
    rw [hobj3, regWrite_table_ne k _ _ hj]
  · rw [hobj3, regWrite_handle, hoff]

/-! ## A key registered twice in two slots -/

theorem probe_full_hit0 {p : Fin SHM_ITEM_COUNT → Bool} {h : Nat} (h0 : p (slot h 0) = true) :
    probe p h SHM_ITEM_COUNT 0 = some (slot h 0) :=
  (probe_eq_some SHM_ITEM_COUNT 0).2
    ⟨0, by decide, rfl, h0, fun k2 hk2 => absurd hk2 (Nat.not_lt_zero _)⟩

theorem probe_full_hit1 {p : Fin SHM_ITEM_COUNT → Bool} {h : Nat} (h0 : p (slot h 0) = false)
    (h1 : p (slot h 1) = true) : probe p h SHM_ITEM_COUNT 0 = some (slot h 1) := by
  refine (probe_eq_some SHM_ITEM_COUNT 0).2 ⟨1, by decide, rfl, h1, fun k2 hk2 => ?_⟩
  have : k2 = 0 := by omega
  subst this
  exact h0

theorem slot_zero_ne_one (h : Nat) : slot h 0 ≠ slot h 1 := by
  intro he
  have := congrArg Fin.val he
  simp only [slot, SHM_ITEM_COUNT] at this
  omega

theorem memset_name (old : List Nat) :
    memset old 0 SHM_ITEM_NAME_MAX_LEN = List.replicate 64 0 ++ old.drop 64 := rfl

/-- The stored name of a key without NUL byte: its first 63 bytes, NUL up to byte 64. -/
theorem storedName_eq (old k : List Nat) (hz : ∀ c ∈ k, c ≠ 0) :
    storedName old k =
      k.take 63 ++ (List.replicate (64 - (k.take 63).length) 0 ++ old.drop 64) := by
  have h := strncpy_form [] 63 (memset old 0 64) k hz
  have hd : (memset old 0 64).drop 63 = 0 :: old.drop 64 := by
    simp [memset, List.drop_append_eq_append_drop, List.replicate_succ]
  rw [hd] at h
  unfold storedName c_str
  rw [show k ++ [0] = k ++ 0 :: [] from rfl, show SHM_ITEM_NAME_MAX_LEN - 1 = 63 from rfl,
    show SHM_ITEM_NAME_MAX_LEN = 64 from rfl, h]
  congr 1
  have hl : (k.take 63).length = min 63 k.length := List.length_take 63 k
  have e : 64 - (k.take 63).length = (63 - k.length) + 1 := by rw [hl]; omega
  rw [e, List.replicate_succ']
  simp

theorem storedName_drop (old k : List Nat) (hz : ∀ c ∈ k, c ≠ 0) :
    (storedName old k).drop 64 = old.drop 64 := by
  rw [storedName_eq old k hz, ← List.append_assoc]
  have hl : (k.take 63).length = min 63 k.length := List.length_take 63 k
  have hlen : (k.take 63 ++ List.replicate (64 - (k.take 63).length) 0).length = 64 := by
    rw [List.length_append, List.length_replicate, hl]; omega
  rw [List.drop_append_eq_append_drop, hlen, List.drop_of_length_le (le_of_eq hlen)]
  simp

theorem storedName_congr (old1 old2 k : List Nat) (h : old1.drop 64 = old2.drop 64) :
    storedName old1 k = storedName old2 k := by
  unfold storedName
  rw [memset_name, memset_name, h]

/-- Two different keys without NUL byte of at most 63 bytes: neither matches the name
stored for the other. -/
theorem entryMatches_stored_ne (old a b : List Nat) (handle : IPCMemHandle) (u : Int)
    (hza : ∀ c ∈ a, c ≠ 0) (hzb : ∀ c ∈ b, c ≠ 0) (hla : a.length ≤ 63) (hab : a ≠ b) :
    entryMatches b { used := u, name := storedName old a, handle := handle } = false := by
  obtain ⟨rest, hrest⟩ := storedName_form old a hza
  rw [List.take_of_length_le hla] at hrest
  rw [entryMatches_eq_false_iff]
  rintro ⟨_, hs⟩
  simp only [hrest, c_str] at hs
  exact hab (strncmp_eq_zero rest [] a b 64 hza hzb (by omega) hs)

@[simp] theorem World.store_objs_same (w : World) (o : Nat) (s : Segment) :
    (w.store o s).objs o = s := by
  simp [World.store]

@[simp] theorem World.store_maps (w : World) (o : Nat) (s : Segment) :
    (w.store o s).maps = w.maps := rfl

@[simp] theorem World.store_cache (w : World) (o : Nat) (s : Segment) :
    (w.store o s).g_ipc_shm_ptr_ = w.g_ipc_shm_ptr_ := rfl

@[simp] theorem World.store_named (w : World) (o : Nat) (s : Segment) :
    (w.store o s).named = w.named := rfl

@[simp] theorem World.store_store (w : World) (o : Nat) (s t : Segment) :
    (w.store o s).store o t = w.store o t := by
  simp [World.store]

section AttachedLemmas

variable (hash : List Nat → Nat) (gpuIpcGetMemHandle : Nat → Option gpuIpcMemHandle_t)

/-- Registration in a state whose cache holds a mapped segment. -/
theorem reg_att {w : World} {o gh : Nat} (os : OsOutcome) (ptr size : Nat) (name : List Nat)
    (hcur : w.g_ipc_shm_ptr_ ≠ 0) (hmap : w.maps w.g_ipc_shm_ptr_ = some o)
    (hg : gpuIpcGetMemHandle (ptr &&& ((UINT64_RANGE - 1) ^^^ (kIpcAlignment - 1))) = some gh) :
    reg_ipc_with_name hash gpuIpcGetMemHandle os ptr size name w =
      match probe (fun j => regHit name ((w.objs o).table j)) (hash name % SHM_ITEM_COUNT)
          SHM_ITEM_COUNT 0 with
      | none => some (false, w)
      | some idx => some (true, w.store o (regWrite name
          ⟨gh, ptr - (ptr &&& ((UINT64_RANGE - 1) ^^^ (kIpcAlignment - 1))), size⟩
          (w.objs o) idx)) :=
  reg_eq hash gpuIpcGetMemHandle ptr size name (check_and_get_cached os w hcur) hcur hmap hg

/-- Deregistration in a state whose cache holds a mapped segment, away from teardown. -/
theorem dereg_att {w : World} {o : Nat} (os : OsOutcome) (name : List Nat)
    (hcur : w.g_ipc_shm_ptr_ ≠ 0) (hmap : w.maps w.g_ipc_shm_ptr_ = some o)
    (hic : (w.objs o).header.itemcount ≠ 1) :
    dereg_ipc_with_name hash os name w =
      some ((probe (fun j => entryMatches name ((w.objs o).table j))
              (hash name % SHM_ITEM_COUNT) SHM_ITEM_COUNT 0).isSome,
          w.store o (deregWrite (w.objs o)
            (probe (fun j => entryMatches name ((w.objs o).table j))
              (hash name % SHM_ITEM_COUNT) SHM_ITEM_COUNT 0))) := by
  rw [dereg_eq hash name (check_and_get_cached os w hcur) hcur hmap, if_neg hic]

theorem lookup_att {w : World} {o : Nat} (os : OsOutcome) (name : List Nat)
    (hcur : w.g_ipc_shm_ptr_ ≠ 0) (hmap : w.maps w.g_ipc_shm_ptr_ = some o) :
    get_ipc_by_name_once hash os name w =
      (match probe (fun j => entryMatches name ((w.objs o).table j))
          (hash name % SHM_ITEM_COUNT) SHM_ITEM_COUNT 0 with
      | none => some (null_handle, w)
      | some idx => some (((w.objs o).table idx).handle, w)) ∧
    check_ipc_by_name_once hash os name w =
      (match probe (fun j => entryMatches name ((w.objs o).table j))
          (hash name % SHM_ITEM_COUNT) SHM_ITEM_COUNT 0 with
      | none => some (3, w)
      | some _ => some (2, w)) :=
  lookup_eq hash name (check_and_get_cached os w hcur) hcur hmap

end AttachedLemmas

theorem attachedWorld_cache : attachedWorld.g_ipc_shm_ptr_ = 4096 := rfl

theorem attachedWorld_maps : attachedWorld.maps 4096 = some 0 := rfl

theorem attachedWorld_seg : attachedWorld.objs 0 = { header := ⟨1, 0⟩, table := fun _ => zeroEntry } :=
  rfl

theorem check_and_get_emptyWorld :
    check_and_get_g_ipc_shm_ptr osOk emptyWorld = (4096, attachedWorld) := rfl

section OnAttached

variable (hash : List Nat → Nat)

theorem reg_on (S : Segment) (os : OsOutcome) (p sz : Nat) (k : List Nat) :
    reg_ipc_with_name hash gpuOk os p sz k (attachedWorld.store 0 S) =
      match probe (fun j => regHit k (S.table j)) (hash k % SHM_ITEM_COUNT)
          SHM_ITEM_COUNT 0 with
      | none => some (false, attachedWorld.store 0 S)
      | some idx => some (true, attachedWorld.store 0 (regWrite k (gpuOkHandle p sz) S idx)) := by
  have h := reg_att hash gpuOk (w := attachedWorld.store 0 S) (o := 0) os p sz k
    (by rw [World.store_cache, attachedWorld_cache]; decide)
    (by rw [World.store_maps, World.store_cache, attachedWorld_cache, attachedWorld_maps]) rfl
  rw [h, World.store_objs_same]
  cases probe (fun j => regHit k (S.table j)) (hash k % SHM_ITEM_COUNT) SHM_ITEM_COUNT 0 with
  | none => rfl
  | some idx => simp only [World.store_store]; rfl

theorem dereg_on (S : Segment) (os : OsOutcome) (k : List Nat) (hic : S.header.itemcount ≠ 1) :
    dereg_ipc_with_name hash os k (attachedWorld.store 0 S) =
      some ((probe (fun j => entryMatches k (S.table j))
              (hash k % SHM_ITEM_COUNT) SHM_ITEM_COUNT 0).isSome,
          attachedWorld.store 0 (deregWrite S
            (probe (fun j => entryMatches k (S.table j))
              (hash k % SHM_ITEM_COUNT) SHM_ITEM_COUNT 0))) := by
  have h := dereg_att hash (w := attachedWorld.store 0 S) (o := 0) os k
    (by rw [World.store_cache, attachedWorld_cache]; decide)
    (by rw [World.store_maps, World.store_cache, attachedWorld_cache, attachedWorld_maps])
    (by rw [World.store_objs_same]; exact hic)
  rw [h, World.store_objs_same, World.store_store]

theorem lookup_on (S : Segment) (os : OsOutcome) (k : List Nat) :
    get_ipc_by_name_once hash os k (attachedWorld.store 0 S) =
      (match probe (fun j => entryMatches k (S.table j))
          (hash k % SHM_ITEM_COUNT) SHM_ITEM_COUNT 0 with
      | none => some (null_handle, attachedWorld.store 0 S)
      | some idx => some ((S.table idx).handle, attachedWorld.store 0 S)) ∧
    check_ipc_by_name_once hash os k (attachedWorld.store 0 S) =
      (match probe (fun j => entryMatches k (S.table j))
          (hash k % SHM_ITEM_COUNT) SHM_ITEM_COUNT 0 with
      | none => some (3, attachedWorld.store 0 S)
      | some _ => some (2, attachedWorld.store 0 S)) := by
  have h := lookup_att hash (w := attachedWorld.store 0 S) (o := 0) os k
    (by rw [World.store_cache, attachedWorld_cache]; decide)
    (by rw [World.store_maps, World.store_cache, attachedWorld_cache, attachedWorld_maps])
  rw [World.store_objs_same] at h
  exact h

theorem reg_on_emptyWorld (p sz : Nat) (k : List Nat) :
    reg_ipc_with_name hash gpuOk osOk p sz k emptyWorld =
      some (true, attachedWorld.store 0
        (regWrite k (gpuOkHandle p sz) (attachedWorld.objs 0) (slot (hash k % SHM_ITEM_COUNT) 0))) := by
  have h := reg_eq hash gpuOk p sz k check_and_get_emptyWorld (by decide) attachedWorld_maps
    (show gpuOk (p &&& ((UINT64_RANGE - 1) ^^^ (kIpcAlignment - 1))) =
      some ((p &&& ((UINT64_RANGE - 1) ^^^ (kIpcAlignment - 1))) + 7) from rfl)
  have hp : probe (fun j => regHit k ((attachedWorld.objs 0).table j)) (hash k % SHM_ITEM_COUNT)
      SHM_ITEM_COUNT 0 = some (slot (hash k % SHM_ITEM_COUNT) 0) := by
    apply probe_full_hit0
    rw [attachedWorld_seg]
    rfl
  rw [h, hp]
  rfl

end OnAttached

theorem entryMatches_of_used_ne_one (k : List Nat) (e : IPCEntry) (h : e.used ≠ 1) :
    entryMatches k e = false := by
  rw [entryMatches_eq_false_iff]
  exact fun hm => h hm.1

theorem regHit_of_used_zero (k : List Nat) (e : IPCEntry) (h : e.used = 0) :
    regHit k e = true := by
  simp [regHit, h]

theorem regWrite_claim (k : List Nat) (handle : IPCMemHandle) (seg : Segment)
    (idx : Fin SHM_ITEM_COUNT) (h : (seg.table idx).used = 0) :
    (regWrite k handle seg idx).table idx =
      { used := 1, name := storedName (seg.table idx).name k, handle := handle } := by
  rw [regWrite_table_same, if_neg]
  rw [entryMatches_of_used_ne_one k _ (by rw [h]; decide)]
  decide

theorem regWrite_itemcount (k : List Nat) (handle : IPCMemHandle) (seg : Segment)
    (idx : Fin SHM_ITEM_COUNT) :
    (regWrite k handle seg idx).header.itemcount = fetch_add_1 seg.header.itemcount := by
  rw [regWrite_header]

/-- After `dupCalls a b` for two short keys with the same first slot, the key `b` sits
in two Occupied slots. -/
theorem dup_run (hash : List Nat → Nat) (a b : List Nat)
    (hza : ∀ c ∈ a, c ≠ 0) (hzb : ∀ c ∈ b, c ≠ 0) (hla : a.length ≤ 63)
    (hab : a ≠ b) (hcol : hash a % SHM_ITEM_COUNT = hash b % SHM_ITEM_COUNT) :
    ∃ S4 : Segment,
      run hash gpuOk (dupCalls a b) emptyWorld =
        some ([true, true, true, true], attachedWorld.store 0 S4) ∧
      S4.header.itemcount = 2 ∧
      S4.table (slot (hash b % SHM_ITEM_COUNT) 0) =
        { used := 1, name := storedName zeroEntry.name b,
          handle := gpuOkHandle (5 * 2 ^ 20 + 7) 300 } ∧
      S4.table (slot (hash b % SHM_ITEM_COUNT) 1) =
        { used := 1, name := storedName zeroEntry.name b,
          handle := gpuOkHandle (4 * 2 ^ 20 + 6) 200 } := by
  have hne := slot_zero_ne_one (hash b % SHM_ITEM_COUNT)
  -- the segment after the attach
  have hS0t : ∀ j, (attachedWorld.objs 0).table j = zeroEntry := by
    intro j; rw [attachedWorld_seg]
  have hS0c : (attachedWorld.objs 0).header.itemcount = 0 := by rw [attachedWorld_seg]
  -- register a
  have step1 := reg_on_emptyWorld hash (3 * 2 ^ 20 + 5) 100 a
  rw [hcol] at step1
  obtain ⟨S1, hS1⟩ : ∃ S, S = regWrite a (gpuOkHandle (3 * 2 ^ 20 + 5) 100)
    (attachedWorld.objs 0) (slot (hash b % SHM_ITEM_COUNT) 0) := ⟨_, rfl⟩
  rw [← hS1] at step1
  have h1a : S1.table (slot (hash b % SHM_ITEM_COUNT) 0) =
      { used := 1, name := storedName zeroEntry.name a,
        handle := gpuOkHandle (3 * 2 ^ 20 + 5) 100 } := by
    rw [hS1, regWrite_claim a _ _ _ (by rw [hS0t]; rfl), hS0t]
  have h1b : S1.table (slot (hash b % SHM_ITEM_COUNT) 1) = zeroEntry := by
    rw [hS1, regWrite_table_ne a _ _ (Ne.symm hne), hS0t]
  have h1c : S1.header.itemcount = 1 := by
    rw [hS1, regWrite_itemcount, hS0c]; decide
  -- register b
  have p2 : probe (fun j => regHit b (S1.table j)) (hash b % SHM_ITEM_COUNT)
      SHM_ITEM_COUNT 0 = some (slot (hash b % SHM_ITEM_COUNT) 1) := by
    apply probe_full_hit1
    · show regHit b (S1.table _) = false
      rw [h1a, regHit_eq_false_iff]
      refine ⟨show (1 : Int) ≠ 0 by decide, ?_⟩
      rw [← entryMatches_eq_false_iff]
      exact entryMatches_stored_ne _ a b _ 1 hza hzb hla hab
    · show regHit b (S1.table _) = true
      rw [h1b]; rfl
  have step2 := reg_on hash S1 osOk (4 * 2 ^ 20 + 6) 200 b
  rw [p2] at step2
  obtain ⟨S2, hS2⟩ : ∃ S, S = regWrite b (gpuOkHandle (4 * 2 ^ 20 + 6) 200) S1
    (slot (hash b % SHM_ITEM_COUNT) 1) := ⟨_, rfl⟩
  simp only [← hS2] at step2
  have h2a : S2.table (slot (hash b % SHM_ITEM_COUNT) 0) =
      { used := 1, name := storedName zeroEntry.name a,
        handle := gpuOkHandle (3 * 2 ^ 20 + 5) 100 } := by
    rw [hS2, regWrite_table_ne b _ _ hne, h1a]
  have h2b : S2.table (slot (hash b % SHM_ITEM_COUNT) 1) =
      { used := 1, name := storedName zeroEntry.name b,
        handle := gpuOkHandle (4 * 2 ^ 20 + 6) 200 } := by
    rw [hS2, regWrite_claim b _ _ _ (by rw [h1b]; rfl), h1b]
  have h2c : S2.header.itemcount = 2 := by
    rw [hS2, regWrite_itemcount, h1c]; decide
  -- deregister a
  have p3 : probe (fun j => entryMatches a (S2.table j)) (hash a % SHM_ITEM_COUNT)
      SHM_ITEM_COUNT 0 = some (slot (hash b % SHM_ITEM_COUNT) 0) := by
    rw [hcol]
    apply probe_full_hit0
    show entryMatches a (S2.table _) = true
    rw [h2a]
    exact entryMatches_stored _ a _ hza hla
  have step3 := dereg_on hash S2 osOk a (by rw [h2c]; decide)
  rw [p3] at step3
  obtain ⟨S3, hS3⟩ : ∃ S, S = deregWrite S2 (some (slot (hash b % SHM_ITEM_COUNT) 0)) :=
    ⟨_, rfl⟩
  simp only [← hS3, Option.isSome_some] at step3
  have h3a : S3.table (slot (hash b % SHM_ITEM_COUNT) 0) =
      { used := 0, name := storedName zeroEntry.name a,
        handle := gpuOkHandle (3 * 2 ^ 20 + 5) 100 } := by
    rw [hS3, deregWrite_some_table, Function.update_same, h2a]
  have h3b : S3.table (slot (hash b % SHM_ITEM_COUNT) 1) =
      { used := 1, name := storedName zeroEntry.name b,
        handle := gpuOkHandle (4 * 2 ^ 20 + 6) 200 } := by
    rw [hS3, deregWrite_some_table, Function.update_noteq (Ne.symm hne), h2b]
  have h3c : S3.header.itemcount = 1 := by
    rw [hS3, deregWrite_itemcount, h2c]; decide
  -- register b again
  have p4 : probe (fun j => regHit b (S3.table j)) (hash b % SHM_ITEM_COUNT)
      SHM_ITEM_COUNT 0 = some (slot (hash b % SHM_ITEM_COUNT) 0) := by
    apply probe_full_hit0
    show regHit b (S3.table _) = true
    rw [h3a]; rfl
  have step4 := reg_on hash S3 osOk (5 * 2 ^ 20 + 7) 300 b
  rw [p4] at step4
  simp only at step4
  refine ⟨regWrite b (gpuOkHandle (5 * 2 ^ 20 + 7) 300) S3 (slot (hash b % SHM_ITEM_COUNT) 0),
    ?_, ?_, ?_, ?_⟩
  · simp only [dupCalls, run, Call.step, step1, step2, step3, step4]
  · rw [regWrite_itemcount, h3c]; decide
  · rw [regWrite_claim b _ _ _ (by rw [h3a]), h3a]
    simp only [IPCEntry.mk.injEq, and_true, true_and]
    apply storedName_congr
    rw [storedName_drop _ a hza]
  · rw [regWrite_table_ne b _ _ (Ne.symm hne), h3b]

theorem run_append (hash : List Nat → Nat) (gpuIpcGetMemHandle : Nat → Option gpuIpcMemHandle_t)
    (ds : List Call) : ∀ (cs : List Call) (w : World),
    run hash gpuIpcGetMemHandle (cs ++ ds) w =
      match run hash gpuIpcGetMemHandle cs w with
      | none => none
      | some (bs, w1) =>
        match run hash gpuIpcGetMemHandle ds w1 with
        | none => none
        | some (bs2, w2) => some (bs ++ bs2, w2)
  | [], w => by
    simp only [List.nil_append, run]
    cases run hash gpuIpcGetMemHandle ds w with
    | none => rfl
    | some r => rfl
  | c :: cs, w => by
    have ih := run_append hash gpuIpcGetMemHandle ds cs
    rw [List.cons_append, run.eq_2, run.eq_2]
    cases c.step hash gpuIpcGetMemHandle w with
    | none => rfl
    | some r =>
      obtain ⟨b, w1⟩ := r
      simp only
      rw [ih w1]
      cases run hash gpuIpcGetMemHandle cs w1 with
      | none => rfl
      | some r2 =>
        obtain ⟨bs, w2⟩ := r2
        simp only
        cases run hash gpuIpcGetMemHandle ds w2 with
        | none => rfl
        | some r3 => rfl

theorem sampleKey_nonzero (i : Nat) : ∀ c ∈ sampleKey i, c ≠ 0 := by
  intro c hc
  simp only [sampleKey, List.mem_cons, List.mem_singleton, List.not_mem_nil, or_false] at hc
  rcases hc with h | h <;> omega

theorem sampleKey_length (i : Nat) : (sampleKey i).length = 2 := rfl

theorem sampleKey_inj {i j : Nat} (h : sampleKey i = sampleKey j) : i = j := by
  simp only [sampleKey, List.cons.injEq, and_true] at h
  omega

/-- Whatever the hash function, two of the 1025 sample keys start their probe at the
same slot. -/
theorem exists_collision (hash : List Nat → Nat) :
    ∃ a b : List Nat, a ≠ b ∧ (∀ c ∈ a, c ≠ 0) ∧ (∀ c ∈ b, c ≠ 0) ∧ a.length ≤ 63 ∧
      b.length ≤ 63 ∧ hash a % SHM_ITEM_COUNT = hash b % SHM_ITEM_COUNT := by
  have hcard : Fintype.card (Fin SHM_ITEM_COUNT) < Fintype.card (Fin (SHM_ITEM_COUNT + 1)) := by
    rw [Fintype.card_fin, Fintype.card_fin]
    exact Nat.lt_succ_self _
  obtain ⟨i, j, hij, hf⟩ := Fintype.exists_ne_map_eq_of_card_lt
    (fun i : Fin (SHM_ITEM_COUNT + 1) =>
      (⟨hash (sampleKey i.val) % SHM_ITEM_COUNT, Nat.mod_lt _ (by decide)⟩ : Fin SHM_ITEM_COUNT))
    hcard
  refine ⟨sampleKey i.val, sampleKey j.val, ?_, sampleKey_nonzero _, sampleKey_nonzero _,
    by rw [sampleKey_length]; decide, by rw [sampleKey_length]; decide, ?_⟩
  · intro h
    exact hij (Fin.ext (sampleKey_inj h))
  · exact congrArg Fin.val hf

/-- After `dupCalls a b`, deregistering `b` succeeds and `b` is still found, with the
handle of its first registration. -/
theorem dup_then_dereg (hash : List Nat → Nat) (a b : List Nat)
    (hza : ∀ c ∈ a, c ≠ 0) (hzb : ∀ c ∈ b, c ≠ 0) (hla : a.length ≤ 63) (hlb : b.length ≤ 63)
    (hab : a ≠ b) (hcol : hash a % SHM_ITEM_COUNT = hash b % SHM_ITEM_COUNT) :
    ∃ w4 w5, run hash gpuOk (dupCalls a b) emptyWorld = some ([true, true, true, true], w4) ∧
      dereg_ipc_with_name hash osOk b w4 = some (true, w5) ∧
      get_ipc_by_name_once hash osOk b w5 = some (gpuOkHandle (4 * 2 ^ 20 + 6) 200, w5) ∧
      check_ipc_by_name_once hash osOk b w5 = some (2, w5) := by
  obtain ⟨S4, hrun, hc, ha, hb⟩ := dup_run hash a b hza hzb hla hab hcol
  have hne := slot_zero_ne_one (hash b % SHM_ITEM_COUNT)
  have p5 : probe (fun j => entryMatches b (S4.table j)) (hash b % SHM_ITEM_COUNT)
      SHM_ITEM_COUNT 0 = some (slot (hash b % SHM_ITEM_COUNT) 0) := by
    apply probe_full_hit0
    show entryMatches b (S4.table _) = true
    rw [ha]
    exact entryMatches_stored _ b _ hzb hlb
  have step5 := dereg_on hash S4 osOk b (by rw [hc]; decide)
  rw [p5] at step5
  simp only [Option.isSome_some] at step5
  have p6 : probe (fun j => entryMatches b
      ((deregWrite S4 (some (slot (hash b % SHM_ITEM_COUNT) 0))).table j))
      (hash b % SHM_ITEM_COUNT) SHM_ITEM_COUNT 0 = some (slot (hash b % SHM_ITEM_COUNT) 1) := by
    apply probe_full_hit1
    · show entryMatches b ((deregWrite S4 _).table _) = false
      rw [deregWrite_some_table, Function.update_same]
      exact entryMatches_of_used_ne_one b _ (show (0 : Int) ≠ 1 by decide)
    · show entryMatches b ((deregWrite S4 _).table _) = true
      rw [deregWrite_some_table, Function.update_noteq (Ne.symm hne), hb]
      exact entryMatches_stored _ b _ hzb hlb
  have hl := lookup_on hash (deregWrite S4 (some (slot (hash b % SHM_ITEM_COUNT) 0))) osOk b
  rw [p6] at hl
  refine ⟨_, _, hrun, step5, ?_, hl.2⟩
  rw [hl.1]
  simp only
  rw [deregWrite_some_table, Function.update_noteq (Ne.symm hne), hb]

/-! ## Keys of 64 bytes and more -/

/-- A key whose first 64 bytes are not NUL matches no name written by a registration:
byte 63 of such a name is NUL. -/
theorem entryMatches_long (old k1 k : List Nat) (handle : IPCMemHandle) (u : Int)
    (hz1 : ∀ c ∈ k1, c ≠ 0) (hz : ∀ c ∈ k, c ≠ 0) (hlen : 64 ≤ k.length) :
    entryMatches k { used := u, name := storedName old k1, handle := handle } = false := by
  obtain ⟨rest, hrest⟩ := storedName_form old k1 hz1
  rw [entryMatches_eq_false_iff]
  rintro ⟨_, hs⟩
  simp only [hrest, c_str] at hs
  have hl : (k1.take 63).length ≤ 63 := by
    rw [List.length_take]; exact Nat.min_le_left _ _
  have := strncmp_eq_zero rest [] (k1.take 63) k 64
    (fun c hc => hz1 c (List.mem_of_mem_take hc)) hz (by omega) hs
  rw [this] at hl
  omega

/-- A key of 64 bytes or more is registered on a fresh segment and then not found. -/
theorem long_key_lost (hash : List Nat → Nat) (k1 k2 : List Nat)
    (hz1 : ∀ c ∈ k1, c ≠ 0) (hz2 : ∀ c ∈ k2, c ≠ 0) (hlen2 : 64 ≤ k2.length) :
    ∃ w1, reg_ipc_with_name hash gpuOk osOk (3 * 2 ^ 20 + 5) 100 k1 emptyWorld = some (true, w1) ∧
      get_ipc_by_name_once hash osOk k2 w1 = some (null_handle, w1) ∧
      check_ipc_by_name_once hash osOk k2 w1 = some (3, w1) := by
  have hS0t : ∀ j, (attachedWorld.objs 0).table j = zeroEntry := by
    intro j; rw [attachedWorld_seg]
  have hp : probe (fun j => entryMatches k2
      ((regWrite k1 (gpuOkHandle (3 * 2 ^ 20 + 5) 100) (attachedWorld.objs 0)
        (slot (hash k1 % SHM_ITEM_COUNT) 0)).table j))
      (hash k2 % SHM_ITEM_COUNT) SHM_ITEM_COUNT 0 = none := by
    rw [probe_full_eq_none]
    intro j
    by_cases hj : j = slot (hash k1 % SHM_ITEM_COUNT) 0
    · subst hj
      rw [regWrite_claim k1 _ _ _ (by rw [hS0t]; rfl)]
      exact entryMatches_long _ k1 k2 _ 1 hz1 hz2 hlen2
    · rw [regWrite_table_ne k1 _ _ hj, hS0t]
      rfl
  have hl := lookup_on hash (regWrite k1 (gpuOkHandle (3 * 2 ^ 20 + 5) 100)
    (attachedWorld.objs 0) (slot (hash k1 % SHM_ITEM_COUNT) 0)) osOk k2
  rw [hp] at hl
  exact ⟨_, reg_on_emptyWorld hash _ _ k1, hl.1, hl.2⟩

/-! ## Filling the table -/

theorem World.store_self (w : World) (o : Nat) : w.store o (w.objs o) = w := by
  simp [World.store]

section Filling

variable (hash : List Nat → Nat) (gpuIpcGetMemHandle : Nat → Option gpuIpcMemHandle_t)

/-- Registration in a state whose cache holds the mapped object `o`, with content `S`. -/
theorem reg_store {w : World} {o gh : Nat} (S : Segment) (os : OsOutcome) (p sz : Nat)
    (k : List Nat) (hcur : w.g_ipc_shm_ptr_ ≠ 0) (hmap : w.maps w.g_ipc_shm_ptr_ = some o)
    (hg : gpuIpcGetMemHandle (p &&& ((UINT64_RANGE - 1) ^^^ (kIpcAlignment - 1))) = some gh) :
    reg_ipc_with_name hash gpuIpcGetMemHandle os p sz k (w.store o S) =
      match probe (fun j => regHit k (S.table j)) (hash k % SHM_ITEM_COUNT)
          SHM_ITEM_COUNT 0 with
      | none => some (false, w.store o S)
      | some idx => some (true, w.store o (regWrite k
          ⟨gh, p - (p &&& ((UINT64_RANGE - 1) ^^^ (kIpcAlignment - 1))), sz⟩ S idx)) := by
  have h := reg_att hash gpuIpcGetMemHandle (w := w.store o S) (o := o) os p sz k
    (by rw [World.store_cache]; exact hcur)
    (by rw [World.store_maps, World.store_cache]; exact hmap) hg
  rw [h, World.store_objs_same]
  cases probe (fun j => regHit k (S.table j)) (hash k % SHM_ITEM_COUNT) SHM_ITEM_COUNT 0 with
  | none => rfl
  | some idx => simp only [World.store_store]

end Filling

theorem regHit_not_match_used (k : List Nat) (e : IPCEntry) (hh : regHit k e = true)
    (hm : entryMatches k e = false) : e.used = 0 := by
  simpa [regHit, hm] using hh

/-- A registration keeps every match of any key. -/
theorem regWrite_keeps_match (k2 k : List Nat) (handle : IPCMemHandle) (seg : Segment)
    (idx j : Fin SHM_ITEM_COUNT) (hh : regHit k (seg.table idx) = true)
    (hm : entryMatches k2 (seg.table j) = true) :
    entryMatches k2 ((regWrite k handle seg idx).table j) = true := by
  by_cases hj : j = idx
  · subst hj
    rw [regWrite_table_same]
    split
    · simpa [entryMatches] using hm
    · rename_i hnm
      have hu := regHit_not_match_used k _ hh (by simpa using hnm)
      rw [entryMatches_of_used_ne_one k2 _ (by rw [hu]; decide)] at hm
      cases hm
  · rw [regWrite_table_ne k handle seg hj]
    exact hm

theorem entryMatches_name_ne (old a b : List Nat) (e : IPCEntry)
    (hn : e.name = storedName old a)
    (hza : ∀ c ∈ a, c ≠ 0) (hzb : ∀ c ∈ b, c ≠ 0) (hla : a.length ≤ 63) (hab : a ≠ b) :
    entryMatches b e = false := by
  have := entryMatches_stored_ne old a b e.handle e.used hza hzb hla hab
  rw [← hn] at this
  exact this

theorem FilledWith_fresh (seg : Segment) (h : ∀ j, (seg.table j).used = 0) :
    FilledWith seg [] := by
  refine ⟨fun j => Or.inl (h j), ?_⟩
  have : nonEmptySlots seg.table = ∅ := by
    apply Finset.filter_eq_empty_iff.2
    intro j _ hj
    exact hj (h j)
  rw [this]
  rfl

theorem FilledWith_no_match (seg : Segment) (ks : List (List Nat)) (k : List Nat)
    (hf : FilledWith seg ks) (hks : ∀ k2 ∈ ks, (∀ c ∈ k2, c ≠ 0) ∧ k2.length ≤ 63)
    (hz : ∀ c ∈ k, c ≠ 0) (hnew : k ∉ ks) (j : Fin SHM_ITEM_COUNT) :
    entryMatches k (seg.table j) = false := by
  rcases hf.1 j with h0 | ⟨_, k2, hk2, old, hn⟩
  · exact entryMatches_of_used_ne_one k _ (by rw [h0]; decide)
  · exact entryMatches_name_ne old k2 k _ hn (hks k2 hk2).1 hz (hks k2 hk2).2
      (fun h => hnew (h ▸ hk2))

/-- A new short key finds no slot in a table that holds `SHM_ITEM_COUNT` keys. -/
theorem FilledWith_full (h : Nat) (seg : Segment) (ks : List (List Nat)) (k : List Nat)
    (hf : FilledWith seg ks) (hks : ∀ k2 ∈ ks, (∀ c ∈ k2, c ≠ 0) ∧ k2.length ≤ 63)
    (hz : ∀ c ∈ k, c ≠ 0) (hnew : k ∉ ks) (hlen : ks.length = SHM_ITEM_COUNT) :
    probe (fun j => regHit k (seg.table j)) h SHM_ITEM_COUNT 0 = none := by
  rw [probe_full_eq_none]
  intro j
  have huniv : nonEmptySlots seg.table = Finset.univ := by
    apply Finset.eq_univ_of_card
    rw [hf.2, hlen, Fintype.card_fin]
  have hj : j ∈ nonEmptySlots seg.table := by rw [huniv]; exact Finset.mem_univ j
  have hne : (seg.table j).used ≠ 0 := by
    simpa [nonEmptySlots] using hj
  rw [regHit_eq_false_iff]
  exact ⟨hne, (entryMatches_eq_false_iff k _).1 (FilledWith_no_match seg ks k hf hks hz hnew j)⟩

/-- A new short key claims a slot in a table that holds fewer than `SHM_ITEM_COUNT` keys. -/
theorem FilledWith_claim (h : Nat) (handle : IPCMemHandle) (seg : Segment)
    (ks : List (List Nat)) (k : List Nat)
    (hf : FilledWith seg ks) (hks : ∀ k2 ∈ ks, (∀ c ∈ k2, c ≠ 0) ∧ k2.length ≤ 63)
    (hz : ∀ c ∈ k, c ≠ 0) (hnew : k ∉ ks) (hlen : ks.length < SHM_ITEM_COUNT) :
    ∃ idx, probe (fun j => regHit k (seg.table j)) h SHM_ITEM_COUNT 0 = some idx ∧
      FilledWith (regWrite k handle seg idx) (k :: ks) := by
  have hnm := FilledWith_no_match seg ks k hf hks hz hnew
  have hex : ∃ j0, (seg.table j0).used = 0 := by
    by_contra hcon
    push_neg at hcon
    have huniv : nonEmptySlots seg.table = Finset.univ := by
      apply Finset.eq_univ_iff_forall.2
      intro j
      simp only [nonEmptySlots, Finset.mem_filter, Finset.mem_univ, true_and]
      exact hcon j
    have hc := hf.2
    rw [huniv, Finset.card_univ, Fintype.card_fin] at hc
    omega
  obtain ⟨j0, hj0⟩ := hex
  obtain ⟨idx, hidx⟩ := probe_full_isSome (p := fun j => regHit k (seg.table j)) (h := h)
    (j := j0) (regHit_of_used_zero k _ hj0)
  have hu : (seg.table idx).used = 0 :=
    regHit_not_match_used k _ (probe_some_holds hidx) (hnm idx)
  refine ⟨idx, hidx, ?_, ?_⟩
  · intro j
    by_cases hj : j = idx
    · subst hj
      rw [regWrite_claim k handle seg j hu]
      exact Or.inr ⟨rfl, k, List.mem_cons_self _ _, _, rfl⟩
    · rw [regWrite_table_ne k handle seg hj]
      rcases hf.1 j with h0 | ⟨h1, k2, hk2, old, hn⟩
      · exact Or.inl h0
      · exact Or.inr ⟨h1, k2, List.mem_cons_of_mem _ hk2, old, hn⟩
  · have hins : nonEmptySlots (regWrite k handle seg idx).table =
        insert idx (nonEmptySlots seg.table) := by
      ext j
      simp only [nonEmptySlots, Finset.mem_filter, Finset.mem_univ, true_and,
        Finset.mem_insert]
      by_cases hj : j = idx
      · subst hj
        rw [regWrite_claim k handle seg j hu]
        simp
      · rw [regWrite_table_ne k handle seg hj]
        simp [hj]
    have hnotin : idx ∉ nonEmptySlots seg.table := by
      simp [nonEmptySlots, hu]
    rw [hins, Finset.card_insert_of_not_mem hnotin, hf.2, List.length_cons]

section FillingRuns

variable (hash : List Nat → Nat) (gpuIpcGetMemHandle : Nat → Option gpuIpcMemHandle_t)

theorem run_cons_reg {w : World} (c : OsOutcome × Nat × Nat × List Nat) (cs : List Call)
    {b : Bool} {w1 : World}
    (h : reg_ipc_with_name hash gpuIpcGetMemHandle c.1 c.2.1 c.2.2.1 c.2.2.2 w = some (b, w1)) :
    run hash gpuIpcGetMemHandle (Call.ofReg c :: cs) w =
      match run hash gpuIpcGetMemHandle cs w1 with
      | none => none
      | some (bs, w2) => some (b :: bs, w2) := by
  rw [run.eq_2]
  simp only [Call.ofReg, Call.step, h]

/-- Registering different short keys, one after the other, into a table with room for
all of them: every call returns true. -/
theorem regs_fill {w : World} {o : Nat} (hcur : w.g_ipc_shm_ptr_ ≠ 0)
    (hmap : w.maps w.g_ipc_shm_ptr_ = some o) :
    ∀ (args : List (OsOutcome × Nat × Nat × List Nat)) (ks : List (List Nat)) (S : Segment),
      FilledWith S ks → (∀ k2 ∈ ks, (∀ c ∈ k2, c ≠ 0) ∧ k2.length ≤ 63) →
      (∀ a ∈ args, (∀ c ∈ a.2.2.2, c ≠ 0) ∧ a.2.2.2.length ≤ 63) →
      (args.map (fun a => a.2.2.2)).Nodup → (∀ a ∈ args, a.2.2.2 ∉ ks) →
      (∀ a ∈ args, ∃ gh, gpuIpcGetMemHandle
        (a.2.1 &&& ((UINT64_RANGE - 1) ^^^ (kIpcAlignment - 1))) = some gh) →
      ks.length + args.length ≤ SHM_ITEM_COUNT →
      ∃ S2 ks2, run hash gpuIpcGetMemHandle (args.map Call.ofReg) (w.store o S) =
          some (List.replicate args.length true, w.store o S2) ∧
        FilledWith S2 ks2 ∧ ks2.length = ks.length + args.length ∧
        (∀ k2 ∈ ks2, k2 ∈ ks ∨ k2 ∈ args.map (fun a => a.2.2.2))
  | [], ks, S, hf, _, _, _, _, _, _ =>
    ⟨S, ks, rfl, hf, rfl, fun k2 hk2 => Or.inl hk2⟩
  | a :: args, ks, S, hf, hks, hargs, hnd, hnew, hgpu, hlen => by
    obtain ⟨gh, hg⟩ := hgpu a (List.mem_cons_self _ _)
    have ha := hargs a (List.mem_cons_self _ _)
    have hlen2 : ks.length < SHM_ITEM_COUNT := by
      simp only [List.length_cons] at hlen; omega
    obtain ⟨idx, hidx, hf2⟩ := FilledWith_claim (hash a.2.2.2 % SHM_ITEM_COUNT)
      ⟨gh, a.2.1 - (a.2.1 &&& ((UINT64_RANGE - 1) ^^^ (kIpcAlignment - 1))), a.2.2.1⟩
      S ks a.2.2.2 hf hks ha.1 (hnew a (List.mem_cons_self _ _)) hlen2
    have hstep := reg_store hash gpuIpcGetMemHandle S a.1 a.2.1 a.2.2.1 a.2.2.2 hcur hmap hg
    rw [hidx] at hstep
    rw [List.map_cons, List.nodup_cons] at hnd
    obtain ⟨S2, ks2, hrun, hf3, hl3, hsub⟩ := regs_fill hcur hmap args (a.2.2.2 :: ks) _ hf2
      (fun k2 hk2 => by
        rcases List.mem_cons.1 hk2 with h | h
        · rw [h]; exact ha
        · exact hks k2 h)
      (fun a2 ha2 => hargs a2 (List.mem_cons_of_mem _ ha2)) hnd.2
      (fun a2 ha2 hin => by
        rcases List.mem_cons.1 hin with h | h
        · exact hnd.1 (h ▸ List.mem_map_of_mem (fun a => a.2.2.2) ha2)
        · exact hnew a2 (List.mem_cons_of_mem _ ha2) h)
      (fun a2 ha2 => hgpu a2 (List.mem_cons_of_mem _ ha2))
      (by simp only [List.length_cons] at hlen ⊢; omega)
    refine ⟨S2, ks2, ?_, hf3, ?_, ?_⟩
    · rw [List.map_cons, run_cons_reg hash gpuIpcGetMemHandle a _ hstep, hrun]
      rfl
    · rw [hl3]; simp only [List.length_cons]; omega
    · intro k2 hk2
      rcases hsub k2 hk2 with h | h
      · rcases List.mem_cons.1 h with h2 | h2
        · exact Or.inr (by rw [h2, List.map_cons]; exact List.mem_cons_self _ _)
        · exact Or.inl h2
      · exact Or.inr (by rw [List.map_cons]; exact List.mem_cons_of_mem _ h)

/-- Capacity exhaustion for keys without NUL byte of at most 63 bytes. -/
theorem capacity_exhaustion (w : World) (o : Nat)
    (args : List (OsOutcome × Nat × Nat × List Nat))
    (hcur : w.g_ipc_shm_ptr_ ≠ 0) (hmap : w.maps w.g_ipc_shm_ptr_ = some o)
    (hempty : ∀ j, ((w.objs o).table j).used = 0)
    (hlen : args.length = SHM_ITEM_COUNT + 1)
    (hnd : (args.map (fun a => a.2.2.2)).Nodup)
    (hargs : ∀ a ∈ args, (∀ c ∈ a.2.2.2, c ≠ 0) ∧ a.2.2.2.length ≤ 63)
    (hgpu : ∀ a ∈ args, ∃ gh, gpuIpcGetMemHandle
        (a.2.1 &&& ((UINT64_RANGE - 1) ^^^ (kIpcAlignment - 1))) = some gh) :
    ∃ w2, run hash gpuIpcGetMemHandle (args.map Call.ofReg) w =
      some (List.replicate SHM_ITEM_COUNT true ++ [false], w2) := by
  have hsplit := List.take_append_drop SHM_ITEM_COUNT args
  have hl1 : (args.take SHM_ITEM_COUNT).length = SHM_ITEM_COUNT := by
    rw [List.length_take, hlen]; rfl
  have hl2 : (args.drop SHM_ITEM_COUNT).length = 1 := by
    rw [List.length_drop, hlen]; rfl
  obtain ⟨last, hlast⟩ := List.length_eq_one.1 hl2
  rw [hlast] at hsplit
  generalize args.take SHM_ITEM_COUNT = init at hsplit hl1
  subst hsplit
  rw [List.map_append, List.nodup_append] at hnd
  obtain ⟨hnd1, _, hdisj⟩ := hnd
  obtain ⟨S2, ks2, hrun, hf, hl3, hsub⟩ := regs_fill hash gpuIpcGetMemHandle hcur hmap init []
    (w.objs o) (FilledWith_fresh _ hempty) (fun _ h => absurd h (List.not_mem_nil _))
    (fun a ha => hargs a (List.mem_append_left _ ha)) hnd1
    (fun _ _ h => absurd h (List.not_mem_nil _))
    (fun a ha => hgpu a (List.mem_append_left _ ha))
    (by rw [hl1]; simp)
  rw [World.store_self] at hrun
  have hks2 : ∀ k2 ∈ ks2, (∀ c ∈ k2, c ≠ 0) ∧ k2.length ≤ 63 := by
    intro k2 hk2
    rcases hsub k2 hk2 with h | h
    · exact absurd h (List.not_mem_nil _)
    · obtain ⟨a, ha, rfl⟩ := List.mem_map.1 h
      exact hargs a (List.mem_append_left _ ha)
  have hlastnew : last.2.2.2 ∉ ks2 := by
    intro hin
    rcases hsub _ hin with h | h
    · exact absurd h (List.not_mem_nil _)
    · exact hdisj h (by simp)
  have hlastarg := hargs last (List.mem_append_right _ (List.mem_singleton_self _))
  obtain ⟨gh, hg⟩ := hgpu last (List.mem_append_right _ (List.mem_singleton_self _))
  have hfull := FilledWith_full (hash last.2.2.2 % SHM_ITEM_COUNT) S2 ks2 last.2.2.2 hf hks2
    hlastarg.1 hlastnew (by rw [hl3, hl1]; simp)
  have hstep := reg_store hash gpuIpcGetMemHandle S2 last.1 last.2.1 last.2.2.1 last.2.2.2
    hcur hmap hg
  rw [hfull] at hstep
  refine ⟨w.store o S2, ?_⟩
  rw [List.map_append, run_append, hrun, hl1]
  simp only [List.map_cons, List.map_nil]
  rw [run_cons_reg hash gpuIpcGetMemHandle last [] hstep]
  rfl

end FillingRuns

/-! ## Different keys that share a slot -/

theorem entryMatches_of_forms (a r1 r2 kl name : List Nat) (handle : IPCMemHandle)
    (hname : name = a ++ 0 :: r1) (hk : c_str kl = a ++ 0 :: r2) (hz : ∀ c ∈ a, c ≠ 0) :
    entryMatches kl { used := 1, name := name, handle := handle } = true := by
  simp only [entryMatches, hname, hk, decide_True, Bool.true_and, decide_eq_true_eq]
  exact strncmp_self r1 r2 a _ hz

/-- Registrations keep a match of the key `k2` that exists. -/
theorem regs_keep_match (hash : List Nat → Nat) (k2 : List Nat) :
    ∀ (keys : List (List Nat)) (S : Segment),
      (∃ j, entryMatches k2 (S.table j) = true) →
      ∃ bs S2, run hash gpuOk (regCalls keys) (attachedWorld.store 0 S) =
          some (bs, attachedWorld.store 0 S2) ∧ bs.length = keys.length ∧
        ∃ j, entryMatches k2 (S2.table j) = true
  | [], S, hm => ⟨[], S, rfl, rfl, hm⟩
  | k :: keys, S, hm => by
    have hstep := reg_on hash S osOk (3 * 2 ^ 20 + 5) 100 k
    cases hpr : probe (fun j => regHit k (S.table j)) (hash k % SHM_ITEM_COUNT)
        SHM_ITEM_COUNT 0 with
    | none =>
      rw [hpr] at hstep
      obtain ⟨bs, S2, hrun, hl, hm2⟩ := regs_keep_match hash k2 keys S hm
      refine ⟨false :: bs, S2, ?_, by rw [List.length_cons, List.length_cons, hl], hm2⟩
      rw [regCalls, List.map_cons, run.eq_2]
      simp only [Call.step, hstep]
      rw [← regCalls, hrun]
    | some idx =>
      rw [hpr] at hstep
      obtain ⟨j, hj⟩ := hm
      obtain ⟨bs, S2, hrun, hl, hm2⟩ := regs_keep_match hash k2 keys
        (regWrite k (gpuOkHandle (3 * 2 ^ 20 + 5) 100) S idx)
        ⟨j, regWrite_keeps_match k2 k _ S idx j (probe_some_holds hpr) hj⟩
      refine ⟨true :: bs, S2, ?_, by rw [List.length_cons, List.length_cons, hl], hm2⟩
      rw [regCalls, List.map_cons, run.eq_2]
      simp only [Call.step, hstep]
      rw [← regCalls, hrun]

/-- When the last key matches the name stored for the first one, the last registration
returns true however many keys were registered in between. -/
theorem last_reg_true (hash : List Nat → Nat) (k0 kl : List Nat) (mid : List (List Nat))
    (hmatch : ∀ old handle,
      entryMatches kl { used := 1, name := storedName old k0, handle := handle } = true) :
    ∃ bs w, run hash gpuOk (regCalls (k0 :: (mid ++ [kl]))) emptyWorld = some (bs ++ [true], w) ∧
      bs.length = mid.length + 1 := by
  have step1 := reg_on_emptyWorld hash (3 * 2 ^ 20 + 5) 100 k0
  have hS0t : ∀ j, (attachedWorld.objs 0).table j = zeroEntry := by
    intro j; rw [attachedWorld_seg]
  obtain ⟨bs, S2, hrun, hl, j, hj⟩ := regs_keep_match hash kl mid
    (regWrite k0 (gpuOkHandle (3 * 2 ^ 20 + 5) 100) (attachedWorld.objs 0)
      (slot (hash k0 % SHM_ITEM_COUNT) 0))
    ⟨slot (hash k0 % SHM_ITEM_COUNT) 0, by
      rw [regWrite_claim k0 _ _ _ (by rw [hS0t]; rfl)]
      exact hmatch _ _⟩
  obtain ⟨idx, hidx⟩ := probe_full_isSome (p := fun j => regHit kl (S2.table j))
    (h := hash kl % SHM_ITEM_COUNT) (j := j) (by simp [regHit, hj])
  have hlast := reg_on hash S2 osOk (3 * 2 ^ 20 + 5) 100 kl
  rw [hidx] at hlast
  refine ⟨true :: bs,
    attachedWorld.store 0 (regWrite kl (gpuOkHandle (3 * 2 ^ 20 + 5) 100) S2 idx), ?_,
    by rw [List.length_cons, hl]⟩
  rw [regCalls, List.map_cons, run.eq_2]
  simp only [Call.step, step1]
  rw [List.map_append, ← regCalls, run_append, hrun]
  simp only [List.map_cons, List.map_nil, run, Call.step, hlast]
  rfl

theorem sampleKey_injective : Function.Injective sampleKey := fun _ _ h => sampleKey_inj h

theorem truncMergeKeys_length : truncMergeKeys.length = SHM_ITEM_COUNT + 1 := by
  simp [truncMergeKeys]

theorem nulMergeKeys_length : nulMergeKeys.length = SHM_ITEM_COUNT + 1 := by
  simp [nulMergeKeys]

theorem truncMergeKeys_nodup : truncMergeKeys.Nodup := by
  unfold truncMergeKeys
  rw [List.nodup_cons, List.nodup_append]
  refine ⟨?_, (List.nodup_range 1023).map sampleKey_injective, List.nodup_singleton _, ?_⟩
  · intro h
    rcases List.mem_append.1 h with h | h
    · obtain ⟨i, _, hi⟩ := List.mem_map.1 h
      have := congrArg List.length hi
      rw [sampleKey_length, List.length_replicate] at this
      omega
    · have := congrArg List.length (List.mem_singleton.1 h)
      rw [List.length_replicate, List.length_replicate] at this
      omega
  · intro x hx hx2
    obtain ⟨i, _, hi⟩ := List.mem_map.1 hx
    have := congrArg List.length ((List.mem_singleton.1 hx2).symm.trans hi.symm)
    rw [sampleKey_length, List.length_replicate] at this
    omega

theorem nulMergeKeys_nodup : nulMergeKeys.Nodup := by
  unfold nulMergeKeys
  rw [List.nodup_cons, List.nodup_append]
  refine ⟨?_, (List.nodup_range 1023).map
    (fun i j h => Nat.succ_injective (sampleKey_inj h)), List.nodup_singleton _, ?_⟩
  · intro h
    rcases List.mem_append.1 h with h | h
    · obtain ⟨i, _, hi⟩ := List.mem_map.1 h
      have := sampleKey_inj hi
      omega
    · have := congrArg List.length (List.mem_singleton.1 h)
      simp [sampleKey] at this
  · intro x hx hx2
    obtain ⟨i, _, hi⟩ := List.mem_map.1 hx
    have := congrArg List.length ((List.mem_singleton.1 hx2).symm.trans hi.symm)
    simp [sampleKey] at this

theorem trunc_last_matches (old : List Nat) (handle : IPCMemHandle) :
    entryMatches (List.replicate 63 97)
      { used := 1, name := storedName old (List.replicate 64 97), handle := handle } = true := by
  have hz : ∀ c ∈ List.replicate 64 97, c ≠ 0 := fun c hc => by
    rw [List.eq_of_mem_replicate hc]; decide
  obtain ⟨rest, hrest⟩ := storedName_form old (List.replicate 64 97) hz
  rw [List.take_replicate] at hrest
  exact entryMatches_of_forms (List.replicate 63 97) rest [] _ _ handle hrest rfl
    (fun c hc => by rw [List.eq_of_mem_replicate hc]; decide)

theorem nul_last_matches (old : List Nat) (handle : IPCMemHandle) :
    entryMatches (sampleKey 0 ++ [0, 1])
      { used := 1, name := storedName old (sampleKey 0), handle := handle } = true := by
  obtain ⟨rest, hrest⟩ := storedName_form old (sampleKey 0) (sampleKey_nonzero 0)
  exact entryMatches_of_forms (sampleKey 0) rest [1, 0] _ _ handle hrest rfl (sampleKey_nonzero 0)

theorem sampleArgs_keys_nodup : (sampleArgs.map (fun a => a.2.2.2)).Nodup := by
  unfold sampleArgs
  rw [List.map_map]
  exact (List.nodup_range _).map sampleKey_injective

theorem sampleArgs_short : ∀ a ∈ sampleArgs, (∀ c ∈ a.2.2.2, c ≠ 0) ∧ a.2.2.2.length ≤ 63 := by
  intro a ha
  obtain ⟨i, _, hi⟩ := List.mem_map.1 ha
  subst hi
  exact ⟨sampleKey_nonzero i, by show (sampleKey i).length ≤ 63; rw [sampleKey_length]; decide⟩

/-! ## Attaching -/

/-- The object a successful create leaves: zero bytes, one reference. -/
theorem createdSegment_eq :
    (((zeroSegment.setRefcount 0).setItemcount 0).setRefcount
      (fetch_add_1 ((zeroSegment.setRefcount 0).setItemcount 0).header.refcount)) =
    { header := ⟨1, 0⟩, table := fun _ => zeroEntry } := rfl

/-- `shm_open_or_attach` when the name is free: it returns null, or it has created the
object, zero-filled it and taken the first reference. -/
theorem shm_open_or_attach_fresh (os : OsOutcome) (n : List Nat) (w : World)
    (hnone : w.named ((47 :: n).take 255) = none) :
    (shm_open_or_attach os n w).1 = 0 ∨
    (os.mmap_addr ≠ 0 ∧ w.maps os.mmap_addr = none ∧
      shm_open_or_attach os n w = (os.mmap_addr,
        { objs := Function.update w.objs w.nobjs { header := ⟨1, 0⟩, table := fun _ => zeroEntry },
          nobjs := w.nobjs + 1,
          named := Function.update w.named ((47 :: n).take 255) (some w.nobjs),
          maps := Function.update w.maps os.mmap_addr (some w.nobjs),
          g_ipc_shm_ptr_ := w.g_ipc_shm_ptr_ })) := by
  obtain ⟨cd, ft, op, mo, ma⟩ := os
  cases cd
  · cases ft
    · left
      simp only [shm_open_or_attach, hnone, if_false, Bool.false_eq_true]
    · by_cases hm : mo = true ∧ ma ≠ 0 ∧ w.maps ma = none
      · right
        refine ⟨hm.2.1, hm.2.2, ?_⟩
        simp only [shm_open_or_attach, hnone, World.mmap, World.store, if_true, if_false,
          Bool.false_eq_true]
        rw [if_pos hm]
        simp only [Function.update_same, Function.update_idem, createdSegment_eq]
      · left
        simp only [shm_open_or_attach, hnone, World.mmap, World.store, if_true, if_false,
          Bool.false_eq_true]
        rw [if_neg hm]
  · left
    simp only [shm_open_or_attach, if_true]

/-- `shm_open_or_attach` when the name is bound to `o`: it returns null and changes
nothing, or it has mapped `o` and incremented its `refcount`, nothing else. -/
theorem shm_open_or_attach_existing (os : OsOutcome) (n : List Nat) (w : World) (o : Nat)
    (hsome : w.named ((47 :: n).take 255) = some o) :
    shm_open_or_attach os n w = (0, w) ∨
    (os.mmap_addr ≠ 0 ∧ w.maps os.mmap_addr = none ∧
      shm_open_or_attach os n w = (os.mmap_addr,
        { objs := Function.update w.objs o
            ((w.objs o).setRefcount (fetch_add_1 (w.objs o).header.refcount)),
          nobjs := w.nobjs,
          named := w.named,
          maps := Function.update w.maps os.mmap_addr (some o),
          g_ipc_shm_ptr_ := w.g_ipc_shm_ptr_ })) := by
  obtain ⟨cd, ft, op, mo, ma⟩ := os
  cases cd
  · cases op
    · left
      simp only [shm_open_or_attach, hsome, if_false, Bool.false_eq_true]
    · by_cases hm : mo = true ∧ ma ≠ 0 ∧ w.maps ma = none
      · right
        refine ⟨hm.2.1, hm.2.2, ?_⟩
        simp only [shm_open_or_attach, hsome, World.mmap, World.store, if_true, if_false,
          Bool.false_eq_true]
        rw [if_pos hm]
      · left
        simp only [shm_open_or_attach, hsome, World.mmap, World.store, if_true, if_false,
          Bool.false_eq_true]
        rw [if_neg hm]
  · left
    simp only [shm_open_or_attach, if_true]

/-! ## Teardown -/

section Teardown

variable (hash : List Nat → Nat) (gpuIpcGetMemHandle : Nat → Option gpuIpcMemHandle_t)

/-- The first successful attach of a process, the name being free, makes it the sole
owner of a new zero-filled object. -/
theorem check_and_get_fresh {os : OsOutcome} {w w1 : World} {cur : Nat}
    (hnone : w.named ipcShmName = none) (hcache : w.g_ipc_shm_ptr_ = 0)
    (hca : check_and_get_g_ipc_shm_ptr os w = (cur, w1)) (hcur : cur ≠ 0) :
    SoleOwner w1 w.nobjs 0 ∧ w1.g_ipc_shm_ptr_ = cur ∧
      ∀ j, ((w1.objs w.nobjs).table j) = zeroEntry := by
  have hinst := check_and_get_installs hca hcur
  unfold check_and_get_g_ipc_shm_ptr at hca
  simp only [hcache, if_true] at hca
  rcases shm_open_or_attach_fresh os IPC_SHM_PATH w hnone with h0 | ⟨ha, _, heq⟩
  · rw [if_pos h0] at hca
    injection hca with e1 _
    exact absurd e1.symm hcur
  · rw [heq] at hca
    simp only [ha, if_false, hcache, if_true] at hca
    injection hca with e1 e2
    subst e2
    refine ⟨⟨?_, ?_, ?_, ?_, ?_⟩, hinst, fun j => ?_⟩
    · exact ha
    · simp
    · simp [ipcShmName]
    · simp
    · simp
    · simp

theorem SoleOwner_reg {w w2 : World} {o n : Nat} {os : OsOutcome} {p sz : Nat} {k : List Nat}
    (hs : SoleOwner w o n)
    (h : reg_ipc_with_name hash gpuIpcGetMemHandle os p sz k w = some (true, w2)) :
    SoleOwner w2 o (fetch_add_1 n) := by
  obtain ⟨hcur, hmap, hnamed, href, hic⟩ := hs
  obtain ⟨cur, w1, o2, gh, idx, hca, _, hmap2, _, _, hw2⟩ :=
    reg_true_inv hash gpuIpcGetMemHandle h
  rw [check_and_get_cached os w hcur] at hca
  injection hca with e1 e2
  subst e1; subst e2
  rw [hmap] at hmap2
  injection hmap2 with e3
  subst e3
  subst hw2
  refine ⟨by rw [World.store_cache]; exact hcur,
    by rw [World.store_maps, World.store_cache]; exact hmap,
    by rw [World.store_named]; exact hnamed, ?_, ?_⟩
  · rw [World.store_objs_same, regWrite_header]; exact href
  · rw [World.store_objs_same, regWrite_itemcount, hic]

/-- Deregistration as long as the counter is not 1: the counter goes down, nothing is
torn down. -/
theorem SoleOwner_dereg {w : World} {o n : Nat} (os : OsOutcome) (k : List Nat)
    (hs : SoleOwner w o n) (hn : n ≠ 1) :
    ∃ b w2, dereg_ipc_with_name hash os k w = some (b, w2) ∧ SoleOwner w2 o (fetch_sub_1 n) := by
  obtain ⟨hcur, hmap, hnamed, href, hic⟩ := hs
  have h := dereg_att hash os k hcur hmap (by rw [hic]; exact hn)
  refine ⟨_, _, h, by rw [World.store_cache]; exact hcur,
    by rw [World.store_maps, World.store_cache]; exact hmap,
    by rw [World.store_named]; exact hnamed, ?_, ?_⟩
  · rw [World.store_objs_same, deregWrite_refcount]; exact href
  · rw [World.store_objs_same, deregWrite_itemcount, hic]

/-- Deregistration when the counter is 1: the counter reaches 0, the object is unlinked
and the cached pointer is null. -/
theorem SoleOwner_last {w : World} {o : Nat} (os : OsOutcome) (k : List Nat)
    (hs : SoleOwner w o 1) :
    ∃ b w2, dereg_ipc_with_name hash os k w = some (b, w2) ∧
      (w2.objs o).header.itemcount = 0 ∧ w2.named ipcShmName = none ∧
      w2.g_ipc_shm_ptr_ = 0 ∧ w2.maps w.g_ipc_shm_ptr_ = none := by
  obtain ⟨hcur, hmap, _, href, hic⟩ := hs
  obtain ⟨w2, hd, _, hic2, _, htear⟩ :=
    dereg_spec hash k (check_and_get_cached os w hcur) hcur hmap
  obtain ⟨hc0, hm0, _, hun, _⟩ := htear hic
  exact ⟨_, w2, hd, by rw [hic2, hic]; decide, hun href, hc0, hm0⟩

theorem run_reg_inv {c : OsOutcome × Nat × Nat × List Nat} {cs : List Call} {w wR : World}
    {bs : List Bool}
    (h : run hash gpuIpcGetMemHandle (Call.ofReg c :: cs) w = some (bs, wR)) :
    ∃ b w1 bs1, reg_ipc_with_name hash gpuIpcGetMemHandle c.1 c.2.1 c.2.2.1 c.2.2.2 w =
        some (b, w1) ∧
      run hash gpuIpcGetMemHandle cs w1 = some (bs1, wR) ∧ bs = b :: bs1 := by
  rw [run.eq_2] at h
  simp only [Call.ofReg, Call.step] at h
  cases hr : reg_ipc_with_name hash gpuIpcGetMemHandle c.1 c.2.1 c.2.2.1 c.2.2.2 w with
  | none => rw [hr] at h; cases h
  | some r =>
    obtain ⟨b, w1⟩ := r
    rw [hr] at h
    simp only at h
    cases hr2 : run hash gpuIpcGetMemHandle cs w1 with
    | none => rw [hr2] at h; cases h
    | some r2 =>
      obtain ⟨bs1, w3⟩ := r2
      rw [hr2] at h
      simp only [Option.some.injEq, Prod.mk.injEq] at h
      exact ⟨b, w1, bs1, rfl, by rw [← h.2, hr2], h.1.symm⟩

/-- Successful registrations by a sole owner add up in the counter. -/
theorem SoleOwner_regs {o : Nat} :
    ∀ (args : List (OsOutcome × Nat × Nat × List Nat)) (w wR : World) (n : Nat)
      (bs : List Bool),
      SoleOwner w o n → n + args.length < UINT64_RANGE →
      run hash gpuIpcGetMemHandle (args.map Call.ofReg) w = some (bs, wR) →
      (∀ b ∈ bs, b = true) → SoleOwner wR o (n + args.length)
  | [], w, wR, n, bs, hs, _, hrun, _ => by
    simp only [List.map_nil, run, Option.some.injEq, Prod.mk.injEq] at hrun
    rw [← hrun.2]
    exact hs
  | a :: args, w, wR, n, bs, hs, hlt, hrun, hall => by
    rw [List.map_cons] at hrun
    obtain ⟨b, w1, bs1, hreg, hrun1, hbs⟩ := run_reg_inv hash gpuIpcGetMemHandle hrun
    subst hbs
    have hb : b = true := hall b (List.mem_cons_self _ _)
    subst hb
    have hs1 := SoleOwner_reg hash gpuIpcGetMemHandle hs hreg
    simp only [List.length_cons] at hlt ⊢
    have e : fetch_add_1 n = n + 1 := by
      simp only [fetch_add_1]
      exact Nat.mod_eq_of_lt (by omega)
    rw [e] at hs1
    have := SoleOwner_regs args w1 wR (n + 1) bs1 hs1 (by omega) hrun1
      (fun b hb => hall b (List.mem_cons_of_mem _ hb))
    rw [show n + (args.length + 1) = n + 1 + args.length by omega]
    exact this

/-- Deregistrations by a sole owner bring the counter down, one by one, as long as it
stays above 1. -/
theorem SoleOwner_deregs {o : Nat} :
    ∀ (ds : List (OsOutcome × List Nat)) (w : World) (n : Nat),
      SoleOwner w o (n + ds.length) → 1 ≤ n → n + ds.length < UINT64_RANGE →
      ∃ bs w2, run hash gpuIpcGetMemHandle (ds.map Call.ofDereg) w = some (bs, w2) ∧
        SoleOwner w2 o n
  | [], w, n, hs, _, _ => ⟨[], w, rfl, hs⟩
  | d :: ds, w, n, hs, hn, hlt => by
    simp only [List.length_cons] at hs hlt
    obtain ⟨b, w1, hd, hs1⟩ := SoleOwner_dereg hash d.1 d.2 hs (by omega)
    have e : fetch_sub_1 (n + (ds.length + 1)) = n + ds.length := by
      simp only [fetch_sub_1, UINT64_RANGE] at hlt ⊢
      omega
    rw [e] at hs1
    obtain ⟨bs, w2, hrun, hs2⟩ := SoleOwner_deregs ds w1 n hs1 hn (by omega)
    refine ⟨b :: bs, w2, ?_, hs2⟩
    rw [List.map_cons, run.eq_2]
    simp only [Call.ofDereg, Call.step, hd]
    rw [hrun]

end Teardown

section AfterAttach

variable (hash : List Nat → Nat) (gpuIpcGetMemHandle : Nat → Option gpuIpcMemHandle_t)

/-- An operation that attaches behaves as the same operation run after the attach. -/
theorem check_and_get_idem {os : OsOutcome} {w w1 : World} {cur : Nat} (os2 : OsOutcome)
    (hca : check_and_get_g_ipc_shm_ptr os w = (cur, w1)) (hcur : cur ≠ 0) :
    check_and_get_g_ipc_shm_ptr os2 w1 = (cur, w1) := by
  have hinst := check_and_get_installs hca hcur
  rw [check_and_get_cached os2 w1 (by rw [hinst]; exact hcur), hinst]

theorem reg_after_attach {os : OsOutcome} {w w1 : World} {cur : Nat} (p sz : Nat) (k : List Nat)
    (hca : check_and_get_g_ipc_shm_ptr os w = (cur, w1)) (hcur : cur ≠ 0) :
    reg_ipc_with_name hash gpuIpcGetMemHandle os p sz k w =
      reg_ipc_with_name hash gpuIpcGetMemHandle os p sz k w1 := by
  simp only [reg_ipc_with_name, hca, check_and_get_idem os hca hcur]

/-- Teardown: a process that created the segment, registered `args.length + 1` times with
success and deregisters as many times. -/
theorem teardown_run (w wR : World) (bs : List Bool)
    (a : OsOutcome × Nat × Nat × List Nat) (args : List (OsOutcome × Nat × Nat × List Nat))
    (ds : List (OsOutcome × List Nat)) (last : OsOutcome × List Nat)
    (hnone : w.named ipcShmName = none) (hcache : w.g_ipc_shm_ptr_ = 0)
    (hlen : ds.length = args.length) (hbound : args.length + 1 < UINT64_RANGE)
    (hrun : run hash gpuIpcGetMemHandle ((a :: args).map Call.ofReg) w = some (bs, wR))
    (hall : ∀ b ∈ bs, b = true) :
    ∃ bs2 wM b wF, run hash gpuIpcGetMemHandle (ds.map Call.ofDereg) wR = some (bs2, wM) ∧
      SoleOwner wM w.nobjs 1 ∧
      dereg_ipc_with_name hash last.1 last.2 wM = some (b, wF) ∧
      run hash gpuIpcGetMemHandle ((ds ++ [last]).map Call.ofDereg) wR = some (bs2 ++ [b], wF) ∧
      (wF.objs w.nobjs).header.itemcount = 0 ∧ wF.named ipcShmName = none ∧
      wF.g_ipc_shm_ptr_ = 0 := by
  rw [List.map_cons] at hrun
  obtain ⟨b0, w1, bs1, hreg, hrun1, hbs⟩ := run_reg_inv hash gpuIpcGetMemHandle hrun
  subst hbs
  have hb0 : b0 = true := hall b0 (List.mem_cons_self _ _)
  subst hb0
  obtain ⟨cur, wA, _, _, _, hca, hcur, _, _, _, _⟩ := reg_true_inv hash gpuIpcGetMemHandle hreg
  obtain ⟨hsA, _, _⟩ := check_and_get_fresh hnone hcache hca hcur
  rw [reg_after_attach hash gpuIpcGetMemHandle _ _ _ hca hcur] at hreg
  have hs1 := SoleOwner_reg hash gpuIpcGetMemHandle hsA hreg
  rw [show fetch_add_1 0 = 1 by decide] at hs1
  have hsR := SoleOwner_regs hash gpuIpcGetMemHandle args w1 wR 1 bs1 hs1 (by omega) hrun1
    (fun b hb => hall b (List.mem_cons_of_mem _ hb))
  rw [← hlen] at hsR
  obtain ⟨bs2, wM, hrunD, hsM⟩ := SoleOwner_deregs hash gpuIpcGetMemHandle ds wR 1 hsR
    (le_refl 1) (by omega)
  obtain ⟨b, wF, hd, hic, hun, hc0, _⟩ := SoleOwner_last hash last.1 last.2 hsM
  refine ⟨bs2, wM, b, wF, hrunD, hsM, hd, ?_, hic, hun, hc0⟩
  rw [List.map_append, run_append, hrunD]
  simp only [List.map_cons, List.map_nil, run, Call.ofDereg, Call.step, hd]

end AfterAttach

/-! ## Detach, lookups, key independence -/

theorem fetch_sub_1_int_refcount (v : Nat) :
    ((fetch_sub_1 v : Nat) : Int) = ((v : Int) - 1) % 2 ^ 64 := fetch_sub_1_int v

/-- The contract of `shm_detach_with_name`. -/
theorem detach_contract (p : Nat) (n : List Nat) (w : World) :
    (p = 0 → shm_detach_with_name p n w = some (false, w)) ∧
    (∀ o, p ≠ 0 → w.maps p = some o →
      ∃ w2, shm_detach_with_name p n w = some (true, w2) ∧
        ((w2.objs o).header.refcount : Int) = (((w.objs o).header.refcount : Int) - 1) % 2 ^ 64 ∧
        (w2.objs o).header.itemcount = (w.objs o).header.itemcount ∧
        (w2.objs o).table = (w.objs o).table ∧
        (∀ o2, o2 ≠ o → w2.objs o2 = w.objs o2) ∧
        (w.g_ipc_shm_ptr_ = p → w2.g_ipc_shm_ptr_ = 0) ∧
        (w.g_ipc_shm_ptr_ ≠ p → w2.g_ipc_shm_ptr_ = w.g_ipc_shm_ptr_) ∧
        w2.maps p = none ∧
        ((w.objs o).header.refcount = 1 →
          w2.named = Function.update w.named ((47 :: n).take 255) none) ∧
        ((w.objs o).header.refcount ≠ 1 → w2.named = w.named)) := by
  refine ⟨fun hp => by simp [shm_detach_with_name, hp], fun o hp hmap => ?_⟩
  rw [shm_detach_eq n hp hmap]
  refine ⟨_, rfl, ?_, ?_, ?_, ?_, ?_, ?_, ?_, ?_, ?_⟩
  · simp only [Function.update_same, Segment.setRefcount]
    exact fetch_sub_1_int _
  · simp [Segment.setRefcount]
  · simp [Segment.setRefcount]
  · intro o2 ho2
    simp [Function.update_noteq ho2]
  · intro hc; simp [hc]
  · intro hc; simp [hc]
  · simp
  · intro hr; simp [hr]
  · intro hr; simp [hr]

section LookupLemmas

variable (hash : List Nat → Nat) (gpuIpcGetMemHandle : Nat → Option gpuIpcMemHandle_t)

/-- Every operation on a state in which the segment cannot be obtained. -/
theorem unavailable_results {os : OsOutcome} {w w1 : World} (p sz : Nat) (k : List Nat)
    (hca : check_and_get_g_ipc_shm_ptr os w = (0, w1)) :
    get_ipc_by_name_once hash os k w = some (null_handle, w1) ∧
    dereg_ipc_with_name hash os k w = some (false, w1) ∧
    check_ipc_by_name_once hash os k w = some (1, w1) ∧
    reg_ipc_with_name hash gpuIpcGetMemHandle os p sz k w = some (false, w1) := by
  simp [get_ipc_by_name_once, dereg_ipc_with_name, check_ipc_by_name_once, reg_ipc_with_name,
    hca]

/-- The lookups and deregistration on an available segment that holds no match. -/
theorem absent_results {os : OsOutcome} {w w1 : World} {cur o : Nat} (k : List Nat)
    (hca : check_and_get_g_ipc_shm_ptr os w = (cur, w1)) (hcur : cur ≠ 0)
    (hmap : w1.maps cur = some o)
    (hno : ∀ j, entryMatches k ((w1.objs o).table j) = false) :
    get_ipc_by_name_once hash os k w = some (null_handle, w1) ∧
    (∃ w2, dereg_ipc_with_name hash os k w = some (false, w2)) ∧
    check_ipc_by_name_once hash os k w = some (3, w1) := by
  have hpr : probe (fun j => entryMatches k ((w1.objs o).table j))
      (hash k % SHM_ITEM_COUNT) SHM_ITEM_COUNT 0 = none := probe_full_eq_none.2 hno
  obtain ⟨h1, h2⟩ := lookup_eq hash k hca hcur hmap
  rw [hpr] at h1 h2
  obtain ⟨w2, hd, _⟩ := dereg_spec hash k hca hcur hmap
  rw [hpr] at hd
  exact ⟨h1, ⟨w2, hd⟩, h2⟩

/-- The two single-pass lookups on an attached segment: they agree, they return what the
first match in probe order holds, and they change nothing. -/
theorem lookups_agree {os : OsOutcome} {w : World} {o : Nat} (k : List Nat)
    (hcur : w.g_ipc_shm_ptr_ ≠ 0) (hmap : w.maps w.g_ipc_shm_ptr_ = some o) :
    ((∃ j, ((w.objs o).table j).used = 1 ∧
        strncmp ((w.objs o).table j).name (c_str k) SHM_ITEM_NAME_MAX_LEN = 0) →
      ∃ i, i < SHM_ITEM_COUNT ∧
        (((w.objs o).table (slot (hash k % SHM_ITEM_COUNT) i)).used = 1 ∧
          strncmp ((w.objs o).table (slot (hash k % SHM_ITEM_COUNT) i)).name (c_str k)
            SHM_ITEM_NAME_MAX_LEN = 0) ∧
        (∀ i2, i2 < i →
          ¬ (((w.objs o).table (slot (hash k % SHM_ITEM_COUNT) i2)).used = 1 ∧
            strncmp ((w.objs o).table (slot (hash k % SHM_ITEM_COUNT) i2)).name (c_str k)
              SHM_ITEM_NAME_MAX_LEN = 0)) ∧
        check_ipc_by_name_once hash os k w = some (2, w) ∧
        get_ipc_by_name_once hash os k w =
          some (((w.objs o).table (slot (hash k % SHM_ITEM_COUNT) i)).handle, w)) ∧
    ((¬ ∃ j, ((w.objs o).table j).used = 1 ∧
        strncmp ((w.objs o).table j).name (c_str k) SHM_ITEM_NAME_MAX_LEN = 0) →
      check_ipc_by_name_once hash os k w = some (3, w) ∧
      get_ipc_by_name_once hash os k w = some (null_handle, w)) := by
  obtain ⟨h1, h2⟩ := lookup_att hash os k hcur hmap
  constructor
  · rintro ⟨j, hj⟩
    have hjm : entryMatches k ((w.objs o).table j) = true := by
      simpa [entryMatches] using hj
    obtain ⟨idx, hidx⟩ := probe_full_isSome (p := fun j => entryMatches k ((w.objs o).table j))
      (h := hash k % SHM_ITEM_COUNT) hjm
    obtain ⟨i, hi, hs, hp, hfirst⟩ := (probe_eq_some SHM_ITEM_COUNT 0).1 hidx
    rw [Nat.zero_add] at hs
    rw [hidx] at h1 h2
    subst hs
    refine ⟨i, hi, by simpa [entryMatches] using hp, fun i2 hi2 => ?_, h2, h1⟩
    have := hfirst i2 hi2
    rw [Nat.zero_add] at this
    exact (entryMatches_eq_false_iff k _).1 this
  · intro hno
    have hpr : probe (fun j => entryMatches k ((w.objs o).table j))
        (hash k % SHM_ITEM_COUNT) SHM_ITEM_COUNT 0 = none := by
      apply probe_full_eq_none.2
      intro j
      rw [entryMatches_eq_false_iff]
      exact fun h => hno ⟨j, h⟩
    rw [hpr] at h1 h2
    exact ⟨h2, h1⟩

end LookupLemmas

/-! ## Alignment, teardown trigger, probe order, key independence -/

theorem alignment_facts (p : Nat) (hp : p < 2 ^ 64) :
    p &&& ((UINT64_RANGE - 1) ^^^ (kIpcAlignment - 1)) = p - p % 2 ^ 20 ∧
    (p &&& ((UINT64_RANGE - 1) ^^^ (kIpcAlignment - 1))) % 2 ^ 20 = 0 ∧
    p &&& ((UINT64_RANGE - 1) ^^^ (kIpcAlignment - 1)) ≤ p ∧
    p - (p &&& ((UINT64_RANGE - 1) ^^^ (kIpcAlignment - 1))) = p % 2 ^ 20 ∧
    p - (p &&& ((UINT64_RANGE - 1) ^^^ (kIpcAlignment - 1))) < 2 ^ 20 ∧
    (p &&& ((UINT64_RANGE - 1) ^^^ (kIpcAlignment - 1))) +
      (p - (p &&& ((UINT64_RANGE - 1) ^^^ (kIpcAlignment - 1)))) = p ∧
    (p &&& ((UINT64_RANGE - 1) ^^^ (kIpcAlignment - 1))) +
      (p - (p &&& ((UINT64_RANGE - 1) ^^^ (kIpcAlignment - 1)))) < 2 ^ 64 := by
  rw [align_down p hp]
  have h1 := Nat.mod_le p (2 ^ 20)
  have h2 : p % 2 ^ 20 < 2 ^ 20 := Nat.mod_lt _ (by decide)
  have h3 := Nat.div_add_mod p (2 ^ 20)
  refine ⟨rfl, ?_, by omega, by omega, by omega, by omega, by omega⟩
  have : p - p % 2 ^ 20 = 2 ^ 20 * (p / 2 ^ 20) := by omega
  rw [this, Nat.mul_mod_right]

section MoreOperationLemmas

variable (hash : List Nat → Nat) (gpuIpcGetMemHandle : Nat → Option gpuIpcMemHandle_t)

/-- The registration depends on the GPU runtime only through its answer for the aligned
address. -/
theorem reg_congr_gpu (gpu2 : Nat → Option gpuIpcMemHandle_t) (os : OsOutcome) (p sz : Nat)
    (k : List Nat) (w : World)
    (h : gpuIpcGetMemHandle (p &&& ((UINT64_RANGE - 1) ^^^ (kIpcAlignment - 1))) =
      gpu2 (p &&& ((UINT64_RANGE - 1) ^^^ (kIpcAlignment - 1)))) :
    reg_ipc_with_name hash gpuIpcGetMemHandle os p sz k w =
      reg_ipc_with_name hash gpu2 os p sz k w := by
  simp only [reg_ipc_with_name, h]

/-- What a successful registration has stored. -/
theorem reg_stores {os : OsOutcome} {w w2 : World} {p sz : Nat} {k : List Nat}
    (h : reg_ipc_with_name hash gpuIpcGetMemHandle os p sz k w = some (true, w2)) :
    ∃ gh o idx, gpuIpcGetMemHandle (p &&& ((UINT64_RANGE - 1) ^^^ (kIpcAlignment - 1))) =
        some gh ∧
      w2.g_ipc_shm_ptr_ ≠ 0 ∧ w2.maps w2.g_ipc_shm_ptr_ = some o ∧
      (w2.objs o).table idx =
        { used := 1, name := ((w2.objs o).table idx).name,
          handle := { handle := gh,
                      offset := p - (p &&& ((UINT64_RANGE - 1) ^^^ (kIpcAlignment - 1))),
                      size := sz } } := by
  obtain ⟨cur, w1, o, gh, idx, hca, hcur, hmap, hg, _, hw2⟩ :=
    reg_true_inv hash gpuIpcGetMemHandle h
  have hinst := check_and_get_installs hca hcur
  subst hw2
  refine ⟨gh, o, idx, hg, by rw [World.store_cache, hinst]; exact hcur,
    by rw [World.store_maps, World.store_cache, hinst]; exact hmap, ?_⟩
  rw [World.store_objs_same]
  have h1 := regWrite_used k ⟨gh, p - (p &&& ((UINT64_RANGE - 1) ^^^ (kIpcAlignment - 1))), sz⟩
    (w1.objs o) idx
  have h2 := regWrite_handle k ⟨gh, p - (p &&& ((UINT64_RANGE - 1) ^^^ (kIpcAlignment - 1))), sz⟩
    (w1.objs o) idx
  generalize (regWrite k ⟨gh, p - (p &&& ((UINT64_RANGE - 1) ^^^ (kIpcAlignment - 1))), sz⟩
    (w1.objs o) idx).table idx = e at h1 h2
  obtain ⟨u, nm, hd⟩ := e
  simp only at h1 h2
  rw [h1, h2]

/-- What registration leaves of the mapping: it never detaches. -/
theorem reg_no_detach {os : OsOutcome} {w w1 w2 : World} {cur o : Nat} {p sz : Nat}
    {k : List Nat} {b : Bool}
    (hca : check_and_get_g_ipc_shm_ptr os w = (cur, w1)) (hcur : cur ≠ 0)
    (hmap : w1.maps cur = some o)
    (h : reg_ipc_with_name hash gpuIpcGetMemHandle os p sz k w = some (b, w2)) :
    w2.maps = w1.maps ∧ w2.g_ipc_shm_ptr_ = w1.g_ipc_shm_ptr_ ∧ w2.named = w1.named ∧
      (w2.objs o).header.refcount = (w1.objs o).header.refcount := by
  rcases reg_inv hash gpuIpcGetMemHandle h with ⟨h0, _, _⟩ | ⟨o2, gh, _, _, hg⟩
  · rw [hca] at h0; exact absurd h0 hcur
  · rw [reg_eq hash gpuIpcGetMemHandle p sz k hca hcur hmap hg] at h
    cases hpr : probe (fun j => regHit k ((w1.objs o).table j)) (hash k % SHM_ITEM_COUNT)
        SHM_ITEM_COUNT 0 with
    | none =>
      rw [hpr] at h
      simp only [Option.some.injEq, Prod.mk.injEq] at h
      rw [← h.2]
      exact ⟨rfl, rfl, rfl, rfl⟩
    | some idx =>
      rw [hpr] at h
      simp only [Option.some.injEq, Prod.mk.injEq] at h
      rw [← h.2]
      refine ⟨rfl, rfl, rfl, ?_⟩
      rw [World.store_objs_same, regWrite_header]

/-- Deregistration detaches exactly when the counter it decrements was 1. -/
theorem dereg_detach_iff {os : OsOutcome} {w w1 : World} {cur o : Nat} (k : List Nat)
    (hca : check_and_get_g_ipc_shm_ptr os w = (cur, w1)) (hcur : cur ≠ 0)
    (hmap : w1.maps cur = some o) :
    ∃ w2, dereg_ipc_with_name hash os k w =
        some ((probe (fun j => entryMatches k ((w1.objs o).table j))
          (hash k % SHM_ITEM_COUNT) SHM_ITEM_COUNT 0).isSome, w2) ∧
      ((w1.objs o).header.itemcount = 1 →
        shm_detach_with_name cur IPC_SHM_PATH (w1.store o (deregWrite (w1.objs o)
          (probe (fun j => entryMatches k ((w1.objs o).table j))
            (hash k % SHM_ITEM_COUNT) SHM_ITEM_COUNT 0))) = some (true, w2) ∧
        w2.maps cur = none ∧
        (w2.objs o).header.refcount = fetch_sub_1 (w1.objs o).header.refcount) ∧
      ((w1.objs o).header.itemcount ≠ 1 →
        w2 = w1.store o (deregWrite (w1.objs o)
          (probe (fun j => entryMatches k ((w1.objs o).table j))
            (hash k % SHM_ITEM_COUNT) SHM_ITEM_COUNT 0)) ∧
        w2.maps cur = some o ∧ w2.g_ipc_shm_ptr_ = w1.g_ipc_shm_ptr_ ∧ w2.named = w1.named ∧
        (w2.objs o).header.refcount = (w1.objs o).header.refcount) := by
  by_cases hic : (w1.objs o).header.itemcount = 1
  · have hm3 : (w1.store o (deregWrite (w1.objs o)
        (probe (fun j => entryMatches k ((w1.objs o).table j))
          (hash k % SHM_ITEM_COUNT) SHM_ITEM_COUNT 0))).maps cur = some o := by
      rw [World.store_maps]; exact hmap
    obtain ⟨w2, hdet, hrc, _, _, _, _, _, hun, _, _⟩ :=
      (detach_contract cur IPC_SHM_PATH _).2 o hcur hm3
    refine ⟨w2, ?_, fun _ => ⟨hdet, hun, ?_⟩, fun h => absurd hic h⟩
    · rw [dereg_eq hash k hca hcur hmap, if_pos hic, hdet]
      rfl
    · rw [shm_detach_eq IPC_SHM_PATH hcur hm3] at hdet
      simp only [Option.some.injEq, Prod.mk.injEq, true_and] at hdet
      rw [← hdet]
      simp [World.store, Segment.setRefcount, deregWrite_refcount]
  · refine ⟨_, ?_, fun h => absurd h hic, fun _ => ⟨rfl, ?_, rfl, rfl, ?_⟩⟩
    · rw [dereg_eq hash k hca hcur hmap, if_neg hic]
    · rw [World.store_maps]; exact hmap
    · rw [World.store_objs_same, deregWrite_refcount]

end MoreOperationLemmas

/-- The probe order is a bijection between the iterations and the slots. -/
theorem slot_injective (h : Nat) :
    Function.Injective (fun i : Fin SHM_ITEM_COUNT => slot h i.val) := by
  intro i j hij
  have := congrArg Fin.val hij
  have hi := i.isLt
  have hj := j.isLt
  apply Fin.ext
  simp only [slot, SHM_ITEM_COUNT] at this hi hj
  omega

theorem slot_surjective (h : Nat) :
    Function.Surjective (fun i : Fin SHM_ITEM_COUNT => slot h i.val) := by
  intro j
  obtain ⟨k, hk, hs⟩ := slot_surj h j
  exact ⟨⟨k, hk⟩, hs⟩

theorem slot_perm (h : Nat) :
    List.Perm ((List.range SHM_ITEM_COUNT).map (fun i => (slot h i).val))
      (List.range SHM_ITEM_COUNT) := by
  have hnd : ((List.range SHM_ITEM_COUNT).map (fun i => (slot h i).val)).Nodup := by
    apply List.Nodup.map_on _ (List.nodup_range _)
    intro i hi j hj hij
    rw [List.mem_range] at hi hj
    simp only [slot, SHM_ITEM_COUNT] at hij hi hj
    omega
  have hsub : (List.range SHM_ITEM_COUNT).map (fun i => (slot h i).val) ⊆
      List.range SHM_ITEM_COUNT := by
    intro x hx
    obtain ⟨i, _, hi⟩ := List.mem_map.1 hx
    rw [List.mem_range, ← hi]
    exact (slot h i).isLt
  exact (List.subperm_of_subset hnd hsub).perm_of_length_le
    (by rw [List.length_map])

/-! ## Key independence -/

/-- A name buffer matches at most one key without NUL byte shorter than the compare
length. -/
theorem strncmp_both_zero (r1 r2 : List Nat) :
    ∀ (n : Nat) (name a b : List Nat), (∀ c ∈ a, c ≠ 0) → (∀ c ∈ b, c ≠ 0) → a.length < n →
      strncmp name (a ++ 0 :: r1) n = 0 → strncmp name (b ++ 0 :: r2) n = 0 → a = b
  | 0, _, _, _, _, _, hn, _, _ => absurd hn (Nat.not_lt_zero _)
  | _ + 1, _, [], [], _, _, _, _, _ => rfl
  | n + 1, name, [], y :: b, _, hb, _, h1, h2 => by
    have hy : y ≠ 0 := hb y (List.mem_cons_self _ _)
    simp only [strncmp, List.nil_append, List.headD_cons, List.cons_append] at h1 h2
    by_cases hc : name.headD 0 = 0
    · rw [hc] at h2
      have hy2 : (0 : Nat) ≠ y := fun h => hy h.symm
      simp only [hy2, ne_eq, not_false_eq_true, if_true] at h2
      omega
    · simp only [hc, ne_eq, not_false_eq_true, if_true] at h1
      omega
  | n + 1, name, x :: a, [], ha, _, _, h1, h2 => by
    have hx : x ≠ 0 := ha x (List.mem_cons_self _ _)
    simp only [strncmp, List.nil_append, List.headD_cons, List.cons_append] at h1 h2
    by_cases hc : name.headD 0 = 0
    · rw [hc] at h1
      have hx2 : (0 : Nat) ≠ x := fun h => hx h.symm
      simp only [hx2, ne_eq, not_false_eq_true, if_true] at h1
      omega
    · simp only [hc, ne_eq, not_false_eq_true, if_true] at h2
      omega
  | n + 1, name, x :: a, y :: b, ha, hb, hn, h1, h2 => by
    have hx : x ≠ 0 := ha x (List.mem_cons_self _ _)
    simp only [strncmp, List.headD_cons, List.cons_append, List.tail_cons] at h1 h2
    by_cases hcx : name.headD 0 = x
    · by_cases hcy : name.headD 0 = y
      · have hxy : x = y := hcx.symm.trans hcy
        subst hxy
        rw [hcx] at h1 h2
        simp only [ne_eq, not_true_eq_false, if_false, hx] at h1 h2
        rw [strncmp_both_zero r1 r2 n name.tail a b
          (fun c hc => ha c (List.mem_cons_of_mem _ hc))
          (fun c hc => hb c (List.mem_cons_of_mem _ hc)) (by simpa using hn) h1 h2]
      · simp only [hcy, ne_eq, not_false_eq_true, if_true] at h2
        omega
    · simp only [hcx, ne_eq, not_false_eq_true, if_true] at h1
      omega

/-- No entry matches two different keys without NUL byte of at most 63 bytes. -/
theorem no_double_match (k k2 : List Nat) (e : IPCEntry)
    (hz : ∀ c ∈ k, c ≠ 0) (hz2 : ∀ c ∈ k2, c ≠ 0) (hl : k.length ≤ 63) (hne : k ≠ k2)
    (hm : entryMatches k e = true) : entryMatches k2 e = false := by
  rw [entryMatches_eq_false_iff]
  rintro ⟨_, h2⟩
  simp only [entryMatches, Bool.and_eq_true, decide_eq_true_eq] at hm
  exact hne (strncmp_both_zero [] [] 64 e.name k k2 hz hz2 (by omega) hm.2 h2)

section Independence

variable (hash : List Nat → Nat) (gpuIpcGetMemHandle : Nat → Option gpuIpcMemHandle_t)

/-- The values of the lookups depend on the table only through the slots that match and
the handles they hold. -/
theorem lookup_values_congr {w : World} {o : Nat} (os : OsOutcome) (k2 : List Nat)
    (S S2 : Segment) (hcur : w.g_ipc_shm_ptr_ ≠ 0) (hmap : w.maps w.g_ipc_shm_ptr_ = some o)
    (h1 : ∀ j, entryMatches k2 (S2.table j) = entryMatches k2 (S.table j))
    (h2 : ∀ j, entryMatches k2 (S.table j) = true → (S2.table j).handle = (S.table j).handle) :
    (get_ipc_by_name_once hash os k2 (w.store o S2)).map Prod.fst =
      (get_ipc_by_name_once hash os k2 (w.store o S)).map Prod.fst ∧
    (check_ipc_by_name_once hash os k2 (w.store o S2)).map Prod.fst =
      (check_ipc_by_name_once hash os k2 (w.store o S)).map Prod.fst := by
  have ha := lookup_att hash (w := w.store o S) (o := o) os k2
    (by rw [World.store_cache]; exact hcur)
    (by rw [World.store_maps, World.store_cache]; exact hmap)
  have hb := lookup_att hash (w := w.store o S2) (o := o) os k2
    (by rw [World.store_cache]; exact hcur)
    (by rw [World.store_maps, World.store_cache]; exact hmap)
  rw [World.store_objs_same] at ha hb
  have hfun : (fun j => entryMatches k2 (S2.table j)) = (fun j => entryMatches k2 (S.table j)) :=
    funext h1
  rw [hfun] at hb
  rw [ha.1, ha.2, hb.1, hb.2]
  cases hpr : probe (fun j => entryMatches k2 (S.table j)) (hash k2 % SHM_ITEM_COUNT)
      SHM_ITEM_COUNT 0 with
  | none => exact ⟨rfl, rfl⟩
  | some idx =>
    have := h2 idx (probe_some_holds hpr)
    simp only [Option.map_some', this, and_self]

/-- Registering `k` changes no lookup of another short key. -/
theorem regWrite_independent (k k2 : List Nat) (handle : IPCMemHandle) (S : Segment)
    (idx : Fin SHM_ITEM_COUNT)
    (hz : ∀ c ∈ k, c ≠ 0) (hz2 : ∀ c ∈ k2, c ≠ 0) (hl : k.length ≤ 63) (hne : k ≠ k2)
    (hhit : regHit k (S.table idx) = true) :
    (∀ j, entryMatches k2 ((regWrite k handle S idx).table j) = entryMatches k2 (S.table j)) ∧
    (∀ j, entryMatches k2 (S.table j) = true →
      ((regWrite k handle S idx).table j).handle = (S.table j).handle) := by
  have key : ∀ j, j = idx → entryMatches k2 (S.table j) = false ∧
      entryMatches k2 ((regWrite k handle S idx).table j) = false := by
    intro j hj
    subst hj
    rw [regWrite_table_same]
    by_cases hm : entryMatches k (S.table j) = true
    · have hf := no_double_match k k2 _ hz hz2 hl hne hm
      rw [if_pos hm]
      refine ⟨hf, ?_⟩
      rw [entryMatches_eq_false_iff] at hf ⊢
      exact hf
    · have hu := regHit_not_match_used k _ hhit (by simpa using hm)
      rw [if_neg hm]
      exact ⟨entryMatches_of_used_ne_one k2 _ (by rw [hu]; decide),
        entryMatches_stored_ne _ k k2 handle 1 hz hz2 hl hne⟩
  constructor
  · intro j
    by_cases hj : j = idx
    · rw [(key j hj).1, (key j hj).2]
    · rw [regWrite_table_ne k handle S hj]
  · intro j hj
    by_cases hji : j = idx
    · rw [(key j hji).1] at hj; cases hj
    · rw [regWrite_table_ne k handle S hji]

/-- Deregistering `k` changes no lookup of another short key. -/
theorem deregWrite_independent (k k2 : List Nat) (S : Segment)
    (f : Option (Fin SHM_ITEM_COUNT))
    (hz : ∀ c ∈ k, c ≠ 0) (hz2 : ∀ c ∈ k2, c ≠ 0) (hl : k.length ≤ 63) (hne : k ≠ k2)
    (hf : ∀ idx, f = some idx → entryMatches k (S.table idx) = true) :
    (∀ j, entryMatches k2 ((deregWrite S f).table j) = entryMatches k2 (S.table j)) ∧
    (∀ j, entryMatches k2 (S.table j) = true →
      ((deregWrite S f).table j).handle = (S.table j).handle) := by
  cases f with
  | none =>
    rw [deregWrite_none_table]
    exact ⟨fun _ => rfl, fun _ _ => rfl⟩
  | some idx =>
    have hm := hf idx rfl
    have hno := no_double_match k k2 _ hz hz2 hl hne hm
    rw [deregWrite_some_table]
    constructor
    · intro j
      by_cases hj : j = idx
      · subst hj
        rw [Function.update_same, hno]
        exact entryMatches_of_used_ne_one k2 _ (show (0 : Int) ≠ 1 by decide)
      · rw [Function.update_noteq hj]
    · intro j hj
      by_cases hji : j = idx
      · subst hji; rw [hno] at hj; cases hj
      · rw [Function.update_noteq hji]

/-- Key independence on an attached segment. -/
theorem key_independence (os os2 : OsOutcome) (w : World) (o p sz : Nat) (k k2 : List Nat)
    (hcur : w.g_ipc_shm_ptr_ ≠ 0) (hmap : w.maps w.g_ipc_shm_ptr_ = some o)
    (hz : ∀ c ∈ k, c ≠ 0) (hz2 : ∀ c ∈ k2, c ≠ 0) (hl : k.length ≤ 63) (hne : k ≠ k2) :
    (∀ b w2, reg_ipc_with_name hash gpuIpcGetMemHandle os p sz k w = some (b, w2) →
      (get_ipc_by_name_once hash os2 k2 w2).map Prod.fst =
        (get_ipc_by_name_once hash os2 k2 w).map Prod.fst ∧
      (check_ipc_by_name_once hash os2 k2 w2).map Prod.fst =
        (check_ipc_by_name_once hash os2 k2 w).map Prod.fst) ∧
    ((w.objs o).header.itemcount ≠ 1 →
      ∃ b w2, dereg_ipc_with_name hash os k w = some (b, w2) ∧
        (get_ipc_by_name_once hash os2 k2 w2).map Prod.fst =
          (get_ipc_by_name_once hash os2 k2 w).map Prod.fst ∧
        (check_ipc_by_name_once hash os2 k2 w2).map Prod.fst =
          (check_ipc_by_name_once hash os2 k2 w).map Prod.fst) := by
  have hself : w.store o (w.objs o) = w := World.store_self w o
  constructor
  · intro b w2 h
    rcases reg_inv hash gpuIpcGetMemHandle h with ⟨h0, _, _⟩ | ⟨o2, gh, _, _, hg⟩
    · rw [check_and_get_cached os w hcur] at h0; exact absurd h0 hcur
    · rw [reg_att hash gpuIpcGetMemHandle os p sz k hcur hmap hg] at h
      cases hpr : probe (fun j => regHit k ((w.objs o).table j)) (hash k % SHM_ITEM_COUNT)
          SHM_ITEM_COUNT 0 with
      | none =>
        rw [hpr] at h
        simp only [Option.some.injEq, Prod.mk.injEq] at h
        rw [← h.2]
        exact ⟨rfl, rfl⟩
      | some idx =>
        rw [hpr] at h
        simp only [Option.some.injEq, Prod.mk.injEq] at h
        rw [← h.2]
        obtain ⟨e1, e2⟩ := regWrite_independent k k2
          ⟨gh, p - (p &&& ((UINT64_RANGE - 1) ^^^ (kIpcAlignment - 1))), sz⟩ (w.objs o) idx
          hz hz2 hl hne (probe_some_holds hpr)
        have := lookup_values_congr hash os2 k2 (w.objs o) _ hcur hmap e1 e2
        rw [hself] at this
        exact this
  · intro hic
    have hd := dereg_att hash os k hcur hmap hic
    refine ⟨_, _, hd, ?_⟩
    obtain ⟨e1, e2⟩ := deregWrite_independent k k2 (w.objs o)
      (probe (fun j => entryMatches k ((w.objs o).table j)) (hash k % SHM_ITEM_COUNT)
        SHM_ITEM_COUNT 0) hz hz2 hl hne (fun idx hidx => probe_some_holds hidx)
    have := lookup_values_congr hash os2 k2 (w.objs o) _ hcur hmap e1 e2
    rw [hself] at this
    exact this

end Independence

/-! ## Two threads in `check_and_get_g_ipc_shm_ptr` -/

/-- A thread that runs its three steps alone does what `check_and_get_g_ipc_shm_ptr`
does. -/
theorem cag_run_solo (os os2 : OsOutcome) (t2 : CagThread) (w : World) :
    cag_run os os2 [false, false, false] (.start, t2, w) =
      (.done (check_and_get_g_ipc_shm_ptr os w).1, t2, (check_and_get_g_ipc_shm_ptr os w).2) := by
  simp only [cag_run, cag_step, check_and_get_g_ipc_shm_ptr]
  by_cases hc : w.g_ipc_shm_ptr_ = 0
  · simp only [hc, if_true]
    by_cases ha : (shm_open_or_attach os IPC_SHM_PATH w).1 = 0
    · simp only [ha, if_true, cag_step]
    · simp only [ha, if_false, cag_step]
      by_cases hk : (shm_open_or_attach os IPC_SHM_PATH w).2.g_ipc_shm_ptr_ = 0
      · simp only [hk, if_true]
      · simp only [hk, if_false]
  · simp only [hc, if_false, cag_step]

/-- The race: both threads read the null cache, both attach, the first installs its
mapping, the second loses the compare-exchange and unmaps its own. -/
theorem race_outcome :
    (cag_run osOk osOk2 raceSchedule (.start, .start, emptyWorld)).1 = .done 4096 ∧
    (cag_run osOk osOk2 raceSchedule (.start, .start, emptyWorld)).2.1 = .done 4096 ∧
    (cag_run osOk osOk2 raceSchedule (.start, .start, emptyWorld)).2.2.g_ipc_shm_ptr_ = 4096 ∧
    (cag_run osOk osOk2 raceSchedule (.start, .start, emptyWorld)).2.2.named ipcShmName =
      some 0 ∧
    (∀ a, (cag_run osOk osOk2 raceSchedule (.start, .start, emptyWorld)).2.2.maps a ≠ none ↔
      a = 4096) ∧
    ((cag_run osOk osOk2 raceSchedule (.start, .start, emptyWorld)).2.2.objs 0).header.refcount
      = 2 := by
  refine ⟨rfl, rfl, rfl, rfl, ?_, rfl⟩
  intro a
  have hm : (cag_run osOk osOk2 raceSchedule (.start, .start, emptyWorld)).2.2.maps =
      Function.update (Function.update (Function.update (fun _ => none) 4096 (some 0))
        8192 (some 0)) 8192 none := rfl
  rw [hm]
  by_cases h1 : a = 8192
  · subst h1; simp
  · by_cases h2 : a = 4096
    · subst h2; simp
    · simp [Function.update_noteq h1, Function.update_noteq h2, h2]

/-! ## The blocking lookup -/

section BlockingLemmas

variable (hash : List Nat → Nat) (sleep : Nat → World → World)

/-- Whatever the loop of the blocking lookup returns is the handle of a matching slot of
the state it returns in. -/
theorem blocking_loop_returned (name : List Nat) (cur : Nat) :
    ∀ (n i : Nat) (w w2 : World) (h : IPCMemHandle),
      blocking_loop hash sleep name cur n i w = .returned h w2 →
      ∃ o idx, w2.maps cur = some o ∧ entryMatches name ((w2.objs o).table idx) = true ∧
        h = ((w2.objs o).table idx).handle
  | 0, _, _, _, _, hr => by simp [blocking_loop] at hr
  | n + 1, i, w, w2, h, hr => by
    rw [blocking_loop] at hr
    cases hm : w.maps cur with
    | none => rw [hm] at hr; cases hr
    | some o =>
      rw [hm] at hr
      simp only [find_loop_eq_probe] at hr
      cases hp : probe (fun j => entryMatches name ((w.objs o).table j))
          (hash name % SHM_ITEM_COUNT) SHM_ITEM_COUNT 0 with
      | none =>
        rw [hp] at hr
        exact blocking_loop_returned name cur n (i + 1) _ w2 h hr
      | some idx =>
        rw [hp] at hr
        simp only [Blocking.returned.injEq] at hr
        obtain ⟨h1, h2⟩ := hr
        subst h2
        exact ⟨o, idx, hm, probe_some_holds hp, h1.symm⟩

/-- A pass that finds a match returns the handle of the first match. -/
theorem blocking_loop_found (name : List Nat) (cur o : Nat) (n i : Nat) (w : World)
    (hm : w.maps cur = some o)
    (hex : ∃ j, entryMatches name ((w.objs o).table j) = true) :
    ∃ idx, probe (fun j => entryMatches name ((w.objs o).table j))
        (hash name % SHM_ITEM_COUNT) SHM_ITEM_COUNT 0 = some idx ∧
      blocking_loop hash sleep name cur (n + 1) i w =
        .returned ((w.objs o).table idx).handle w := by
  obtain ⟨j, hj⟩ := hex
  obtain ⟨idx, hidx⟩ := probe_full_isSome
    (p := fun j => entryMatches name ((w.objs o).table j)) (h := hash name % SHM_ITEM_COUNT) hj
  refine ⟨idx, hidx, ?_⟩
  rw [blocking_loop]
  simp only [hm, find_loop_eq_probe, hidx]

/-- Passes that find nothing lead to the next pass, in the state the sleep ends in. -/
theorem blocking_loop_skip (name : List Nat) (cur : Nat) (w1 : World) :
    ∀ (m : Nat),
      (∀ i, i < m → ∃ o, (wake sleep i w1).maps cur = some o ∧
        ∀ j, entryMatches name (((wake sleep i w1).objs o).table j) = false) →
      ∀ n, blocking_loop hash sleep name cur (m + n) 0 w1 =
        blocking_loop hash sleep name cur n m (wake sleep m w1)
  | 0, _, n => by rw [Nat.zero_add]; rfl
  | m + 1, hall, n => by
    have ih := blocking_loop_skip name cur w1 m (fun i hi => hall i (by omega)) (n + 1)
    rw [show m + 1 + n = m + (n + 1) by omega, ih]
    obtain ⟨o, hm, hno⟩ := hall m (by omega)
    rw [blocking_loop]
    simp only [hm, find_loop_eq_probe, probe_full_eq_none.2 hno]
    rfl

/-- The blocking lookup: what it returns, and that it returns. -/
theorem blocking_spec (os : OsOutcome) (name : List Nat) (w w1 : World) (cur : Nat)
    (hca : check_and_get_g_ipc_shm_ptr os w = (cur, w1)) :
    (cur = 0 → ∀ passes,
      get_ipc_by_name_blocking hash sleep os name w passes = .returned null_handle w1) ∧
    (cur ≠ 0 → ∀ passes h w2,
      get_ipc_by_name_blocking hash sleep os name w passes = .returned h w2 →
      ∃ o idx, w2.maps cur = some o ∧ entryMatches name ((w2.objs o).table idx) = true ∧
        h = ((w2.objs o).table idx).handle) ∧
    (cur ≠ 0 → ∀ m o,
      (∀ i, i < m → ∃ o2, (wake sleep i w1).maps cur = some o2 ∧
        ∀ j, entryMatches name (((wake sleep i w1).objs o2).table j) = false) →
      (wake sleep m w1).maps cur = some o →
      (∃ j, entryMatches name (((wake sleep m w1).objs o).table j) = true) →
      ∃ idx, probe (fun j => entryMatches name (((wake sleep m w1).objs o).table j))
          (hash name % SHM_ITEM_COUNT) SHM_ITEM_COUNT 0 = some idx ∧
        ∀ n, get_ipc_by_name_blocking hash sleep os name w (m + (n + 1)) =
          .returned (((wake sleep m w1).objs o).table idx).handle (wake sleep m w1)) := by
  refine ⟨fun h0 passes => ?_, fun hcur passes h w2 hr => ?_, fun hcur m o hall hm hex => ?_⟩
  · simp only [get_ipc_by_name_blocking, hca, h0, if_true]
  · simp only [get_ipc_by_name_blocking, hca, hcur, if_false] at hr
    exact blocking_loop_returned hash sleep name cur passes 0 w1 w2 h hr
  · obtain ⟨idx, hidx, _⟩ := blocking_loop_found hash sleep name cur o 0 m _ hm hex
    refine ⟨idx, hidx, fun n => ?_⟩
    simp only [get_ipc_by_name_blocking, hca, hcur, if_false]
    rw [blocking_loop_skip hash sleep name cur w1 m hall (n + 1)]
    obtain ⟨idx2, hidx2, hret⟩ := blocking_loop_found hash sleep name cur o n m _ hm hex
    rw [hidx] at hidx2
    injection hidx2 with e
    subst e
    exact hret

end BlockingLemmas

/-! ## Two callers in `shm_open_or_attach` -/

/-- A caller that runs alone does what `shm_open_or_attach` does. -/
theorem soa_run_solo (os os2 : OsOutcome) (n : List Nat) (t2 : SoaThread) (w : World) :
    soa_run os os2 n [false, false, false, false, false] (.start, t2, w) =
      (.done (shm_open_or_attach os n w).1, t2, (shm_open_or_attach os n w).2) := by
  obtain ⟨cd, ft, op, mo, ma⟩ := os
  cases cd
  · cases hn : w.named ((47 :: n).take 255) with
    | none =>
      cases ft
      · simp only [soa_run, soa_step, shm_open_or_attach, hn, if_false, Bool.false_eq_true]
      · by_cases hm : mo = true ∧ ma ≠ 0 ∧ w.maps ma = none
        · simp only [soa_run, soa_step, shm_open_or_attach, hn, World.mmap, World.store,
            if_true, if_false, Bool.false_eq_true, hm, and_self, ne_eq, not_false_eq_true]
        · simp only [soa_run, soa_step, shm_open_or_attach, hn, World.mmap, World.store,
            if_true, if_false, Bool.false_eq_true, hm]
    | some o =>
      cases op
      · simp only [soa_run, soa_step, shm_open_or_attach, hn, if_false, Bool.false_eq_true]
      · by_cases hm : mo = true ∧ ma ≠ 0 ∧ w.maps ma = none
        · simp only [soa_run, soa_step, shm_open_or_attach, hn, World.mmap, World.store,
            if_true, if_false, Bool.false_eq_true, hm, and_self, ne_eq, not_false_eq_true]
        · simp only [soa_run, soa_step, shm_open_or_attach, hn, World.mmap, World.store,
            if_true, if_false, Bool.false_eq_true, hm]
  · simp only [soa_run, soa_step, shm_open_or_attach, if_true]

/-- The overlap: the second caller attaches and counts itself between the first caller's
`mmap` and `memset`; the `memset` and `refcount.store(0)` of the first then erase that
count. -/
theorem overlap_outcome :
    (soa_run osOk osOk2 IPC_SHM_PATH overlapSchedule (.start, .start, emptyWorld)).1 =
      .done 4096 ∧
    (soa_run osOk osOk2 IPC_SHM_PATH overlapSchedule (.start, .start, emptyWorld)).2.1 =
      .done 8192 ∧
    (soa_run osOk osOk2 IPC_SHM_PATH overlapSchedule (.start, .start, emptyWorld)).2.2.named
      ipcShmName = some 0 ∧
    (soa_run osOk osOk2 IPC_SHM_PATH overlapSchedule (.start, .start, emptyWorld)).2.2.maps
      4096 = some 0 ∧
    (soa_run osOk osOk2 IPC_SHM_PATH overlapSchedule (.start, .start, emptyWorld)).2.2.maps
      8192 = some 0 ∧
    ((soa_run osOk osOk2 IPC_SHM_PATH overlapSchedule
      (.start, .start, emptyWorld)).2.2.objs 0).header.refcount = 1 :=
  ⟨rfl, rfl, rfl, rfl, rfl, rfl⟩

/-- The same two calls one after the other. -/
theorem inTurn_outcome :
    (soa_run osOk osOk2 IPC_SHM_PATH inTurnSchedule (.start, .start, emptyWorld)).1 =
      .done 4096 ∧
    (soa_run osOk osOk2 IPC_SHM_PATH inTurnSchedule (.start, .start, emptyWorld)).2.1 =
      .done 8192 ∧
    ((soa_run osOk osOk2 IPC_SHM_PATH inTurnSchedule
      (.start, .start, emptyWorld)).2.2.objs 0).header.refcount = 2 ∧
    (soa_run osOk osOk2 IPC_SHM_PATH inTurnSchedule (.start, .start, emptyWorld)).2.2 =
      (shm_open_or_attach osOk2 IPC_SHM_PATH
        (shm_open_or_attach osOk IPC_SHM_PATH emptyWorld).2).2 :=
  ⟨rfl, rfl, rfl, rfl⟩

/-! ## The GPU runtime call of a registration -/

section GpuCall

variable (hash : List Nat → Nat) (gpuIpcGetMemHandle : Nat → Option gpuIpcMemHandle_t)

/-- With the segment available, a GPU runtime that fails for the aligned address ends the
process: the call is made, and made at that address. -/
theorem reg_gpu_fails {os : OsOutcome} {w w1 : World} {cur : Nat} (p sz : Nat)
    (k : List Nat)
    (hca : check_and_get_g_ipc_shm_ptr os w = (cur, w1)) (hcur : cur ≠ 0)
    (hg : gpuIpcGetMemHandle (p &&& ((UINT64_RANGE - 1) ^^^ (kIpcAlignment - 1))) = none) :
    reg_ipc_with_name hash gpuIpcGetMemHandle os p sz k w = none := by
  simp only [reg_ipc_with_name, hca, hcur, if_false, hg]

/-- With the segment available and a slot that is Empty or holds the key, the registration
returns true and has stored the runtime's answer for the aligned address, the remainder as
offset and the size in an Occupied slot. -/
theorem reg_true_stores {os : OsOutcome} {w w1 : World} {cur o gh : Nat} (p sz : Nat)
    (k : List Nat)
    (hca : check_and_get_g_ipc_shm_ptr os w = (cur, w1)) (hcur : cur ≠ 0)
    (hmap : w1.maps cur = some o)
    (hg : gpuIpcGetMemHandle (p &&& ((UINT64_RANGE - 1) ^^^ (kIpcAlignment - 1))) = some gh)
    (hex : ∃ j, ((w1.objs o).table j).used = 0 ∨
      (((w1.objs o).table j).used = 1 ∧
        strncmp ((w1.objs o).table j).name (c_str k) SHM_ITEM_NAME_MAX_LEN = 0)) :
    ∃ idx w2, reg_ipc_with_name hash gpuIpcGetMemHandle os p sz k w = some (true, w2) ∧
      w2.g_ipc_shm_ptr_ = cur ∧ w2.maps cur = some o ∧
      ((w2.objs o).table idx).used = 1 ∧
      ((w2.objs o).table idx).handle =
        { handle := gh,
          offset := p - (p &&& ((UINT64_RANGE - 1) ^^^ (kIpcAlignment - 1))),
          size := sz } := by
  obtain ⟨j, hj⟩ := hex
  have hhit : regHit k ((w1.objs o).table j) = true := by
    cases hr : regHit k ((w1.objs o).table j) with
    | true => rfl
    | false =>
      obtain ⟨h0, h1⟩ := (regHit_eq_false_iff k _).1 hr
      rcases hj with h | h
      · exact absurd h h0
      · exact absurd h h1
  obtain ⟨idx, hidx⟩ := probe_full_isSome
    (p := fun j => regHit k ((w1.objs o).table j)) (h := hash k % SHM_ITEM_COUNT) hhit
  refine ⟨idx, w1.store o (regWrite k
    ⟨gh, p - (p &&& ((UINT64_RANGE - 1) ^^^ (kIpcAlignment - 1))), sz⟩ (w1.objs o) idx),
    ?_, ?_, ?_, ?_, ?_⟩
  · rw [reg_eq hash gpuIpcGetMemHandle p sz k hca hcur hmap hg, hidx]
  · rw [World.store_cache]
    exact check_and_get_installs hca hcur
  · rw [World.store_maps]
    exact hmap
  · rw [World.store_objs_same]
    exact regWrite_used _ _ _ _
  · rw [World.store_objs_same]
    exact regWrite_handle _ _ _ _

end GpuCall

/-! ## Claims -/

/-- C1 (round trip): for a key `k` without NUL byte of at most 63 bytes and a 64-bit
pointer `p`, when `reg_ipc_with_name(p, S, k)` returns true, the GPU runtime has returned
a handle `gh` for `p - p mod 2^20` and an immediately following `get_ipc_by_name_once(k)`
returns the handle `(gh, p mod 2^20, S)`, for every hash function and every state. -/
theorem C1_round_trip (hash : List Nat → Nat) (gpuIpcGetMemHandle : Nat → Option gpuIpcMemHandle_t)
    (os os2 : OsOutcome) (w w2 : World) (p S : Nat) (k : List Nat)
    (hp : p < 2 ^ 64) (hz : ∀ c ∈ k, c ≠ 0) (hlen : k.length ≤ 63)
    (hreg : reg_ipc_with_name hash gpuIpcGetMemHandle os p S k w = some (true, w2)) :
    ∃ gh, gpuIpcGetMemHandle (p - p % 2 ^ 20) = some gh ∧
      get_ipc_by_name_once hash os2 k w2 =
        some ({ handle := gh, offset := p % 2 ^ 20, size := S }, w2) :=
  reg_then_get hash gpuIpcGetMemHandle os os2 w w2 p S k hp hz hlen hreg

theorem C1_round_trip_witness :
    ∃ gh, gpuOk (3 * 2 ^ 20 + 5 - (3 * 2 ^ 20 + 5) % 2 ^ 20) = some gh ∧
      get_ipc_by_name_once hashFive osFail [97] worldA =
        some ({ handle := gh, offset := (3 * 2 ^ 20 + 5) % 2 ^ 20, size := 100 }, worldA) :=
  C1_round_trip hashFive gpuOk osOk osFail emptyWorld worldA (3 * 2 ^ 20 + 5) 100 [97]
    (by decide) (by decide) (by decide) rfl

/-- C7 (table-full is the only registration failure, and it is atomic): with the segment
available (`check_and_get_g_ipc_shm_ptr` yields the mapped address `cur` and the state
`w1`) and the GPU handle call succeeding, `reg_ipc_with_name(p, S, k)` returns, and it
returns false if and only if no slot of the table is Empty and no Occupied slot's stored
name matches `k`; whenever it returns false the state it leaves is `w1` itself: every
slot, `itemcount` and `refcount` are unchanged. -/
theorem C7_table_full_only_failure (hash : List Nat → Nat)
    (gpuIpcGetMemHandle : Nat → Option gpuIpcMemHandle_t)
    (os : OsOutcome) (w w1 : World) (cur o gh p S : Nat) (k : List Nat)
    (hca : check_and_get_g_ipc_shm_ptr os w = (cur, w1)) (hcur : cur ≠ 0)
    (hmap : w1.maps cur = some o)
    (hg : gpuIpcGetMemHandle (p &&& ((UINT64_RANGE - 1) ^^^ (kIpcAlignment - 1))) = some gh) :
    ∃ b w2, reg_ipc_with_name hash gpuIpcGetMemHandle os p S k w = some (b, w2) ∧
      (b = false ↔ (∀ j, ((w1.objs o).table j).used ≠ 0) ∧
        ∀ j, ¬ (((w1.objs o).table j).used = 1 ∧
          strncmp ((w1.objs o).table j).name (c_str k) SHM_ITEM_NAME_MAX_LEN = 0)) ∧
      (b = false → w2 = w1) :=
  reg_full_iff hash gpuIpcGetMemHandle p S k hca hcur hmap hg

theorem C7_table_full_only_failure_witness :
    ∃ b w2, reg_ipc_with_name hashFive gpuOk osFail 5 100 [97] fullWorld = some (b, w2) ∧
      (b = false ↔ (∀ j, ((fullWorld.objs 0).table j).used ≠ 0) ∧
        ∀ j, ¬ (((fullWorld.objs 0).table j).used = 1 ∧
          strncmp ((fullWorld.objs 0).table j).name (c_str [97]) SHM_ITEM_NAME_MAX_LEN = 0)) ∧
      (b = false → w2 = fullWorld) :=
  C7_table_full_only_failure hashFive gpuOk osFail fullWorld fullWorld 4096 0 7 5 100 [97]
    rfl (by decide) rfl rfl

/-- C8 (not-found decrement): with the segment available and a key `k` that matches no
Occupied slot, `dereg_ipc_with_name(k)` returns false, leaves every slot of the table
unchanged and sets `itemcount` to `(old itemcount - 1) mod 2^64`. -/
theorem C8_not_found_decrement (hash : List Nat → Nat)
    (os : OsOutcome) (w w1 : World) (cur o : Nat) (k : List Nat)
    (hca : check_and_get_g_ipc_shm_ptr os w = (cur, w1)) (hcur : cur ≠ 0)
    (hmap : w1.maps cur = some o)
    (hno : ∀ j, ¬ (((w1.objs o).table j).used = 1 ∧
          strncmp ((w1.objs o).table j).name (c_str k) SHM_ITEM_NAME_MAX_LEN = 0)) :
    ∃ w2, dereg_ipc_with_name hash os k w = some (false, w2) ∧
      (∀ j, (w2.objs o).table j = (w1.objs o).table j) ∧
      ((w2.objs o).header.itemcount : Int) =
        (((w1.objs o).header.itemcount : Int) - 1) % 2 ^ 64 :=
  dereg_not_found hash k hca hcur hmap hno

theorem C8_not_found_decrement_witness :
    ∃ w2, dereg_ipc_with_name hashFive osFail [97] fullWorld = some (false, w2) ∧
      (∀ j, (w2.objs 0).table j = (fullWorld.objs 0).table j) ∧
      ((w2.objs 0).header.itemcount : Int) =
        (((fullWorld.objs 0).header.itemcount : Int) - 1) % 2 ^ 64 :=
  C8_not_found_decrement hashFive osFail fullWorld fullWorld 4096 0 [97] rfl (by decide) rfl
    (fun _ h => absurd h.1 (show ¬ ((2 : Int) = 1) by decide))

/-- C9 (counter on register): with the segment available, a call of `reg_ipc_with_name`
that returns true leaves `itemcount` at `(old + 1) mod 2^64` (whichever case of the loop
returned), a call that returns false leaves `itemcount` unchanged, and a call of
`dereg_ipc_with_name` returns and leaves `itemcount` at `(old - 1) mod 2^64` whether or
not it found the key. -/
theorem C9_counter_on_register (hash : List Nat → Nat)
    (gpuIpcGetMemHandle : Nat → Option gpuIpcMemHandle_t)
    (os : OsOutcome) (w w1 : World) (cur o p S : Nat) (k : List Nat)
    (hca : check_and_get_g_ipc_shm_ptr os w = (cur, w1)) (hcur : cur ≠ 0)
    (hmap : w1.maps cur = some o) :
    (∀ w2, reg_ipc_with_name hash gpuIpcGetMemHandle os p S k w = some (true, w2) →
      (w2.objs o).header.itemcount = ((w1.objs o).header.itemcount + 1) % 2 ^ 64) ∧
    (∀ w2, reg_ipc_with_name hash gpuIpcGetMemHandle os p S k w = some (false, w2) →
      (w2.objs o).header.itemcount = (w1.objs o).header.itemcount) ∧
    (∃ b w2, dereg_ipc_with_name hash os k w = some (b, w2) ∧
      ((w2.objs o).header.itemcount : Int) =
        (((w1.objs o).header.itemcount : Int) - 1) % 2 ^ 64) :=
  counter_steps hash gpuIpcGetMemHandle p S k hca hcur hmap

theorem C9_counter_on_register_witness :
    (∀ w2, reg_ipc_with_name hashFive gpuOk osOk 5 100 [97] emptyWorld = some (true, w2) →
      (w2.objs 0).header.itemcount = ((attachedWorld.objs 0).header.itemcount + 1) % 2 ^ 64) ∧
    (∀ w2, reg_ipc_with_name hashFive gpuOk osOk 5 100 [97] emptyWorld = some (false, w2) →
      (w2.objs 0).header.itemcount = (attachedWorld.objs 0).header.itemcount) ∧
    (∃ b w2, dereg_ipc_with_name hashFive osOk [97] emptyWorld = some (b, w2) ∧
      ((w2.objs 0).header.itemcount : Int) =
        (((attachedWorld.objs 0).header.itemcount : Int) - 1) % 2 ^ 64) :=
  C9_counter_on_register hashFive gpuOk osOk emptyWorld attachedWorld 4096 0 5 100 [97]
    rfl (by decide) rfl

/-- C4 (overwrite): for a key `k` without NUL byte of at most 63 bytes, when
`reg_ipc_with_name(p1, S1, k)` and then `reg_ipc_with_name(p2, S2, k)` both return true,
`get_ipc_by_name_once(k)` returns the handle built from `(p2, S2)`, and the second call
writes the slot `idx` the first one wrote: outside `idx` neither call changes a slot, the
second call changes no slot's state flag and no slot's stored name, and the number of
Occupied slots is the same before and after it. -/
theorem C4_overwrite (hash : List Nat → Nat) (gpuIpcGetMemHandle : Nat → Option gpuIpcMemHandle_t)
    (os os2 os3 : OsOutcome) (w w2 w3 : World) (p1 S1 p2 S2 : Nat) (k : List Nat)
    (hp2 : p2 < 2 ^ 64) (hz : ∀ c ∈ k, c ≠ 0) (hlen : k.length ≤ 63)
    (h1 : reg_ipc_with_name hash gpuIpcGetMemHandle os p1 S1 k w = some (true, w2))
    (h2 : reg_ipc_with_name hash gpuIpcGetMemHandle os2 p2 S2 k w2 = some (true, w3)) :
    ∃ cur w1 o gh idx, check_and_get_g_ipc_shm_ptr os w = (cur, w1) ∧ cur ≠ 0 ∧
      w1.maps cur = some o ∧ w2.maps cur = some o ∧ w3.maps cur = some o ∧
      gpuIpcGetMemHandle (p2 - p2 % 2 ^ 20) = some gh ∧
      get_ipc_by_name_once hash os3 k w3 =
        some ({ handle := gh, offset := p2 % 2 ^ 20, size := S2 }, w3) ∧
      (∀ j, j ≠ idx → (w2.objs o).table j = (w1.objs o).table j) ∧
      (∀ j, j ≠ idx → (w3.objs o).table j = (w2.objs o).table j) ∧
      ((w3.objs o).table idx).handle = { handle := gh, offset := p2 % 2 ^ 20, size := S2 } ∧
      (∀ j, ((w3.objs o).table j).used = ((w2.objs o).table j).used ∧
        ((w3.objs o).table j).name = ((w2.objs o).table j).name) ∧
      occupiedCount (w3.objs o).table = occupiedCount (w2.objs o).table :=
  reg_twice hash gpuIpcGetMemHandle os os2 os3 w w2 w3 p1 S1 p2 S2 k hp2 hz hlen h1 h2

theorem C4_overwrite_witness :
    ∃ cur w1 o gh idx, check_and_get_g_ipc_shm_ptr osOk emptyWorld = (cur, w1) ∧ cur ≠ 0 ∧
      w1.maps cur = some o ∧ worldA.maps cur = some o ∧ worldA2.maps cur = some o ∧
      gpuOk (4 * 2 ^ 20 + 6 - (4 * 2 ^ 20 + 6) % 2 ^ 20) = some gh ∧
      get_ipc_by_name_once hashFive osFail [97] worldA2 =
        some ({ handle := gh, offset := (4 * 2 ^ 20 + 6) % 2 ^ 20, size := 200 }, worldA2) ∧
      (∀ j, j ≠ idx → (worldA.objs o).table j = (w1.objs o).table j) ∧
      (∀ j, j ≠ idx → (worldA2.objs o).table j = (worldA.objs o).table j) ∧
      ((worldA2.objs o).table idx).handle =
        { handle := gh, offset := (4 * 2 ^ 20 + 6) % 2 ^ 20, size := 200 } ∧
      (∀ j, ((worldA2.objs o).table j).used = ((worldA.objs o).table j).used ∧
        ((worldA2.objs o).table j).name = ((worldA.objs o).table j).name) ∧
      occupiedCount (worldA2.objs o).table = occupiedCount (worldA.objs o).table :=
  C4_overwrite hashFive gpuOk osOk osFail osFail emptyWorld worldA worldA2
    (3 * 2 ^ 20 + 5) 100 (4 * 2 ^ 20 + 6) 200 [97] (by decide) (by decide) (by decide) rfl rfl

/-- C2 (deregister removes the entry), evaluated on the code: for every hash function
there are two different short keys `a`, `b` such that, on a freshly created table, after
register `a`, register `b`, deregister `a`, register `b` (all returning true),
`dereg_ipc_with_name(b)` returns true and yet the following `get_ipc_by_name_once(b)`
returns the non-empty handle of the first registration of `b` and
`check_ipc_by_name_once(b)` returns 2. -/
theorem C2_dereg_leaves_key_findable (hash : List Nat → Nat) :
    ∃ a b : List Nat, a ≠ b ∧ (∀ c ∈ a, c ≠ 0) ∧ (∀ c ∈ b, c ≠ 0) ∧ a.length ≤ 63 ∧
      b.length ≤ 63 ∧
      ∃ w4 w5, run hash gpuOk (dupCalls a b) emptyWorld = some ([true, true, true, true], w4) ∧
        dereg_ipc_with_name hash osOk b w4 = some (true, w5) ∧
        get_ipc_by_name_once hash osOk b w5 = some (gpuOkHandle (4 * 2 ^ 20 + 6) 200, w5) ∧
        gpuOkHandle (4 * 2 ^ 20 + 6) 200 ≠ null_handle ∧
        check_ipc_by_name_once hash osOk b w5 = some (2, w5) := by
  obtain ⟨a, b, hab, hza, hzb, hla, hlb, hcol⟩ := exists_collision hash
  obtain ⟨w4, w5, hrun, hd, hg, hc⟩ := dup_then_dereg hash a b hza hzb hla hlb hab hcol
  refine ⟨a, b, hab, hza, hzb, hla, hlb, w4, w5, hrun, hd, hg, ?_, hc⟩
  intro h
  have := congrArg IPCMemHandle.size h
  simp [gpuOkHandle, null_handle] at this

/-- C3 (duplicate keys cannot coexist), evaluated on the code: for every hash function
there are two different short keys `a`, `b` such that, on a freshly created table, after
register `a`, register `b`, deregister `a`, register `b` (all returning true), two
different Occupied slots of the mapped table hold the same stored name: the last call
claimed the Empty slot that comes first in probe order although an Occupied slot holding
`b` existed. -/
theorem C3_duplicate_key_coexists (hash : List Nat → Nat) :
    ∃ a b : List Nat, a ≠ b ∧ (∀ c ∈ a, c ≠ 0) ∧ (∀ c ∈ b, c ≠ 0) ∧ a.length ≤ 63 ∧
      b.length ≤ 63 ∧
      ∃ w4 o i j, run hash gpuOk (dupCalls a b) emptyWorld = some ([true, true, true, true], w4) ∧
        w4.maps w4.g_ipc_shm_ptr_ = some o ∧ i ≠ j ∧
        ((w4.objs o).table i).used = 1 ∧ ((w4.objs o).table j).used = 1 ∧
        ((w4.objs o).table i).name = ((w4.objs o).table j).name := by
  obtain ⟨a, b, hab, hza, hzb, hla, hlb, hcol⟩ := exists_collision hash
  obtain ⟨S4, hrun, _, ha, hb⟩ := dup_run hash a b hza hzb hla hab hcol
  refine ⟨a, b, hab, hza, hzb, hla, hlb, _, 0, slot (hash b % SHM_ITEM_COUNT) 0,
    slot (hash b % SHM_ITEM_COUNT) 1, hrun, ?_, slot_zero_ne_one _, ?_, ?_, ?_⟩
  · rw [World.store_maps, World.store_cache, attachedWorld_cache, attachedWorld_maps]
  · rw [World.store_objs_same, ha]
  · rw [World.store_objs_same, hb]
  · rw [World.store_objs_same, ha, hb]

/-- C6 (key truncation), evaluated on the code: for every hash function, registering the
64-byte key `aaa...a` on a freshly created table returns true, and the following
`get_ipc_by_name_once` of the same key returns the empty handle and
`check_ipc_by_name_once` returns 3: the name is stored cut to 63 bytes but compared on
64 bytes. -/
theorem C6_long_key_not_found (hash : List Nat → Nat) :
    ∃ w1, reg_ipc_with_name hash gpuOk osOk (3 * 2 ^ 20 + 5) 100 (List.replicate 64 97)
        emptyWorld = some (true, w1) ∧
      get_ipc_by_name_once hash osOk (List.replicate 64 97) w1 = some (null_handle, w1) ∧
      check_ipc_by_name_once hash osOk (List.replicate 64 97) w1 = some (3, w1) :=
  long_key_lost hash (List.replicate 64 97) (List.replicate 64 97)
    (fun c hc => by rw [List.eq_of_mem_replicate hc]; decide)
    (fun c hc => by rw [List.eq_of_mem_replicate hc]; decide)
    (by rw [List.length_replicate])

/-- C5 (capacity exhaustion, amended): for every hash function, starting from an attached
segment whose table is all-Empty, registering `SHM_ITEM_COUNT + 1 = 1025` pairwise
distinct keys in order, each without NUL byte and at most 63 bytes long (the GPU runtime
answering every call), the first 1024 calls all return true and the 1025th returns
false. -/
theorem C5_capacity_exhaustion (hash : List Nat → Nat)
    (gpuIpcGetMemHandle : Nat → Option gpuIpcMemHandle_t) (w : World) (o : Nat)
    (args : List (OsOutcome × Nat × Nat × List Nat))
    (hcur : w.g_ipc_shm_ptr_ ≠ 0) (hmap : w.maps w.g_ipc_shm_ptr_ = some o)
    (hempty : ∀ j, ((w.objs o).table j).used = 0)
    (hlen : args.length = SHM_ITEM_COUNT + 1)
    (hnd : (args.map (fun a => a.2.2.2)).Nodup)
    (hargs : ∀ a ∈ args, (∀ c ∈ a.2.2.2, c ≠ 0) ∧ a.2.2.2.length ≤ 63)
    (hgpu : ∀ a ∈ args, ∃ gh, gpuIpcGetMemHandle
        (a.2.1 &&& ((UINT64_RANGE - 1) ^^^ (kIpcAlignment - 1))) = some gh) :
    ∃ w2, run hash gpuIpcGetMemHandle (args.map Call.ofReg) w =
      some (List.replicate SHM_ITEM_COUNT true ++ [false], w2) :=
  capacity_exhaustion hash gpuIpcGetMemHandle w o args hcur hmap hempty hlen hnd hargs hgpu

theorem C5_capacity_exhaustion_witness :
    ∃ w2, run hashFive gpuOk (sampleArgs.map Call.ofReg) attachedWorld =
      some (List.replicate SHM_ITEM_COUNT true ++ [false], w2) :=
  C5_capacity_exhaustion hashFive gpuOk attachedWorld 0 sampleArgs
    (by rw [attachedWorld_cache]; decide)
    (by rw [attachedWorld_cache]; exact attachedWorld_maps)
    (fun j => by rw [attachedWorld_seg]; rfl)
    (by simp [sampleArgs])
    sampleArgs_keys_nodup sampleArgs_short (fun _ _ => ⟨_, rfl⟩)

/-- C5 as stated fails: `truncMergeKeys` and `nulMergeKeys` are lists of 1025 pairwise
distinct keys, and on a freshly created table, for every hash function, the 1025th
registration of either list returns true, because its key matches the name stored for
the first key (cut to 63 bytes, respectively ended by its NUL byte). -/
theorem C5_distinct_keys_share_a_slot :
    (truncMergeKeys.length = SHM_ITEM_COUNT + 1 ∧ truncMergeKeys.Nodup ∧
      ∀ hash : List Nat → Nat, ∃ bs w,
        run hash gpuOk (regCalls truncMergeKeys) emptyWorld = some (bs ++ [true], w) ∧
        bs.length = SHM_ITEM_COUNT) ∧
    (nulMergeKeys.length = SHM_ITEM_COUNT + 1 ∧ nulMergeKeys.Nodup ∧
      ∀ hash : List Nat → Nat, ∃ bs w,
        run hash gpuOk (regCalls nulMergeKeys) emptyWorld = some (bs ++ [true], w) ∧
        bs.length = SHM_ITEM_COUNT) := by
  refine ⟨⟨truncMergeKeys_length, truncMergeKeys_nodup, fun hash => ?_⟩,
    ⟨nulMergeKeys_length, nulMergeKeys_nodup, fun hash => ?_⟩⟩
  · obtain ⟨bs, w, hrun, hl⟩ := last_reg_true hash (List.replicate 64 97) (List.replicate 63 97)
      ((List.range 1023).map (fun i => sampleKey i)) trunc_last_matches
    exact ⟨bs, w, hrun, by rw [hl, List.length_map, List.length_range]⟩
  · obtain ⟨bs, w, hrun, hl⟩ := last_reg_true hash (sampleKey 0) (sampleKey 0 ++ [0, 1])
      ((List.range 1023).map (fun i => sampleKey (i + 1))) nul_last_matches
    exact ⟨bs, w, hrun, by rw [hl, List.length_map, List.length_range]⟩

/-- C10 (teardown): starting from a state in which the shared object does not exist and
the cached pointer is null, after `args.length + 1` calls of `reg_ipc_with_name` that all
returned true (fewer than 2^64 of them) and as many calls of `dereg_ipc_with_name`
(whatever their keys, so also the registered ones), all deregistrations return, the
state `wM` before the final one has `itemcount = 1` in the object the process created
and still names it, and the final deregistration leaves `itemcount = 0`, the name
unbound in the OS namespace and the cached pointer null. -/
theorem C10_teardown (hash : List Nat → Nat) (gpuIpcGetMemHandle : Nat → Option gpuIpcMemHandle_t)
    (w wR : World) (bs : List Bool)
    (a : OsOutcome × Nat × Nat × List Nat) (args : List (OsOutcome × Nat × Nat × List Nat))
    (ds : List (OsOutcome × List Nat)) (last : OsOutcome × List Nat)
    (hnone : w.named ipcShmName = none) (hcache : w.g_ipc_shm_ptr_ = 0)
    (hlen : ds.length = args.length) (hbound : args.length + 1 < UINT64_RANGE)
    (hrun : run hash gpuIpcGetMemHandle ((a :: args).map Call.ofReg) w = some (bs, wR))
    (hall : ∀ b ∈ bs, b = true) :
    ∃ bs2 wM b wF, run hash gpuIpcGetMemHandle (ds.map Call.ofDereg) wR = some (bs2, wM) ∧
      SoleOwner wM w.nobjs 1 ∧
      dereg_ipc_with_name hash last.1 last.2 wM = some (b, wF) ∧
      run hash gpuIpcGetMemHandle ((ds ++ [last]).map Call.ofDereg) wR = some (bs2 ++ [b], wF) ∧
      (wF.objs w.nobjs).header.itemcount = 0 ∧ wF.named ipcShmName = none ∧
      wF.g_ipc_shm_ptr_ = 0 :=
  teardown_run hash gpuIpcGetMemHandle w wR bs a args ds last hnone hcache hlen hbound hrun hall

theorem C10_teardown_witness :
    ∃ bs2 wM b wF, run hashFive gpuOk (([] : List (OsOutcome × List Nat)).map Call.ofDereg) worldA =
        some (bs2, wM) ∧
      SoleOwner wM emptyWorld.nobjs 1 ∧
      dereg_ipc_with_name hashFive osFail [97] wM = some (b, wF) ∧
      run hashFive gpuOk (([] ++ [(osFail, [97])]).map Call.ofDereg) worldA =
        some (bs2 ++ [b], wF) ∧
      (wF.objs emptyWorld.nobjs).header.itemcount = 0 ∧ wF.named ipcShmName = none ∧
      wF.g_ipc_shm_ptr_ = 0 :=
  C10_teardown hashFive gpuOk emptyWorld worldA [true] (osOk, 3 * 2 ^ 20 + 5, 100, [97]) [] []
    (osFail, [97]) rfl rfl rfl (by decide)
    (by
      have h : reg_ipc_with_name hashFive gpuOk osOk (3 * 2 ^ 20 + 5) 100 [97] emptyWorld =
          some (true, worldA) := rfl
      simp only [List.map_cons, List.map_nil, run, Call.ofReg, Call.step, h])
    (by decide)

/-- C11 (detach contract): `shm_detach_with_name` on a null pointer returns false and
changes nothing; on a mapped segment it returns true, leaves `refcount` at
`(old - 1) mod 2^64` and everything else in every object unchanged, unmaps the address,
sets the cached pointer to null if the cache held that same address and leaves the cache
alone otherwise, and unlinks the name if the `refcount` before the decrement was exactly
1 and leaves the namespace alone otherwise. -/
theorem C11_detach_contract (p : Nat) (n : List Nat) (w : World) :
    (p = 0 → shm_detach_with_name p n w = some (false, w)) ∧
    (∀ o, p ≠ 0 → w.maps p = some o →
      ∃ w2, shm_detach_with_name p n w = some (true, w2) ∧
        ((w2.objs o).header.refcount : Int) = (((w.objs o).header.refcount : Int) - 1) % 2 ^ 64 ∧
        (w2.objs o).header.itemcount = (w.objs o).header.itemcount ∧
        (w2.objs o).table = (w.objs o).table ∧
        (∀ o2, o2 ≠ o → w2.objs o2 = w.objs o2) ∧
        (w.g_ipc_shm_ptr_ = p → w2.g_ipc_shm_ptr_ = 0) ∧
        (w.g_ipc_shm_ptr_ ≠ p → w2.g_ipc_shm_ptr_ = w.g_ipc_shm_ptr_) ∧
        w2.maps p = none ∧
        ((w.objs o).header.refcount = 1 →
          w2.named = Function.update w.named ((47 :: n).take 255) none) ∧
        ((w.objs o).header.refcount ≠ 1 → w2.named = w.named)) :=
  detach_contract p n w

theorem C11_detach_contract_witness :
    shm_detach_with_name 0 IPC_SHM_PATH attachedWorld = some (false, attachedWorld) ∧
    ∃ w2, shm_detach_with_name 4096 IPC_SHM_PATH attachedWorld = some (true, w2) ∧
      ((w2.objs 0).header.refcount : Int) =
        (((attachedWorld.objs 0).header.refcount : Int) - 1) % 2 ^ 64 ∧
      (w2.objs 0).header.itemcount = (attachedWorld.objs 0).header.itemcount ∧
      (w2.objs 0).table = (attachedWorld.objs 0).table ∧
      (∀ o2, o2 ≠ 0 → w2.objs o2 = attachedWorld.objs o2) ∧
      (attachedWorld.g_ipc_shm_ptr_ = 4096 → w2.g_ipc_shm_ptr_ = 0) ∧
      (attachedWorld.g_ipc_shm_ptr_ ≠ 4096 → w2.g_ipc_shm_ptr_ = attachedWorld.g_ipc_shm_ptr_) ∧
      w2.maps 4096 = none ∧
      ((attachedWorld.objs 0).header.refcount = 1 →
        w2.named = Function.update attachedWorld.named ((47 :: IPC_SHM_PATH).take 255) none) ∧
      ((attachedWorld.objs 0).header.refcount ≠ 1 → w2.named = attachedWorld.named) :=
  ⟨(C11_detach_contract 0 IPC_SHM_PATH attachedWorld).1 rfl,
   (C11_detach_contract 4096 IPC_SHM_PATH attachedWorld).2 0 (by decide) rfl⟩

/-- C12 (not-found against segment-unavailable, amended): when the segment cannot be
obtained, `get_ipc_by_name_once` returns the empty handle, `dereg_ipc_with_name` returns
false and `check_ipc_by_name_once` returns 1; when the segment is available and no
Occupied slot matches the key, `get_ipc_by_name_once` returns the empty handle again,
`dereg_ipc_with_name` returns false again, and `check_ipc_by_name_once` returns 3: only
`check_ipc_by_name_once` tells the two situations apart. -/
theorem C12_only_check_distinguishes (hash : List Nat → Nat) (k : List Nat)
    (os os2 : OsOutcome) (w w1 v v1 : World) (cur o : Nat)
    (hun : check_and_get_g_ipc_shm_ptr os w = (0, w1))
    (hca : check_and_get_g_ipc_shm_ptr os2 v = (cur, v1)) (hcur : cur ≠ 0)
    (hmap : v1.maps cur = some o)
    (hno : ∀ j, ¬ (((v1.objs o).table j).used = 1 ∧
      strncmp ((v1.objs o).table j).name (c_str k) SHM_ITEM_NAME_MAX_LEN = 0)) :
    (get_ipc_by_name_once hash os k w = some (null_handle, w1) ∧
      get_ipc_by_name_once hash os2 k v = some (null_handle, v1)) ∧
    (dereg_ipc_with_name hash os k w = some (false, w1) ∧
      ∃ v2, dereg_ipc_with_name hash os2 k v = some (false, v2)) ∧
    (check_ipc_by_name_once hash os k w = some (1, w1) ∧
      check_ipc_by_name_once hash os2 k v = some (3, v1)) := by
  obtain ⟨g1, d1, c1, _⟩ := unavailable_results hash (fun _ => none) 0 0 k hun
  obtain ⟨g2, d2, c2⟩ := absent_results hash k hca hcur hmap
    (fun j => (entryMatches_eq_false_iff k _).2 (hno j))
  exact ⟨⟨g1, g2⟩, ⟨d1, d2⟩, ⟨c1, c2⟩⟩

theorem C12_only_check_distinguishes_witness :
    (get_ipc_by_name_once hashFive osFail [97] emptyWorld = some (null_handle, emptyWorld) ∧
      get_ipc_by_name_once hashFive osOk [97] emptyWorld = some (null_handle, attachedWorld)) ∧
    (dereg_ipc_with_name hashFive osFail [97] emptyWorld = some (false, emptyWorld) ∧
      ∃ v2, dereg_ipc_with_name hashFive osOk [97] emptyWorld = some (false, v2)) ∧
    (check_ipc_by_name_once hashFive osFail [97] emptyWorld = some (1, emptyWorld) ∧
      check_ipc_by_name_once hashFive osOk [97] emptyWorld = some (3, attachedWorld)) :=
  C12_only_check_distinguishes hashFive [97] osFail osOk emptyWorld emptyWorld emptyWorld
    attachedWorld 4096 0 rfl rfl (by decide) rfl
    (fun j h => absurd h.1 (by rw [attachedWorld_seg]; exact (by decide : ¬ ((0 : Int) = 1))))

/-- C12 as stated fails: with the segment unavailable (`osFail` on `emptyWorld`) and with
the segment available but the key absent (`osOk` on `emptyWorld`),
`get_ipc_by_name_once` returns the same value, the empty handle, and
`dereg_ipc_with_name` returns the same value, false. -/
theorem C12_same_values :
    (get_ipc_by_name_once hashFive osFail [97] emptyWorld).map Prod.fst =
      (get_ipc_by_name_once hashFive osOk [97] emptyWorld).map Prod.fst ∧
    (dereg_ipc_with_name hashFive osFail [97] emptyWorld).map Prod.fst =
      (dereg_ipc_with_name hashFive osOk [97] emptyWorld).map Prod.fst ∧
    check_and_get_g_ipc_shm_ptr osFail emptyWorld = (0, emptyWorld) ∧
    check_and_get_g_ipc_shm_ptr osOk emptyWorld = (4096, attachedWorld) ∧
    attachedWorld.maps 4096 = some 0 ∧
    ∀ j, entryMatches [97] ((attachedWorld.objs 0).table j) = false := by
  have hno : ∀ j, entryMatches [97] ((attachedWorld.objs 0).table j) = false :=
    fun j => by rw [attachedWorld_seg]; rfl
  obtain ⟨g1, d1, _, _⟩ := unavailable_results hashFive (fun _ => none) 0 0 [97]
    (rfl : check_and_get_g_ipc_shm_ptr osFail emptyWorld = (0, emptyWorld))
  obtain ⟨g2, ⟨v2, d2⟩, _⟩ := absent_results hashFive [97] check_and_get_emptyWorld (by decide)
    attachedWorld_maps hno
  rw [g1, g2, d1, d2]
  exact ⟨rfl, rfl, rfl, rfl, rfl, hno⟩

/-- C19 (lookups agree and are read-only): with the segment already attached in the
calling process, if some Occupied slot's stored name matches `k` then
`check_ipc_by_name_once(k)` returns 2 and `get_ipc_by_name_once(k)` returns the handle of
the first such slot in probe order; if none does, they return 3 and the empty handle; in
both cases the state after either call is the state before it. -/
theorem C19_lookups_agree (hash : List Nat → Nat) (os : OsOutcome) (w : World) (o : Nat)
    (k : List Nat)
    (hcur : w.g_ipc_shm_ptr_ ≠ 0) (hmap : w.maps w.g_ipc_shm_ptr_ = some o) :
    ((∃ j, ((w.objs o).table j).used = 1 ∧
        strncmp ((w.objs o).table j).name (c_str k) SHM_ITEM_NAME_MAX_LEN = 0) →
      ∃ i, i < SHM_ITEM_COUNT ∧
        (((w.objs o).table (slot (hash k % SHM_ITEM_COUNT) i)).used = 1 ∧
          strncmp ((w.objs o).table (slot (hash k % SHM_ITEM_COUNT) i)).name (c_str k)
            SHM_ITEM_NAME_MAX_LEN = 0) ∧
        (∀ i2, i2 < i →
          ¬ (((w.objs o).table (slot (hash k % SHM_ITEM_COUNT) i2)).used = 1 ∧
            strncmp ((w.objs o).table (slot (hash k % SHM_ITEM_COUNT) i2)).name (c_str k)
              SHM_ITEM_NAME_MAX_LEN = 0)) ∧
        check_ipc_by_name_once hash os k w = some (2, w) ∧
        get_ipc_by_name_once hash os k w =
          some (((w.objs o).table (slot (hash k % SHM_ITEM_COUNT) i)).handle, w)) ∧
    ((¬ ∃ j, ((w.objs o).table j).used = 1 ∧
        strncmp ((w.objs o).table j).name (c_str k) SHM_ITEM_NAME_MAX_LEN = 0) →
      check_ipc_by_name_once hash os k w = some (3, w) ∧
      get_ipc_by_name_once hash os k w = some (null_handle, w)) :=
  lookups_agree hash k hcur hmap

theorem C19_lookups_agree_witness :
    ((∃ j, ((worldA.objs 0).table j).used = 1 ∧
        strncmp ((worldA.objs 0).table j).name (c_str [97]) SHM_ITEM_NAME_MAX_LEN = 0) →
      ∃ i, i < SHM_ITEM_COUNT ∧
        (((worldA.objs 0).table (slot (hashFive [97] % SHM_ITEM_COUNT) i)).used = 1 ∧
          strncmp ((worldA.objs 0).table (slot (hashFive [97] % SHM_ITEM_COUNT) i)).name
            (c_str [97]) SHM_ITEM_NAME_MAX_LEN = 0) ∧
        (∀ i2, i2 < i →
          ¬ (((worldA.objs 0).table (slot (hashFive [97] % SHM_ITEM_COUNT) i2)).used = 1 ∧
            strncmp ((worldA.objs 0).table (slot (hashFive [97] % SHM_ITEM_COUNT) i2)).name
              (c_str [97]) SHM_ITEM_NAME_MAX_LEN = 0)) ∧
        check_ipc_by_name_once hashFive osFail [97] worldA = some (2, worldA) ∧
        get_ipc_by_name_once hashFive osFail [97] worldA =
          some (((worldA.objs 0).table (slot (hashFive [97] % SHM_ITEM_COUNT) i)).handle,
            worldA)) ∧
    ((¬ ∃ j, ((worldA.objs 0).table j).used = 1 ∧
        strncmp ((worldA.objs 0).table j).name (c_str [97]) SHM_ITEM_NAME_MAX_LEN = 0) →
      check_ipc_by_name_once hashFive osFail [97] worldA = some (3, worldA) ∧
      get_ipc_by_name_once hashFive osFail [97] worldA = some (null_handle, worldA)) :=
  C19_lookups_agree hashFive osFail worldA 0 [97] (by decide) rfl

/-- C15 (alignment arithmetic): for every 64-bit pointer value `p`, the address
`a = p & ~(kIpcAlignment - 1)` is `p` with its low 20 bits cleared, a multiple of `2^20`
with `a ≤ p`; `p - a` is `p mod 2^20`, below `2^20`, and `a + (p - a) = p` stays below
`2^64`; `reg_ipc_with_name` depends on the GPU runtime only through its answer for `a`,
and a call that returns true has stored a handle made of that answer, the offset `p - a`
and the size argument unchanged, in an Occupied slot of the mapped table. With the segment
available the runtime is called at `a`: if it fails there the process ends, and if it
answers and some slot is Empty or holds the key, the call returns true with that answer,
the offset `p mod 2^20` and the size stored in an Occupied slot. -/
theorem C15_alignment (hash : List Nat → Nat) (p : Nat) (hp : p < 2 ^ 64) :
    (p &&& ((UINT64_RANGE - 1) ^^^ (kIpcAlignment - 1)) = p - p % 2 ^ 20 ∧
      (p &&& ((UINT64_RANGE - 1) ^^^ (kIpcAlignment - 1))) % 2 ^ 20 = 0 ∧
      p &&& ((UINT64_RANGE - 1) ^^^ (kIpcAlignment - 1)) ≤ p ∧
      p - (p &&& ((UINT64_RANGE - 1) ^^^ (kIpcAlignment - 1))) = p % 2 ^ 20 ∧
      p - (p &&& ((UINT64_RANGE - 1) ^^^ (kIpcAlignment - 1))) < 2 ^ 20 ∧
      (p &&& ((UINT64_RANGE - 1) ^^^ (kIpcAlignment - 1))) +
        (p - (p &&& ((UINT64_RANGE - 1) ^^^ (kIpcAlignment - 1)))) = p ∧
      (p &&& ((UINT64_RANGE - 1) ^^^ (kIpcAlignment - 1))) +
        (p - (p &&& ((UINT64_RANGE - 1) ^^^ (kIpcAlignment - 1)))) < 2 ^ 64) ∧
    (∀ (gpu1 gpu2 : Nat → Option gpuIpcMemHandle_t) (os : OsOutcome) (sz : Nat)
        (k : List Nat) (w : World),
      gpu1 (p - p % 2 ^ 20) = gpu2 (p - p % 2 ^ 20) →
      reg_ipc_with_name hash gpu1 os p sz k w = reg_ipc_with_name hash gpu2 os p sz k w) ∧
    (∀ (gpu : Nat → Option gpuIpcMemHandle_t) (os : OsOutcome) (sz : Nat) (k : List Nat)
        (w w2 : World),
      reg_ipc_with_name hash gpu os p sz k w = some (true, w2) →
      ∃ gh o idx, gpu (p - p % 2 ^ 20) = some gh ∧
        w2.g_ipc_shm_ptr_ ≠ 0 ∧ w2.maps w2.g_ipc_shm_ptr_ = some o ∧
        (w2.objs o).table idx =
          { used := 1, name := ((w2.objs o).table idx).name,
            handle := { handle := gh, offset := p % 2 ^ 20, size := sz } }) ∧
    (∀ (gpu : Nat → Option gpuIpcMemHandle_t) (os : OsOutcome) (sz : Nat) (k : List Nat)
        (w w1 : World) (cur : Nat),
      check_and_get_g_ipc_shm_ptr os w = (cur, w1) → cur ≠ 0 →
      gpu (p - p % 2 ^ 20) = none →
      reg_ipc_with_name hash gpu os p sz k w = none) ∧
    (∀ (gpu : Nat → Option gpuIpcMemHandle_t) (os : OsOutcome) (sz : Nat) (k : List Nat)
        (w w1 : World) (cur o : Nat) (gh : gpuIpcMemHandle_t),
      check_and_get_g_ipc_shm_ptr os w = (cur, w1) → cur ≠ 0 → w1.maps cur = some o →
      gpu (p - p % 2 ^ 20) = some gh →
      (∃ j, ((w1.objs o).table j).used = 0 ∨
        (((w1.objs o).table j).used = 1 ∧
          strncmp ((w1.objs o).table j).name (c_str k) SHM_ITEM_NAME_MAX_LEN = 0)) →
      ∃ idx w2, reg_ipc_with_name hash gpu os p sz k w = some (true, w2) ∧
        w2.g_ipc_shm_ptr_ = cur ∧ w2.maps cur = some o ∧
        ((w2.objs o).table idx).used = 1 ∧
        ((w2.objs o).table idx).handle =
          { handle := gh, offset := p % 2 ^ 20, size := sz }) := by
  have hal := alignment_facts p hp
  refine ⟨hal, ?_, ?_, ?_, ?_⟩
  · intro gpu1 gpu2 os sz k w h
    exact reg_congr_gpu hash gpu1 gpu2 os p sz k w (by rw [hal.1]; exact h)
  · intro gpu os sz k w w2 h
    obtain ⟨gh, o, idx, hg, hc, hm, he⟩ := reg_stores hash gpu h
    rw [hal.2.2.2.1] at he
    rw [hal.1] at hg
    exact ⟨gh, o, idx, hg, hc, hm, he⟩
  · intro gpu os sz k w w1 cur hca hcur hg
    exact reg_gpu_fails hash gpu p sz k hca hcur (by rw [hal.1]; exact hg)
  · intro gpu os sz k w w1 cur o gh hca hcur hmap hg hex
    obtain ⟨idx, w2, h1, h2, h3, h4, h5⟩ := reg_true_stores hash gpu p sz k hca hcur hmap
      (by rw [hal.1]; exact hg) hex
    rw [hal.2.2.2.1] at h5
    exact ⟨idx, w2, h1, h2, h3, h4, h5⟩

theorem C15_alignment_witness :
    (3 * 2 ^ 20 + 5 < 2 ^ 64) ∧
    (reg_ipc_with_name hashFive (fun _ => none) osOk (3 * 2 ^ 20 + 5) 100 [97] emptyWorld =
      none) ∧
    (∃ idx w2, reg_ipc_with_name hashFive gpuOk osOk (3 * 2 ^ 20 + 5) 100 [97] emptyWorld =
        some (true, w2) ∧
      w2.g_ipc_shm_ptr_ = 4096 ∧ w2.maps 4096 = some 0 ∧
      ((w2.objs 0).table idx).used = 1 ∧
      ((w2.objs 0).table idx).handle =
        { handle := 3 * 2 ^ 20 + 7, offset := 5, size := 100 }) ∧
    (∃ w2, reg_ipc_with_name hashFive gpuOk osOk (3 * 2 ^ 20 + 5) 100 [97] emptyWorld =
        some (true, w2) ∧
      ∃ gh o idx, gpuOk (3 * 2 ^ 20) = some gh ∧
        w2.g_ipc_shm_ptr_ ≠ 0 ∧ w2.maps w2.g_ipc_shm_ptr_ = some o ∧
        (w2.objs o).table idx =
          { used := 1, name := ((w2.objs o).table idx).name,
            handle := { handle := gh, offset := 5, size := 100 } }) ∧
    ((3 * 2 ^ 20 + 5) &&& ((UINT64_RANGE - 1) ^^^ (kIpcAlignment - 1)) = 3 * 2 ^ 20 ∧
      (3 * 2 ^ 20 + 5) - ((3 * 2 ^ 20 + 5) &&& ((UINT64_RANGE - 1) ^^^ (kIpcAlignment - 1))) =
        5) :=
  ⟨by decide,
    (C15_alignment hashFive (3 * 2 ^ 20 + 5) (by decide)).2.2.2.1 (fun _ => none) osOk 100
      [97] emptyWorld attachedWorld 4096 check_and_get_emptyWorld (by decide) rfl,
    (C15_alignment hashFive (3 * 2 ^ 20 + 5) (by decide)).2.2.2.2 gpuOk osOk 100 [97]
      emptyWorld attachedWorld 4096 0 (3 * 2 ^ 20 + 7) check_and_get_emptyWorld (by decide)
      attachedWorld_maps rfl ⟨⟨0, by decide⟩, Or.inl (by rw [attachedWorld_seg]; rfl)⟩,
    ⟨worldA, rfl,
      (C15_alignment hashFive (3 * 2 ^ 20 + 5) (by decide)).2.2.1 gpuOk osOk 100 [97]
        emptyWorld worldA rfl⟩,
    ⟨(C15_alignment hashFive (3 * 2 ^ 20 + 5) (by decide)).1.1,
      (C15_alignment hashFive (3 * 2 ^ 20 + 5) (by decide)).1.2.2.2.1⟩⟩

/-- C17 (teardown trigger): with the segment available, `dereg_ipc_with_name` returns,
found or not; if `itemcount` before its decrement was exactly 1 the state it leaves is
the result of one `shm_detach_with_name` of the mapped address (the address is unmapped,
`refcount` decremented once), and otherwise the address stays mapped and cache, namespace
and `refcount` are untouched; `reg_ipc_with_name` leaves mappings, cache, namespace and
`refcount` as they were when the segment became available, and the two lookups return
that state unchanged. -/
theorem C17_teardown_trigger (hash : List Nat → Nat)
    (gpuIpcGetMemHandle : Nat → Option gpuIpcMemHandle_t)
    (os : OsOutcome) (w w1 : World) (cur o p sz : Nat) (k : List Nat)
    (hca : check_and_get_g_ipc_shm_ptr os w = (cur, w1)) (hcur : cur ≠ 0)
    (hmap : w1.maps cur = some o) :
    (∃ w2, dereg_ipc_with_name hash os k w =
        some ((probe (fun j => entryMatches k ((w1.objs o).table j))
          (hash k % SHM_ITEM_COUNT) SHM_ITEM_COUNT 0).isSome, w2) ∧
      ((w1.objs o).header.itemcount = 1 →
        shm_detach_with_name cur IPC_SHM_PATH (w1.store o (deregWrite (w1.objs o)
          (probe (fun j => entryMatches k ((w1.objs o).table j))
            (hash k % SHM_ITEM_COUNT) SHM_ITEM_COUNT 0))) = some (true, w2) ∧
        w2.maps cur = none ∧
        (w2.objs o).header.refcount = fetch_sub_1 (w1.objs o).header.refcount) ∧
      ((w1.objs o).header.itemcount ≠ 1 →
        w2 = w1.store o (deregWrite (w1.objs o)
          (probe (fun j => entryMatches k ((w1.objs o).table j))
            (hash k % SHM_ITEM_COUNT) SHM_ITEM_COUNT 0)) ∧
        w2.maps cur = some o ∧ w2.g_ipc_shm_ptr_ = w1.g_ipc_shm_ptr_ ∧ w2.named = w1.named ∧
        (w2.objs o).header.refcount = (w1.objs o).header.refcount)) ∧
    (∀ b w2, reg_ipc_with_name hash gpuIpcGetMemHandle os p sz k w = some (b, w2) →
      w2.maps = w1.maps ∧ w2.g_ipc_shm_ptr_ = w1.g_ipc_shm_ptr_ ∧ w2.named = w1.named ∧
      (w2.objs o).header.refcount = (w1.objs o).header.refcount) ∧
    (∃ h, get_ipc_by_name_once hash os k w = some (h, w1)) ∧
    (∃ c, check_ipc_by_name_once hash os k w = some (c, w1)) := by
  refine ⟨dereg_detach_iff hash k hca hcur hmap,
    fun b w2 h => reg_no_detach hash gpuIpcGetMemHandle hca hcur hmap h, ?_, ?_⟩
  · rw [(lookup_eq hash k hca hcur hmap).1]
    cases probe (fun j => entryMatches k ((w1.objs o).table j)) (hash k % SHM_ITEM_COUNT)
        SHM_ITEM_COUNT 0 with
    | none => exact ⟨_, rfl⟩
    | some idx => exact ⟨_, rfl⟩
  · rw [(lookup_eq hash k hca hcur hmap).2]
    cases probe (fun j => entryMatches k ((w1.objs o).table j)) (hash k % SHM_ITEM_COUNT)
        SHM_ITEM_COUNT 0 with
    | none => exact ⟨_, rfl⟩
    | some idx => exact ⟨_, rfl⟩

theorem C17_teardown_trigger_witness :
    (∃ w2, dereg_ipc_with_name hashFive osFail [97] worldA =
        some ((probe (fun j => entryMatches [97] ((worldA.objs 0).table j))
          (hashFive [97] % SHM_ITEM_COUNT) SHM_ITEM_COUNT 0).isSome, w2) ∧
      ((worldA.objs 0).header.itemcount = 1 →
        shm_detach_with_name 4096 IPC_SHM_PATH (worldA.store 0 (deregWrite (worldA.objs 0)
          (probe (fun j => entryMatches [97] ((worldA.objs 0).table j))
            (hashFive [97] % SHM_ITEM_COUNT) SHM_ITEM_COUNT 0))) = some (true, w2) ∧
        w2.maps 4096 = none ∧
        (w2.objs 0).header.refcount = fetch_sub_1 (worldA.objs 0).header.refcount) ∧
      ((worldA.objs 0).header.itemcount ≠ 1 →
        w2 = worldA.store 0 (deregWrite (worldA.objs 0)
          (probe (fun j => entryMatches [97] ((worldA.objs 0).table j))
            (hashFive [97] % SHM_ITEM_COUNT) SHM_ITEM_COUNT 0)) ∧
        w2.maps 4096 = some 0 ∧ w2.g_ipc_shm_ptr_ = worldA.g_ipc_shm_ptr_ ∧
        w2.named = worldA.named ∧
        (w2.objs 0).header.refcount = (worldA.objs 0).header.refcount)) ∧
    (∀ b w2, reg_ipc_with_name hashFive gpuOk osFail 5 100 [97] worldA = some (b, w2) →
      w2.maps = worldA.maps ∧ w2.g_ipc_shm_ptr_ = worldA.g_ipc_shm_ptr_ ∧
      w2.named = worldA.named ∧
      (w2.objs 0).header.refcount = (worldA.objs 0).header.refcount) ∧
    (∃ h, get_ipc_by_name_once hashFive osFail [97] worldA = some (h, worldA)) ∧
    (∃ c, check_ipc_by_name_once hashFive osFail [97] worldA = some (c, worldA)) :=
  C17_teardown_trigger hashFive gpuOk osFail worldA worldA 4096 0 5 100 [97] rfl (by decide) rfl

/-- C18 (probe coverage): for every hash value `H`, with `h = H mod 1024`, iteration `i`
of the probe loops visits index `(h + i) mod 1024`, which is in bounds; over
`i = 0..1023` the indices are a permutation of `0..1023` (the map from iterations to
slots is injective and onto), the first index is `h`; and so a full pass of the lookup
loop ends without a hit exactly when no slot matches, a full pass of the register loop
returns false exactly when no slot is hit. -/
theorem C18_probe_coverage (H : Nat) :
    (∀ i, (slot (H % SHM_ITEM_COUNT) i).val = (H % SHM_ITEM_COUNT + i) % SHM_ITEM_COUNT) ∧
    (∀ i, (slot (H % SHM_ITEM_COUNT) i).val < SHM_ITEM_COUNT) ∧
    Function.Injective (fun i : Fin SHM_ITEM_COUNT => slot (H % SHM_ITEM_COUNT) i.val) ∧
    Function.Surjective (fun i : Fin SHM_ITEM_COUNT => slot (H % SHM_ITEM_COUNT) i.val) ∧
    List.Perm ((List.range SHM_ITEM_COUNT).map (fun i => (slot (H % SHM_ITEM_COUNT) i).val))
      (List.range SHM_ITEM_COUNT) ∧
    (slot (H % SHM_ITEM_COUNT) 0).val = H % SHM_ITEM_COUNT ∧
    (∀ (name : List Nat) (table : Fin SHM_ITEM_COUNT → IPCEntry),
      find_loop name (H % SHM_ITEM_COUNT) table SHM_ITEM_COUNT 0 = none ↔
        ∀ j, entryMatches name (table j) = false) ∧
    (∀ (name : List Nat) (handle : IPCMemHandle) (seg : Segment),
      (reg_loop name handle (H % SHM_ITEM_COUNT) SHM_ITEM_COUNT 0 seg).1 = false ↔
        ∀ j, regHit name (seg.table j) = false) := by
  refine ⟨fun i => rfl, fun i => (slot _ i).isLt, slot_injective _, slot_surjective _,
    slot_perm _, ?_, ?_, ?_⟩
  · show (H % SHM_ITEM_COUNT + 0) % SHM_ITEM_COUNT = H % SHM_ITEM_COUNT
    rw [Nat.add_zero, Nat.mod_mod]
  · intro name table
    rw [find_loop_eq_probe, probe_full_eq_none]
  · intro name handle seg
    rw [reg_loop_eq_probe, ← probe_full_eq_none (h := H % SHM_ITEM_COUNT)]
    cases probe (fun j => regHit name (seg.table j)) (H % SHM_ITEM_COUNT) SHM_ITEM_COUNT 0 with
    | none => simp
    | some idx => simp

/-- C20 (key independence): with the segment attached, for two distinct keys `k` and
`k2` that have no NUL byte and are each at most 63 bytes long, a call of
`reg_ipc_with_name(p, S, k)` that returns leaves the values of
`get_ipc_by_name_once(k2)` and `check_ipc_by_name_once(k2)` as they were, and so does
`dereg_ipc_with_name(k)`, which returns, when it does not trigger the teardown
(`itemcount` is not 1 before it). -/
theorem C20_key_independence (hash : List Nat → Nat)
    (gpuIpcGetMemHandle : Nat → Option gpuIpcMemHandle_t)
    (os os2 : OsOutcome) (w : World) (o p sz : Nat) (k k2 : List Nat)
    (hcur : w.g_ipc_shm_ptr_ ≠ 0) (hmap : w.maps w.g_ipc_shm_ptr_ = some o)
    (hz : ∀ c ∈ k, c ≠ 0) (hz2 : ∀ c ∈ k2, c ≠ 0) (hl : k.length ≤ 63)
    (_hl2 : k2.length ≤ 63) (hne : k ≠ k2) :
    (∀ b w2, reg_ipc_with_name hash gpuIpcGetMemHandle os p sz k w = some (b, w2) →
      (get_ipc_by_name_once hash os2 k2 w2).map Prod.fst =
        (get_ipc_by_name_once hash os2 k2 w).map Prod.fst ∧
      (check_ipc_by_name_once hash os2 k2 w2).map Prod.fst =
        (check_ipc_by_name_once hash os2 k2 w).map Prod.fst) ∧
    ((w.objs o).header.itemcount ≠ 1 →
      ∃ b w2, dereg_ipc_with_name hash os k w = some (b, w2) ∧
        (get_ipc_by_name_once hash os2 k2 w2).map Prod.fst =
          (get_ipc_by_name_once hash os2 k2 w).map Prod.fst ∧
        (check_ipc_by_name_once hash os2 k2 w2).map Prod.fst =
          (check_ipc_by_name_once hash os2 k2 w).map Prod.fst) :=
  key_independence hash gpuIpcGetMemHandle os os2 w o p sz k k2 hcur hmap hz hz2 hl hne

theorem C20_key_independence_witness :
    (∀ b w2, reg_ipc_with_name hashFive gpuOk osFail 5 100 [97] worldA2 = some (b, w2) →
      (get_ipc_by_name_once hashFive osFail [98] w2).map Prod.fst =
        (get_ipc_by_name_once hashFive osFail [98] worldA2).map Prod.fst ∧
      (check_ipc_by_name_once hashFive osFail [98] w2).map Prod.fst =
        (check_ipc_by_name_once hashFive osFail [98] worldA2).map Prod.fst) ∧
    ((worldA2.objs 0).header.itemcount ≠ 1 →
      ∃ b w2, dereg_ipc_with_name hashFive osFail [97] worldA2 = some (b, w2) ∧
        (get_ipc_by_name_once hashFive osFail [98] w2).map Prod.fst =
          (get_ipc_by_name_once hashFive osFail [98] worldA2).map Prod.fst ∧
        (check_ipc_by_name_once hashFive osFail [98] w2).map Prod.fst =
          (check_ipc_by_name_once hashFive osFail [98] worldA2).map Prod.fst) :=
  C20_key_independence hashFive gpuOk osFail osFail worldA2 0 5 100 [97] [98]
    (by decide) rfl (by decide) (by decide) (by decide) (by decide) (by decide)

/-- C13 as stated fails: with the segment unavailable (`osFail` on `emptyWorld`) the
blocking lookup of the key "a" returns in its first pass, and what it returns is the
zero-initialised empty handle, although no slot of any object matches the key. -/
theorem C13_returns_empty_when_unavailable :
    get_ipc_by_name_blocking hashFive (fun _ w => w) osFail [97] emptyWorld 1 =
      .returned null_handle emptyWorld ∧
    null_handle = { handle := 0, offset := 0, size := 0 } ∧
    ∀ o j, entryMatches [97] ((emptyWorld.objs o).table j) = false :=
  ⟨rfl, rfl, fun _ _ => rfl⟩

/-- C13 (blocking lookup, amended): let `check_and_get_g_ipc_shm_ptr` answer `cur`. If
`cur` is null the call returns the empty handle at once. If `cur` is not null, whatever
the call returns is the handle stored in an Occupied slot whose stored name matches the
key, in the state it returns in; and it does return: if the passes `0, ..., m - 1` find
no match and pass `m` starts in a state with a match, the call returns in pass `m` the
handle of the first match in probe order. -/
theorem C13_blocking_lookup (hash : List Nat → Nat) (sleep : Nat → World → World)
    (os : OsOutcome) (name : List Nat) (w w1 : World) (cur : Nat)
    (hca : check_and_get_g_ipc_shm_ptr os w = (cur, w1)) :
    (cur = 0 → ∀ passes,
      get_ipc_by_name_blocking hash sleep os name w passes = .returned null_handle w1) ∧
    (cur ≠ 0 → ∀ passes h w2,
      get_ipc_by_name_blocking hash sleep os name w passes = .returned h w2 →
      ∃ o idx, w2.maps cur = some o ∧ entryMatches name ((w2.objs o).table idx) = true ∧
        h = ((w2.objs o).table idx).handle) ∧
    (cur ≠ 0 → ∀ m o,
      (∀ i, i < m → ∃ o2, (wake sleep i w1).maps cur = some o2 ∧
        ∀ j, entryMatches name (((wake sleep i w1).objs o2).table j) = false) →
      (wake sleep m w1).maps cur = some o →
      (∃ j, entryMatches name (((wake sleep m w1).objs o).table j) = true) →
      ∃ idx, probe (fun j => entryMatches name (((wake sleep m w1).objs o).table j))
          (hash name % SHM_ITEM_COUNT) SHM_ITEM_COUNT 0 = some idx ∧
        ∀ n, get_ipc_by_name_blocking hash sleep os name w (m + (n + 1)) =
          .returned (((wake sleep m w1).objs o).table idx).handle (wake sleep m w1)) :=
  blocking_spec hash sleep os name w w1 cur hca

theorem C13_blocking_lookup_witness :
    check_and_get_g_ipc_shm_ptr osOk emptyWorld = (4096, attachedWorld) ∧
    (((4096 : Nat) = 0 → ∀ passes,
      get_ipc_by_name_blocking hashFive (fun _ _ => worldA) osOk [97] emptyWorld passes =
        .returned null_handle attachedWorld) ∧
    ((4096 : Nat) ≠ 0 → ∀ passes h w2,
      get_ipc_by_name_blocking hashFive (fun _ _ => worldA) osOk [97] emptyWorld passes =
        .returned h w2 →
      ∃ o idx, w2.maps 4096 = some o ∧ entryMatches [97] ((w2.objs o).table idx) = true ∧
        h = ((w2.objs o).table idx).handle) ∧
    ((4096 : Nat) ≠ 0 → ∀ m o,
      (∀ i, i < m → ∃ o2, (wake (fun _ _ => worldA) i attachedWorld).maps 4096 = some o2 ∧
        ∀ j, entryMatches [97]
          (((wake (fun _ _ => worldA) i attachedWorld).objs o2).table j) = false) →
      (wake (fun _ _ => worldA) m attachedWorld).maps 4096 = some o →
      (∃ j, entryMatches [97]
        (((wake (fun _ _ => worldA) m attachedWorld).objs o).table j) = true) →
      ∃ idx, probe (fun j => entryMatches [97]
            (((wake (fun _ _ => worldA) m attachedWorld).objs o).table j))
          (hashFive [97] % SHM_ITEM_COUNT) SHM_ITEM_COUNT 0 = some idx ∧
        ∀ n, get_ipc_by_name_blocking hashFive (fun _ _ => worldA) osOk [97] emptyWorld
            (m + (n + 1)) =
          .returned (((wake (fun _ _ => worldA) m attachedWorld).objs o).table idx).handle
            (wake (fun _ _ => worldA) m attachedWorld))) :=
  ⟨check_and_get_emptyWorld,
    C13_blocking_lookup hashFive (fun _ _ => worldA) osOk [97] emptyWorld attachedWorld 4096
      check_and_get_emptyWorld⟩

/-- C14 fails: from a state in which the object does not exist, two calls of
`shm_open_or_attach` overlap (`overlapSchedule`): the first creates and maps the object,
the second attaches and counts itself, then the first runs its `memset` and
`refcount.store(0)` and counts itself. Both calls return a non-null address (4096 and
8192, both mapped to the one object), yet the refcount is 1 and not 2. When the first
call returns before the second starts the refcount is 2, and a caller that runs alone
does what `shm_open_or_attach` does. -/
theorem C14_overlapping_attach_loses_count :
    ((soa_run osOk osOk2 IPC_SHM_PATH overlapSchedule (.start, .start, emptyWorld)).1 =
        .done 4096 ∧
      (soa_run osOk osOk2 IPC_SHM_PATH overlapSchedule (.start, .start, emptyWorld)).2.1 =
        .done 8192 ∧
      (soa_run osOk osOk2 IPC_SHM_PATH overlapSchedule
        (.start, .start, emptyWorld)).2.2.named ipcShmName = some 0 ∧
      (soa_run osOk osOk2 IPC_SHM_PATH overlapSchedule
        (.start, .start, emptyWorld)).2.2.maps 4096 = some 0 ∧
      (soa_run osOk osOk2 IPC_SHM_PATH overlapSchedule
        (.start, .start, emptyWorld)).2.2.maps 8192 = some 0 ∧
      ((soa_run osOk osOk2 IPC_SHM_PATH overlapSchedule
        (.start, .start, emptyWorld)).2.2.objs 0).header.refcount = 1) ∧
    ((soa_run osOk osOk2 IPC_SHM_PATH inTurnSchedule (.start, .start, emptyWorld)).1 =
        .done 4096 ∧
      (soa_run osOk osOk2 IPC_SHM_PATH inTurnSchedule (.start, .start, emptyWorld)).2.1 =
        .done 8192 ∧
      ((soa_run osOk osOk2 IPC_SHM_PATH inTurnSchedule
        (.start, .start, emptyWorld)).2.2.objs 0).header.refcount = 2 ∧
      (soa_run osOk osOk2 IPC_SHM_PATH inTurnSchedule (.start, .start, emptyWorld)).2.2 =
        (shm_open_or_attach osOk2 IPC_SHM_PATH
          (shm_open_or_attach osOk IPC_SHM_PATH emptyWorld).2).2) ∧
    (∀ (os os2 : OsOutcome) (n : List Nat) (t2 : SoaThread) (w : World),
      soa_run os os2 n [false, false, false, false, false] (.start, t2, w) =
        (.done (shm_open_or_attach os n w).1, t2, (shm_open_or_attach os n w).2)) :=
  ⟨overlap_outcome, inTurn_outcome, soa_run_solo⟩

/-- C16 fails: two threads of one process call `check_and_get_g_ipc_shm_ptr` on a null
cache and both load it before either installs (`raceSchedule`). Both return the same
address 4096 and only that address is mapped, but the refcount of the segment is 2: the
thread that loses the compare-exchange unmaps its mapping and keeps its increment. When
the first thread returns before the second starts the refcount is 1, and a thread that
runs alone does what `check_and_get_g_ipc_shm_ptr` does. -/
theorem C16_race_leaks_refcount :
    ((cag_run osOk osOk2 raceSchedule (.start, .start, emptyWorld)).1 = .done 4096 ∧
      (cag_run osOk osOk2 raceSchedule (.start, .start, emptyWorld)).2.1 = .done 4096 ∧
      (cag_run osOk osOk2 raceSchedule (.start, .start, emptyWorld)).2.2.g_ipc_shm_ptr_ =
        4096 ∧
      (cag_run osOk osOk2 raceSchedule (.start, .start, emptyWorld)).2.2.named ipcShmName =
        some 0 ∧
      (∀ a, (cag_run osOk osOk2 raceSchedule (.start, .start, emptyWorld)).2.2.maps a ≠ none ↔
        a = 4096) ∧
      ((cag_run osOk osOk2 raceSchedule
        (.start, .start, emptyWorld)).2.2.objs 0).header.refcount = 2) ∧
    ((cag_run osOk osOk2 [false, false, false, true, true, true]
        (.start, .start, emptyWorld)).1 = .done 4096 ∧
      (cag_run osOk osOk2 [false, false, false, true, true, true]
        (.start, .start, emptyWorld)).2.1 = .done 4096 ∧
      ((cag_run osOk osOk2 [false, false, false, true, true, true]
        (.start, .start, emptyWorld)).2.2.objs 0).header.refcount = 1) ∧
    (∀ (os os2 : OsOutcome) (t2 : CagThread) (w : World),
      cag_run os os2 [false, false, false] (.start, t2, w) =
        (.done (check_and_get_g_ipc_shm_ptr os w).1, t2,
          (check_and_get_g_ipc_shm_ptr os w).2)) :=
  ⟨race_outcome, ⟨rfl, rfl, rfl⟩, cag_run_solo⟩

end Allocator
